import Mathlib

/-!
# marketplace-cli: product repository, domain lookups and the create/list commands

A shallow embedding of `pkg/product.go` (`GetProduct`, `PutProduct`, `ListProducts`),
of `cmd/ova.go` (`CreateOVACmd`) and of the domain lookups they call, with the
properties of the specification stated and proved over that embedding.

Conventions of the embedding.

* A Go `string` is a Lean `String`; a Go `int` is an `Int` (range checks are explicit
  where the program depends on them).
* A Go `error` is a `GoError`: a message, and for `fmt.Errorf` with `%w` the wrapped cause.
* A Go function returning `(value, error)` returns a pair of options; a run that would
  dereference a nil pointer ends in `Run.panicked`.
* The HTTP client is a parameter: a function from the requests issued so far and the
  current request to what `Do` returns.  Every function that talks to the backend takes
  the log of requests issued so far and returns the extended log.
* `encoding/json` is embedded as a document tree (`Json`), a renderer and a parser for
  the text form, and per-type encoders and decoders over the tree.
-/

/-! ## Go errors and runs -/

/-- A Go `error` value: `errorString` for `errors.New` and `fmt.Errorf` without `%w`,
`wrapError` for `fmt.Errorf` with `%w` (message and wrapped cause). -/
inductive GoError where
  | errorString (msg : String)
  | wrapError (msg : String) (err : GoError)
  deriving Repr, DecidableEq

namespace GoError

/-- The method `Error()`. -/
def Error : GoError → String
  | errorString msg => msg
  | wrapError msg _ => msg

/-- The method `Unwrap()`: the cause wrapped with `%w`, if any. -/
def Unwrap : GoError → Option GoError
  | errorString _ => none
  | wrapError _ err => some err

end GoError

/-- The call `fmt.Errorf(format, ...)` without `%w`, the message already formatted. -/
def Errorf (msg : String) : GoError := GoError.errorString msg

/-- The call `fmt.Errorf("<context>%w", ..., err)`: the message is the context followed
by the message of `err`, and the result wraps `err`. -/
def ErrorfW (context : String) (err : GoError) : GoError :=
  GoError.wrapError (context ++ err.Error) err

/-- How a Go call ends: it returns, or it panics (nil dereference, index out of range). -/
inductive Run (α : Type) where
  | returned (v : α)
  | panicked (reason : String)
  deriving Repr, DecidableEq

/-! ## Decimal formatting (`%d`, and numbers in JSON text) -/

/-- Decimal digits of a natural number. -/
def renderNat (n : Nat) : List Char := Nat.toDigits 10 n

/-- Decimal form of an integer, as `%d` and `strconv.Itoa` print it. -/
def renderInt : Int → List Char
  | Int.ofNat n => renderNat n
  | Int.negSucc n => '-' :: renderNat (n + 1)

/-- The verb `%d` applied to an integer. -/
def fmtInt (n : Int) : String := String.mk (renderInt n)

/-- The function `strconv.FormatBool`. -/
def FormatBool (b : Bool) : String := if b then "true" else "false"

/-! ## JSON documents -/

/-- A JSON document.  A number literal with a fraction or an exponent is kept as its
text (`float`); an integer literal is kept as its value. -/
inductive Json where
  | null
  | bool (b : Bool)
  | num (n : Int)
  | float (lit : String)
  | str (s : String)
  | arr (xs : List Json)
  | obj (kvs : List (String × Json))

/-- Lower-case hexadecimal digit. -/
def hexDigit (d : Nat) : Char := ['0', '1', '2', '3', '4', '5', '6', '7', '8', '9',
  'a', 'b', 'c', 'd', 'e', 'f'].getD d '0'

/-- Four hexadecimal digits of a number below 65536. -/
def hex4 (n : Nat) : List Char :=
  [hexDigit (n / 4096 % 16), hexDigit (n / 256 % 16), hexDigit (n / 16 % 16), hexDigit (n % 16)]

/-- How `json.Marshal` writes one character of a string: quote, backslash and the
control characters are escaped, and so are `<`, `>`, `&`, U+2028 and U+2029. -/
def escapeChar (c : Char) : List Char :=
  if c = '"' then ['\\', '"']
  else if c = '\\' then ['\\', '\\']
  else if c = '\n' then ['\\', 'n']
  else if c = '\r' then ['\\', 'r']
  else if c = '\t' then ['\\', 't']
  else if c.toNat < 32 ∨ c = '<' ∨ c = '>' ∨ c = '&' ∨ c.toNat = 8232 ∨ c.toNat = 8233 then
    '\\' :: 'u' :: hex4 c.toNat
  else [c]

/-- The characters of a string, each one escaped. -/
def escapeChars : List Char → List Char
  | [] => []
  | c :: cs => escapeChar c ++ escapeChars cs

/-- A string literal of JSON text. -/
def renderString (s : String) : List Char :=
  '"' :: (escapeChars s.data ++ ['"'])

mutual
/-- The text of a document, without insignificant white space, as `json.Marshal` writes it. -/
def Json.render : Json → List Char
  | .null => ['n', 'u', 'l', 'l']
  | .bool true => ['t', 'r', 'u', 'e']
  | .bool false => ['f', 'a', 'l', 's', 'e']
  | .num n => renderInt n
  | .float lit => lit.data
  | .str s => renderString s
  | .arr xs => '[' :: (renderElems xs ++ [']'])
  | .obj kvs => '\x7b' :: (renderMembers kvs ++ ['\x7d'])
/-- The elements of an array, separated by commas. -/
def renderElems : List Json → List Char
  | [] => []
  | x :: xs =>
    match xs with
    | [] => x.render
    | _ :: _ => x.render ++ ',' :: renderElems xs
/-- The members of an object, separated by commas. -/
def renderMembers : List (String × Json) → List Char
  | [] => []
  | (k, v) :: rest =>
    match rest with
    | [] => renderString k ++ ':' :: v.render
    | _ :: _ => renderString k ++ ':' :: (v.render ++ ',' :: renderMembers rest)
end

/-- Insignificant white space of JSON text. -/
def isWs (c : Char) : Bool := c = ' ' || c = '\t' || c = '\n' || c = '\r'

/-- Drops leading white space. -/
def skipWs : List Char → List Char
  | [] => []
  | c :: cs => if isWs c then skipWs cs else c :: cs

/-- A decimal digit. -/
def isDigit (c : Char) : Bool := decide (48 ≤ c.toNat ∧ c.toNat ≤ 57)

/-- Value of a hexadecimal digit, upper or lower case. -/
def hexVal (c : Char) : Option Nat :=
  if 48 ≤ c.toNat ∧ c.toNat ≤ 57 then some (c.toNat - 48)
  else if 97 ≤ c.toNat ∧ c.toNat ≤ 102 then some (c.toNat - 87)
  else if 65 ≤ c.toNat ∧ c.toNat ≤ 70 then some (c.toNat - 55)
  else none

/-- Reads four hexadecimal digits. -/
def parseHex4 : List Char → Option (Nat × List Char)
  | a :: b :: c :: d :: rest =>
    match hexVal a, hexVal b, hexVal c, hexVal d with
    | some x, some y, some z, some w => some (((x * 16 + y) * 16 + z) * 16 + w, rest)
    | _, _, _, _ => none
  | _ => none

/-- The character a one-letter escape stands for. -/
def unescape (c : Char) : Option Char :=
  if c = '"' then some '"'
  else if c = '\\' then some '\\'
  else if c = '/' then some '/'
  else if c = 'b' then some (Char.ofNat 8)
  else if c = 'f' then some (Char.ofNat 12)
  else if c = 'n' then some '\n'
  else if c = 'r' then some '\r'
  else if c = 't' then some '\t'
  else none

/-- Reads the rest of a string literal, after its opening quote: the characters of the
string and the text after the closing quote.  A raw control character is rejected; an
escaped surrogate pair is combined, a lone surrogate becomes U+FFFD.  The first argument
bounds the number of characters read. -/
def parseStringBody : Nat → List Char → Option (List Char × List Char)
  | 0, _ => none
  | _ + 1, [] => none
  | fuel + 1, c :: rest =>
    if c = '"' then some ([], rest)
    else if c = '\\' then
      match rest with
      | [] => none
      | e :: rest1 =>
        if e = 'u' then
          match parseHex4 rest1 with
          | none => none
          | some (n, rest2) =>
            if 55296 ≤ n ∧ n < 56320 then
              match rest2 with
              | '\\' :: 'u' :: rest3 =>
                match parseHex4 rest3 with
                | some (m, rest4) =>
                  if 56320 ≤ m ∧ m < 57344 then
                    (parseStringBody fuel rest4).map
                      (fun r => (Char.ofNat (65536 + (n - 55296) * 1024 + (m - 56320)) :: r.1, r.2))
                  else (parseStringBody fuel rest2).map (fun r => (Char.ofNat 65533 :: r.1, r.2))
                | none => none
              | _ => (parseStringBody fuel rest2).map (fun r => (Char.ofNat 65533 :: r.1, r.2))
            else if 56320 ≤ n ∧ n < 57344 then
              (parseStringBody fuel rest2).map (fun r => (Char.ofNat 65533 :: r.1, r.2))
            else (parseStringBody fuel rest2).map (fun r => (Char.ofNat n :: r.1, r.2))
        else
          match unescape e with
          | none => none
          | some ch => (parseStringBody fuel rest1).map (fun r => (ch :: r.1, r.2))
    else if c.toNat < 32 then none
    else (parseStringBody fuel rest).map (fun r => (c :: r.1, r.2))

/-- Reads a string literal after its opening quote. -/
def parseString (cs : List Char) : Option (String × List Char) :=
  (parseStringBody cs.length cs).map (fun r => (String.mk r.1, r.2))

/-- Splits a text into its leading decimal digits and the rest. -/
def takeDigits : List Char → List Char × List Char
  | [] => ([], [])
  | c :: cs => if isDigit c then (c :: (takeDigits cs).1, (takeDigits cs).2) else ([], c :: cs)

/-- Value of a run of decimal digits. -/
def digitsValue (ds : List Char) : Nat :=
  ds.foldl (fun acc c => acc * 10 + (c.toNat - 48)) 0

/-- The optional fraction of a number literal: a point and at least one digit. -/
def parseFraction (cs : List Char) : Option (List Char × List Char) :=
  match cs with
  | [] => some ([], [])
  | c :: rest =>
    if c = '.' then
      match takeDigits rest with
      | ([], _) => none
      | (ds, rest1) => some ('.' :: ds, rest1)
    else some ([], cs)

/-- The optional exponent of a number literal: `e` or `E`, a sign, at least one digit. -/
def parseExponent (cs : List Char) : Option (List Char × List Char) :=
  match cs with
  | [] => some ([], [])
  | c :: rest =>
    if c = 'e' ∨ c = 'E' then
      match rest with
      | [] => none
      | s :: rest1 =>
        if s = '+' ∨ s = '-' then
          match takeDigits rest1 with
          | ([], _) => none
          | (ds, rest2) => some (c :: s :: ds, rest2)
        else
          match takeDigits rest with
          | ([], _) => none
          | (ds, rest2) => some (c :: ds, rest2)
    else some ([], cs)

/-- Reads the digits, fraction and exponent of a number literal whose sign has been read.
A leading zero followed by another digit is rejected. -/
def parseUnsigned (neg : Bool) (cs : List Char) : Option (Json × List Char) :=
  match takeDigits cs with
  | ([], _) => none
  | (d :: ds, rest) =>
    if d = '0' ∧ ds ≠ [] then none
    else
      match parseFraction rest with
      | none => none
      | some (frac, rest1) =>
        match parseExponent rest1 with
        | none => none
        | some (exp, rest2) =>
          if frac = [] ∧ exp = [] then
            some (Json.num (if neg then -(digitsValue (d :: ds) : Int) else digitsValue (d :: ds)),
              rest2)
          else
            some (Json.float (String.mk ((if neg then ['-'] else []) ++ (d :: ds) ++ frac ++ exp)),
              rest2)

/-- Reads a number literal. -/
def parseNumber (cs : List Char) : Option (Json × List Char) :=
  match cs with
  | [] => none
  | c :: rest => if c = '-' then parseUnsigned true rest else parseUnsigned false cs

mutual
/-- Reads one JSON value and returns it with the text that follows it.  The first
argument bounds the nesting and the number of elements read. -/
def parseValue : Nat → List Char → Option (Json × List Char)
  | 0, _ => none
  | fuel + 1, cs =>
    match skipWs cs with
    | [] => none
    | c :: rest =>
      if c = '"' then (parseString rest).map (fun r => (Json.str r.1, r.2))
      else if c = '[' then
        match skipWs rest with
        | [] => none
        | c1 :: rest1 =>
          if c1 = ']' then some (Json.arr [], rest1)
          else (parseElems fuel rest).map (fun r => (Json.arr r.1, r.2))
      else if c = '\x7b' then
        match skipWs rest with
        | [] => none
        | c1 :: rest1 =>
          if c1 = '\x7d' then some (Json.obj [], rest1)
          else (parseMembers fuel rest).map (fun r => (Json.obj r.1, r.2))
      else if c = 'n' then
        match rest with
        | 'u' :: 'l' :: 'l' :: rest1 => some (Json.null, rest1)
        | _ => none
      else if c = 't' then
        match rest with
        | 'r' :: 'u' :: 'e' :: rest1 => some (Json.bool true, rest1)
        | _ => none
      else if c = 'f' then
        match rest with
        | 'a' :: 'l' :: 's' :: 'e' :: rest1 => some (Json.bool false, rest1)
        | _ => none
      else parseNumber (c :: rest)
/-- Reads the elements of a non-empty array up to and including the closing bracket. -/
def parseElems : Nat → List Char → Option (List Json × List Char)
  | 0, _ => none
  | fuel + 1, cs =>
    match parseValue fuel cs with
    | none => none
    | some (v, rest) =>
      match skipWs rest with
      | [] => none
      | c :: rest1 =>
        if c = ',' then (parseElems fuel rest1).map (fun r => (v :: r.1, r.2))
        else if c = ']' then some ([v], rest1)
        else none
/-- Reads the members of a non-empty object up to and including the closing brace. -/
def parseMembers : Nat → List Char → Option (List (String × Json) × List Char)
  | 0, _ => none
  | fuel + 1, cs =>
    match skipWs cs with
    | [] => none
    | q :: rest =>
      if q = '"' then
        match parseString rest with
        | none => none
        | some (k, rest1) =>
          match skipWs rest1 with
          | [] => none
          | c1 :: rest2 =>
            if c1 = ':' then
              match parseValue fuel rest2 with
              | none => none
              | some (v, rest3) =>
                match skipWs rest3 with
                | [] => none
                | c2 :: rest4 =>
                  if c2 = ',' then (parseMembers fuel rest4).map (fun r => ((k, v) :: r.1, r.2))
                  else if c2 = '\x7d' then some ([(k, v)], rest4)
                  else none
            else none
      else none
end

/-- Parses a whole text as one JSON document: one value, white space around it, nothing
else.  Every call of the parser reads at least one character, so the length of the text
bounds the nesting. -/
def parseJson (text : String) : Option Json :=
  match parseValue (text.data.length + 1) text.data with
  | none => none
  | some (j, rest) => if skipWs rest = [] then some j else none

/-- The text of a document as a string. -/
def Json.text (j : Json) : String := String.mk j.render

/-! ## Decoding a document into Go values

`json.Unmarshal` decodes into an existing value: `null` leaves a string, a number or a
struct as it is and sets a slice or a pointer to nil; a member whose name matches no
field is skipped; a value of the wrong kind is an error.  The names of an object are
matched with the field names without regard to case, as `encoding/json` folds them: the
ASCII letters, and the two other characters that fold to an ASCII letter, U+017F (long
s) and U+212A (Kelvin sign); the members are decoded in the order of the text, so that a
repeated name decodes into the same field again.
The messages of the errors of the library are not part of the embedding: a coarse
message stands for them. -/

/-- The error of `json.Unmarshal` for a text that is not JSON. -/
def jsonInvalidText : GoError := GoError.errorString "invalid JSON text"

/-- The error of `json.Unmarshal` for a value of the wrong kind for its Go type. -/
def jsonTypeMismatch : GoError := GoError.errorString "json: cannot unmarshal value into Go type"

/-- The folded form of a character of a member name: the lower-case ASCII letter of its
case orbit when there is one. -/
def foldChar (c : Char) : Char :=
  if c = Char.ofNat 0x017F then 's' else if c = Char.ofNat 0x212A then 'k' else c.toLower

/-- Folded form of a member name, used to match it with a field name. -/
def foldKey (k : String) : String := String.mk (k.data.map foldChar)

/-- Decodes into a Go `string`. -/
def decodeString (j : Json) (cur : String) : Except GoError String :=
  match j with
  | .str s => .ok s
  | .null => .ok cur
  | _ => .error jsonTypeMismatch

/-- Decodes into a Go `int` (64 bits). -/
def decodeInt (j : Json) (cur : Int) : Except GoError Int :=
  match j with
  | .num n => if -9223372036854775808 ≤ n ∧ n ≤ 9223372036854775807 then .ok n
              else .error jsonTypeMismatch
  | .null => .ok cur
  | _ => .error jsonTypeMismatch

/-- Decodes the elements of an array one after the other; the first error ends it. -/
def decodeAll {α : Type} (elem : Json → Except GoError α) : List Json → Except GoError (List α)
  | [] => .ok []
  | x :: xs =>
    match elem x with
    | .error e => .error e
    | .ok v =>
      match decodeAll elem xs with
      | .error e => .error e
      | .ok vs => .ok (v :: vs)

/-- Decodes into a Go slice: an array gives its elements, each decoded into a fresh
element; `null` gives the nil slice.  The slices of the program hold pointers, and a
`null` element of the array is a nil pointer in Go: the element type here has no nil, so
such an element stands as the zero record, and what a reader of the slice does with a
nil element is not represented. -/
def decodeSlice {α : Type} (elem : Json → Except GoError α) (j : Json) : Except GoError (List α) :=
  match j with
  | .arr xs => decodeAll elem xs
  | .null => .ok []
  | _ => .error jsonTypeMismatch

/-- Decodes the members of an object into a struct, in the order of the text. -/
def decodeFields {α : Type} (field : String → Json → α → Except GoError α) :
    List (String × Json) → α → Except GoError α
  | [], cur => .ok cur
  | (k, v) :: rest, cur =>
    match field (foldKey k) v cur with
    | .error e => .error e
    | .ok next => decodeFields field rest next

/-- Decodes into a Go struct. -/
def decodeStruct {α : Type} (field : String → Json → α → Except GoError α) (j : Json) (cur : α) :
    Except GoError α :=
  match j with
  | .obj kvs => decodeFields field kvs cur
  | .null => .ok cur
  | _ => .error jsonTypeMismatch

/-- Decodes into a Go pointer: `null` gives nil, any other value is decoded into the
value pointed to, allocated with the zero value when the pointer is nil. -/
def decodePtr {α : Type} (inner : Json → α → Except GoError α) (zero : α) (j : Json)
    (cur : Option α) : Except GoError (Option α) :=
  match j with
  | .null => .ok none
  | _ =>
    match inner j (cur.getD zero) with
    | .error e => .error e
    | .ok v => .ok (some v)

/-- Encodes a Go pointer: nil is `null`. -/
def encodePtr {α : Type} (inner : α → Json) : Option α → Json
  | none => .null
  | some v => inner v

/-! ## The domain model (`internal/models`) -/

namespace Models

/-- Modelled from the spec: the type `Version` of `internal/models`, which is not among
the sources: a version record `{Number, Status}` (spec, section 3). -/
structure Version where
  Number : String
  Status : String
  deriving Repr, DecidableEq

/-- Modelled from the spec: the type `Repo` (`{Name, Url}`) of a chart. -/
structure Repo where
  Name : String
  Url : String
  deriving Repr, DecidableEq

/-- Modelled from the spec: the type `ChartVersion`,
`{Id, Version, AppVersion, Repo{Name,Url}, HelmTarUrl, TarUrl}`; `Repo` is a pointer. -/
structure ChartVersion where
  Id : String
  Version : String
  AppVersion : String
  Repo : Option Repo
  HelmTarUrl : String
  TarUrl : String
  deriving Repr, DecidableEq

/-- Modelled from the spec: the type `ProductDeploymentFile` (an OVA),
`{Url, AppVersion, HashDigest, HashAlgo}`, and the field `ItemJson` that `RenderOVAs` reads. -/
structure ProductDeploymentFile where
  Url : String
  AppVersion : String
  HashDigest : String
  HashAlgo : String
  ItemJson : String
  deriving Repr, DecidableEq

/-- Modelled from the spec: a tag of a container image, `{Tag, Type}` as
`RenderContainerImage` reads it (the field `Type` is named `TagType` here). -/
structure DockerImageTag where
  Tag : String
  TagType : String
  deriving Repr, DecidableEq

/-- Modelled from the spec: the type `DockerURLDetails`, `{Url, ImageTags}`. -/
structure DockerURLDetails where
  Url : String
  ImageTags : List DockerImageTag
  deriving Repr, DecidableEq

/-- Modelled from the spec: the type `DockerVersionList`, the container images of one
version: `{AppVersion, DockerURLs, DeploymentInstruction}`. -/
structure DockerVersionList where
  AppVersion : String
  DockerURLs : List DockerURLDetails
  DeploymentInstruction : String
  deriving Repr, DecidableEq

/-- Modelled from the spec: the publisher of a product, of which `CreateOVACmd` reads `OrgId`. -/
structure Publisher where
  OrgId : String
  deriving Repr, DecidableEq

/-- Modelled from the spec: the type `Product`, the aggregate of section 3: identity,
descriptive fields and the version-scoped collections.  The elements of the collections
are records (a nil element is not represented). -/
structure Product where
  ProductId : String
  Slug : String
  DisplayName : String
  SolutionType : String
  PublisherDetails : Publisher
  AllVersions : List Version
  ChartVersions : List ChartVersion
  ProductDeploymentFiles : List ProductDeploymentFile
  DockerLinkVersions : List DockerVersionList
  DeploymentTypes : List String
  deriving Repr, DecidableEq

/-- Modelled from the spec: the constant `models.HashAlgoSHA1`. -/
def HashAlgoSHA1 : String := "SHA1"

/-- Modelled from the spec: the constant for the deployment type of charts. -/
def DeploymentTypeHelm : String := "HELM"

/-! ### Lookups (spec, section 4.2) -/

/-- The loop of `HasVersion`: exact match of `number` with the `Number` of the versions. -/
def hasVersionIn : List Version → String → Bool
  | [], _ => false
  | v :: vs, number => if v.Number = number then true else hasVersionIn vs number

/-- Modelled from the spec: the method `HasVersion` of `internal/models`, which is not
among the sources: "exact string match against `AllVersions[].Number`". -/
def Product.HasVersion (product : Product) (number : String) : Bool :=
  hasVersionIn product.AllVersions number

/-- The loop of `GetVersion` for a number that is not empty: the first exact match. -/
def findVersionIn : List Version → String → Option Version
  | [], _ => none
  | v :: vs, number => if v.Number = number then some v else findVersionIn vs number

/-- The element at the last index of a slice, nil when the slice is empty. -/
def lastVersionOf : List Version → Option Version
  | [] => none
  | [v] => some v
  | _ :: v :: vs => lastVersionOf (v :: vs)

/-- Modelled from the spec: the method `GetVersion` of `internal/models`, which is not
among the sources: "if `number` is empty, returns the last element of `AllVersions`;
otherwise exact match; returns absent (not an error) if not found". -/
def Product.GetVersion (product : Product) (number : String) : Option Version :=
  if number = "" then lastVersionOf product.AllVersions
  else findVersionIn product.AllVersions number

/-- The scan of a version-scoped collection: the entries whose `AppVersion` (read by
`app`) is the given number are appended to the result, in the order of the scan. -/
def scanForVersion {α : Type} (app : α → String) (number : String) : List α → List α → List α
  | [], acc => acc
  | x :: xs, acc =>
    if app x = number then scanForVersion app number xs (acc ++ [x])
    else scanForVersion app number xs acc

/-- Modelled from the spec: the method `GetChartsForVersion`, which is not among the
sources: "linear scan of the relevant collection selecting entries whose `AppVersion`
equals the given version number; order preserved from the source collection". -/
def Product.GetChartsForVersion (product : Product) (version : String) : List ChartVersion :=
  scanForVersion ChartVersion.AppVersion version product.ChartVersions []

/-- Modelled from the spec: the method `GetOVAsForVersion`, which is not among the
sources: the same scan over `ProductDeploymentFiles`. -/
def Product.GetOVAsForVersion (product : Product) (version : String) :
    List ProductDeploymentFile :=
  scanForVersion ProductDeploymentFile.AppVersion version product.ProductDeploymentFiles []

/-- The scan of `GetContainerImagesForVersion`: the first list of the version. -/
def findImagesIn : List DockerVersionList → String → Option DockerVersionList
  | [], _ => none
  | d :: ds, version => if d.AppVersion = version then some d else findImagesIn ds version

/-- Modelled from the spec: the method `GetContainerImagesForVersion`, which is not among
the sources; `RenderVersion` tests its result for nil, so it is the list of the version
or nil. -/
def Product.GetContainerImagesForVersion (product : Product) (version : String) :
    Option DockerVersionList :=
  findImagesIn product.DockerLinkVersions version

end Models

/-! ## JSON form of the domain model

The declarations of `internal/models` with their `json` tags are not among the sources:
a field is written under its Go name, the name `encoding/json` uses for a field without
a tag, and every field is written. -/

namespace Models

/-- The zero value of `Version`. -/
def Version.zero : Version := ⟨"", ""⟩

/-- Encodes a `Version`. -/
def Version.toJson (v : Version) : Json :=
  .obj [("Number", .str v.Number), ("Status", .str v.Status)]

/-- Decodes one member into a `Version`. -/
def Version.field (key : String) (j : Json) (cur : Version) : Except GoError Version :=
  if key = "number" then (decodeString j cur.Number).map (fun x => { cur with Number := x })
  else if key = "status" then (decodeString j cur.Status).map (fun x => { cur with Status := x })
  else .ok cur

/-- Decodes a `Version`. -/
def Version.fromJson : Json → Version → Except GoError Version := decodeStruct Version.field

/-- The zero value of `Repo`. -/
def Repo.zero : Repo := ⟨"", ""⟩

/-- Encodes a `Repo`. -/
def Repo.toJson (r : Repo) : Json := .obj [("Name", .str r.Name), ("Url", .str r.Url)]

/-- Decodes one member into a `Repo`. -/
def Repo.field (key : String) (j : Json) (cur : Repo) : Except GoError Repo :=
  if key = "name" then (decodeString j cur.Name).map (fun x => { cur with Name := x })
  else if key = "url" then (decodeString j cur.Url).map (fun x => { cur with Url := x })
  else .ok cur

/-- Decodes a `Repo`. -/
def Repo.fromJson : Json → Repo → Except GoError Repo := decodeStruct Repo.field

/-- The zero value of `ChartVersion`. -/
def ChartVersion.zero : ChartVersion := ⟨"", "", "", none, "", ""⟩

/-- Encodes a `ChartVersion`. -/
def ChartVersion.toJson (c : ChartVersion) : Json :=
  .obj [("Id", .str c.Id), ("Version", .str c.Version), ("AppVersion", .str c.AppVersion),
    ("Repo", encodePtr Repo.toJson c.Repo), ("HelmTarUrl", .str c.HelmTarUrl),
    ("TarUrl", .str c.TarUrl)]

/-- Decodes one member into a `ChartVersion`. -/
def ChartVersion.field (key : String) (j : Json) (cur : ChartVersion) :
    Except GoError ChartVersion :=
  if key = "id" then (decodeString j cur.Id).map (fun x => { cur with Id := x })
  else if key = "version" then (decodeString j cur.Version).map (fun x => { cur with Version := x })
  else if key = "appversion" then
    (decodeString j cur.AppVersion).map (fun x => { cur with AppVersion := x })
  else if key = "repo" then
    (decodePtr Repo.fromJson Repo.zero j cur.Repo).map (fun x => { cur with Repo := x })
  else if key = "helmtarurl" then
    (decodeString j cur.HelmTarUrl).map (fun x => { cur with HelmTarUrl := x })
  else if key = "tarurl" then (decodeString j cur.TarUrl).map (fun x => { cur with TarUrl := x })
  else .ok cur

/-- Decodes a `ChartVersion`. -/
def ChartVersion.fromJson : Json → ChartVersion → Except GoError ChartVersion :=
  decodeStruct ChartVersion.field

/-- The zero value of `ProductDeploymentFile`. -/
def ProductDeploymentFile.zero : ProductDeploymentFile := ⟨"", "", "", "", ""⟩

/-- Encodes a `ProductDeploymentFile`. -/
def ProductDeploymentFile.toJson (f : ProductDeploymentFile) : Json :=
  .obj [("Url", .str f.Url), ("AppVersion", .str f.AppVersion), ("HashDigest", .str f.HashDigest),
    ("HashAlgo", .str f.HashAlgo), ("ItemJson", .str f.ItemJson)]

/-- Decodes one member into a `ProductDeploymentFile`. -/
def ProductDeploymentFile.field (key : String) (j : Json) (cur : ProductDeploymentFile) :
    Except GoError ProductDeploymentFile :=
  if key = "url" then (decodeString j cur.Url).map (fun x => { cur with Url := x })
  else if key = "appversion" then
    (decodeString j cur.AppVersion).map (fun x => { cur with AppVersion := x })
  else if key = "hashdigest" then
    (decodeString j cur.HashDigest).map (fun x => { cur with HashDigest := x })
  else if key = "hashalgo" then
    (decodeString j cur.HashAlgo).map (fun x => { cur with HashAlgo := x })
  else if key = "itemjson" then
    (decodeString j cur.ItemJson).map (fun x => { cur with ItemJson := x })
  else .ok cur

/-- Decodes a `ProductDeploymentFile`. -/
def ProductDeploymentFile.fromJson :
    Json → ProductDeploymentFile → Except GoError ProductDeploymentFile :=
  decodeStruct ProductDeploymentFile.field

/-- The zero value of `DockerImageTag`. -/
def DockerImageTag.zero : DockerImageTag := ⟨"", ""⟩

/-- Encodes a `DockerImageTag`. -/
def DockerImageTag.toJson (t : DockerImageTag) : Json :=
  .obj [("Tag", .str t.Tag), ("Type", .str t.TagType)]

/-- Decodes one member into a `DockerImageTag`. -/
def DockerImageTag.field (key : String) (j : Json) (cur : DockerImageTag) :
    Except GoError DockerImageTag :=
  if key = "tag" then (decodeString j cur.Tag).map (fun x => { cur with Tag := x })
  else if key = "type" then (decodeString j cur.TagType).map (fun x => { cur with TagType := x })
  else .ok cur

/-- Decodes a `DockerImageTag`. -/
def DockerImageTag.fromJson : Json → DockerImageTag → Except GoError DockerImageTag :=
  decodeStruct DockerImageTag.field

/-- The zero value of `DockerURLDetails`. -/
def DockerURLDetails.zero : DockerURLDetails := ⟨"", []⟩

/-- Encodes a `DockerURLDetails`. -/
def DockerURLDetails.toJson (d : DockerURLDetails) : Json :=
  .obj [("Url", .str d.Url), ("ImageTags", .arr (d.ImageTags.map DockerImageTag.toJson))]

/-- Decodes one member into a `DockerURLDetails`. -/
def DockerURLDetails.field (key : String) (j : Json) (cur : DockerURLDetails) :
    Except GoError DockerURLDetails :=
  if key = "url" then (decodeString j cur.Url).map (fun x => { cur with Url := x })
  else if key = "imagetags" then
    (decodeSlice (fun e => DockerImageTag.fromJson e DockerImageTag.zero) j).map
      (fun x => { cur with ImageTags := x })
  else .ok cur

/-- Decodes a `DockerURLDetails`. -/
def DockerURLDetails.fromJson : Json → DockerURLDetails → Except GoError DockerURLDetails :=
  decodeStruct DockerURLDetails.field

/-- The zero value of `DockerVersionList`. -/
def DockerVersionList.zero : DockerVersionList := ⟨"", [], ""⟩

/-- Encodes a `DockerVersionList`. -/
def DockerVersionList.toJson (d : DockerVersionList) : Json :=
  .obj [("AppVersion", .str d.AppVersion),
    ("DockerURLs", .arr (d.DockerURLs.map DockerURLDetails.toJson)),
    ("DeploymentInstruction", .str d.DeploymentInstruction)]

/-- Decodes one member into a `DockerVersionList`. -/
def DockerVersionList.field (key : String) (j : Json) (cur : DockerVersionList) :
    Except GoError DockerVersionList :=
  if key = "appversion" then
    (decodeString j cur.AppVersion).map (fun x => { cur with AppVersion := x })
  else if key = "dockerurls" then
    (decodeSlice (fun e => DockerURLDetails.fromJson e DockerURLDetails.zero) j).map
      (fun x => { cur with DockerURLs := x })
  else if key = "deploymentinstruction" then
    (decodeString j cur.DeploymentInstruction).map
      (fun x => { cur with DeploymentInstruction := x })
  else .ok cur

/-- Decodes a `DockerVersionList`. -/
def DockerVersionList.fromJson : Json → DockerVersionList → Except GoError DockerVersionList :=
  decodeStruct DockerVersionList.field

/-- The zero value of `Publisher`. -/
def Publisher.zero : Publisher := ⟨""⟩

/-- Encodes a `Publisher`. -/
def Publisher.toJson (p : Publisher) : Json := .obj [("OrgId", .str p.OrgId)]

/-- Decodes one member into a `Publisher`. -/
def Publisher.field (key : String) (j : Json) (cur : Publisher) : Except GoError Publisher :=
  if key = "orgid" then (decodeString j cur.OrgId).map (fun x => { cur with OrgId := x })
  else .ok cur

/-- Decodes a `Publisher`. -/
def Publisher.fromJson : Json → Publisher → Except GoError Publisher :=
  decodeStruct Publisher.field

/-- The zero value of `Product`. -/
def Product.zero : Product := ⟨"", "", "", "", Publisher.zero, [], [], [], [], []⟩

/-- Encodes a `Product`: what `json.Marshal(product)` writes, as a document. -/
def Product.toJson (p : Product) : Json :=
  .obj [("ProductId", .str p.ProductId), ("Slug", .str p.Slug),
    ("DisplayName", .str p.DisplayName), ("SolutionType", .str p.SolutionType),
    ("PublisherDetails", p.PublisherDetails.toJson),
    ("AllVersions", .arr (p.AllVersions.map Version.toJson)),
    ("ChartVersions", .arr (p.ChartVersions.map ChartVersion.toJson)),
    ("ProductDeploymentFiles", .arr (p.ProductDeploymentFiles.map ProductDeploymentFile.toJson)),
    ("DockerLinkVersions", .arr (p.DockerLinkVersions.map DockerVersionList.toJson)),
    ("DeploymentTypes", .arr (p.DeploymentTypes.map Json.str))]

/-- Decodes one member into a `Product`. -/
def Product.field (key : String) (j : Json) (cur : Product) : Except GoError Product :=
  if key = "productid" then
    (decodeString j cur.ProductId).map (fun x => { cur with ProductId := x })
  else if key = "slug" then (decodeString j cur.Slug).map (fun x => { cur with Slug := x })
  else if key = "displayname" then
    (decodeString j cur.DisplayName).map (fun x => { cur with DisplayName := x })
  else if key = "solutiontype" then
    (decodeString j cur.SolutionType).map (fun x => { cur with SolutionType := x })
  else if key = "publisherdetails" then
    (Publisher.fromJson j cur.PublisherDetails).map (fun x => { cur with PublisherDetails := x })
  else if key = "allversions" then
    (decodeSlice (fun e => Version.fromJson e Version.zero) j).map
      (fun x => { cur with AllVersions := x })
  else if key = "chartversions" then
    (decodeSlice (fun e => ChartVersion.fromJson e ChartVersion.zero) j).map
      (fun x => { cur with ChartVersions := x })
  else if key = "productdeploymentfiles" then
    (decodeSlice (fun e => ProductDeploymentFile.fromJson e ProductDeploymentFile.zero) j).map
      (fun x => { cur with ProductDeploymentFiles := x })
  else if key = "dockerlinkversions" then
    (decodeSlice (fun e => DockerVersionList.fromJson e DockerVersionList.zero) j).map
      (fun x => { cur with DockerLinkVersions := x })
  else if key = "deploymenttypes" then
    (decodeSlice (fun e => decodeString e "") j).map (fun x => { cur with DeploymentTypes := x })
  else .ok cur

/-- Decodes a `Product`. -/
def Product.fromJson : Json → Product → Except GoError Product := decodeStruct Product.field

end Models

/-! ## HTTP -/

/-- What the program fixes of an HTTP request: method, path, query parameters (in the
order in which they were set), content type and body ("" when there is none). -/
structure Request where
  Method : String
  Path : String
  Query : List (String × String)
  ContentType : String
  Body : String
  deriving Repr, DecidableEq

/-- What the program reads of an HTTP response: the status code, the status text and
what `ioutil.ReadAll(resp.Body)` returns. -/
structure Response where
  StatusCode : Int
  Status : String
  Body : Except GoError String

/-- The interface `HTTPClient`: the method `Do`, given the requests issued before. -/
abbrev HTTPClient := List Request → Request → Except GoError Response

namespace Pkg

open Models

/-- A request URL below the configured host: path and query parameters. -/
structure URL where
  Path : String
  Query : List (String × String)
  deriving Repr, DecidableEq

/-- The method `Set` of `url.Values`: replaces the value of a name, or adds the name. -/
def setValue (name value : String) : List (String × String) → List (String × String)
  | [] => [(name, value)]
  | (k, v) :: rest => if k = name then (name, value) :: rest else (k, v) :: setValue name value rest

/-- Modelled from the spec: the method `MakeURL` of `pkg.Marketplace`, which is not among
the sources: the URL of the path and parameters on the configured host (section 6). -/
def MakeURL (path : String) (values : List (String × String)) : URL := ⟨path, values⟩

/-- Modelled from the spec: the method `Get` of `pkg.Marketplace`, which is not among the
sources: issues one `GET` request for the URL through the client. -/
def Get (client : HTTPClient) (requestURL : URL) (log : List Request) :
    Except GoError Response × List Request :=
  let req : Request := ⟨"GET", requestURL.Path, requestURL.Query, "", ""⟩
  (client log req, log ++ [req])

/-- Modelled from the spec: the method `Put` of `pkg.Marketplace`, which is not among the
sources: issues one `PUT` request for the URL with the content through the client. -/
def Put (client : HTTPClient) (requestURL : URL) (content contentType : String)
    (log : List Request) : Except GoError Response × List Request :=
  let req : Request := ⟨"PUT", requestURL.Path, requestURL.Query, contentType, content⟩
  (client log req, log ++ [req])

/-- Modelled from the spec: the type `internal.Pagination`, which is not among the
sources: the pagination cursor `{Page, PageSize}` (section 3). -/
structure Pagination where
  Page : Int
  PageSize : Int
  deriving Repr, DecidableEq

/-- Encodes a `Pagination`, with the names of `lib.PaginationObject`. -/
def Pagination.toJson (p : Pagination) : Json :=
  .obj [("page", .num p.Page), ("pagesize", .num p.PageSize)]

/-- Decodes one member into a `Pagination`. -/
def Pagination.field (key : String) (j : Json) (cur : Pagination) : Except GoError Pagination :=
  if key = "page" then (decodeInt j cur.Page).map (fun x => { cur with Page := x })
  else if key = "pagesize" then (decodeInt j cur.PageSize).map (fun x => { cur with PageSize := x })
  else .ok cur

/-- Decodes a `Pagination`. -/
def Pagination.fromJson : Json → Pagination → Except GoError Pagination :=
  decodeStruct Pagination.field

/-- Modelled from the spec: the method `Apply` of `internal.Pagination`, which is not
among the sources: "encodes page/page-size into a repeatable query parameter", "pagination
object JSON-encoded as a query value", as `lib.PaginationObject.ToUrlValue` does. -/
def Pagination.Apply (p : Pagination) (requestURL : URL) : URL :=
  { requestURL with Query := setValue "pagination" p.toJson.text requestURL.Query }

/-! ### The response envelopes -/

/-- The type `GetProductResponsePayload`. -/
structure GetProductResponsePayload where
  Message : String
  StatusCode : Int
  Data : Option Product
  deriving Repr, DecidableEq

/-- The type `GetProductResponse`. -/
structure GetProductResponse where
  Response : Option GetProductResponsePayload
  deriving Repr, DecidableEq

/-- The zero value of `GetProductResponsePayload`. -/
def GetProductResponsePayload.zero : GetProductResponsePayload := ⟨"", 0, none⟩

/-- Encodes a `GetProductResponsePayload` under its `json` tags. -/
def GetProductResponsePayload.toJson (p : GetProductResponsePayload) : Json :=
  .obj [("message", .str p.Message), ("statuscode", .num p.StatusCode),
    ("data", encodePtr Product.toJson p.Data)]

/-- Decodes one member into a `GetProductResponsePayload`. -/
def GetProductResponsePayload.field (key : String) (j : Json) (cur : GetProductResponsePayload) :
    Except GoError GetProductResponsePayload :=
  if key = "message" then (decodeString j cur.Message).map (fun x => { cur with Message := x })
  else if key = "statuscode" then
    (decodeInt j cur.StatusCode).map (fun x => { cur with StatusCode := x })
  else if key = "data" then
    (decodePtr Product.fromJson Product.zero j cur.Data).map (fun x => { cur with Data := x })
  else .ok cur

/-- Decodes a `GetProductResponsePayload`. -/
def GetProductResponsePayload.fromJson :
    Json → GetProductResponsePayload → Except GoError GetProductResponsePayload :=
  decodeStruct GetProductResponsePayload.field

/-- Encodes a `GetProductResponse`. -/
def GetProductResponse.toJson (r : GetProductResponse) : Json :=
  .obj [("response", encodePtr GetProductResponsePayload.toJson r.Response)]

/-- Decodes one member into a `GetProductResponse`. -/
def GetProductResponse.field (key : String) (j : Json) (cur : GetProductResponse) :
    Except GoError GetProductResponse :=
  if key = "response" then
    (decodePtr GetProductResponsePayload.fromJson GetProductResponsePayload.zero j
      cur.Response).map (fun x => { cur with Response := x })
  else .ok cur

/-- Decodes a `GetProductResponse`. -/
def GetProductResponse.fromJson : Json → GetProductResponse → Except GoError GetProductResponse :=
  decodeStruct GetProductResponse.field

/-- The call `json.Marshal(response)` for a `*GetProductResponse`, as the tests build the
body of a successful answer. -/
def MarshalGetProductResponse (r : GetProductResponse) : String := r.toJson.text

/-- The call `json.Unmarshal(body, response)` with `response := &GetProductResponse{}`. -/
def UnmarshalGetProductResponse (body : String) : Except GoError GetProductResponse :=
  match parseJson body with
  | none => .error jsonInvalidText
  | some j => GetProductResponse.fromJson j ⟨none⟩

/-- The anonymous struct `Params` of `ListProductResponsePayload`. -/
structure ListProductParams where
  ProductCount : Int
  Pagination : Option Pagination
  deriving Repr, DecidableEq

/-- The type `ListProductResponsePayload`. -/
structure ListProductResponsePayload where
  Message : String
  StatusCode : Int
  Products : List Product
  Params : ListProductParams
  deriving Repr, DecidableEq

/-- The type `ListProductResponse`. -/
structure ListProductResponse where
  Response : Option ListProductResponsePayload
  deriving Repr, DecidableEq

/-- Decodes one member into the `Params` of a list response. -/
def ListProductParams.field (key : String) (j : Json) (cur : ListProductParams) :
    Except GoError ListProductParams :=
  if key = "itemsnumber" then
    (decodeInt j cur.ProductCount).map (fun x => { cur with ProductCount := x })
  else if key = "pagination" then
    (decodePtr Pagination.fromJson ⟨0, 0⟩ j cur.Pagination).map
      (fun x => { cur with Pagination := x })
  else .ok cur

/-- Decodes one member into a `ListProductResponsePayload`; the tag of `Message` is
`string` in the source. -/
def ListProductResponsePayload.field (key : String) (j : Json)
    (cur : ListProductResponsePayload) : Except GoError ListProductResponsePayload :=
  if key = "string" then (decodeString j cur.Message).map (fun x => { cur with Message := x })
  else if key = "statuscode" then
    (decodeInt j cur.StatusCode).map (fun x => { cur with StatusCode := x })
  else if key = "datalist" then
    (decodeSlice (fun e => Product.fromJson e Product.zero) j).map
      (fun x => { cur with Products := x })
  else if key = "params" then
    (decodeStruct ListProductParams.field j cur.Params).map (fun x => { cur with Params := x })
  else .ok cur

/-- The zero value of `ListProductResponsePayload`. -/
def ListProductResponsePayload.zero : ListProductResponsePayload := ⟨"", 0, [], ⟨0, none⟩⟩

/-- Decodes one member into a `ListProductResponse`. -/
def ListProductResponse.field (key : String) (j : Json) (cur : ListProductResponse) :
    Except GoError ListProductResponse :=
  if key = "response" then
    (decodePtr (decodeStruct ListProductResponsePayload.field) ListProductResponsePayload.zero j
      cur.Response).map (fun x => { cur with Response := x })
  else .ok cur

/-- The call `json.Unmarshal(body, response)` with `response := &ListProductResponse{}`. -/
def UnmarshalListProductResponse (body : String) : Except GoError ListProductResponse :=
  match parseJson body with
  | none => .error jsonInvalidText
  | some j => decodeStruct ListProductResponse.field j ⟨none⟩

/-- Encodes a list response under its `json` tags, as a backend writes a page. -/
def ListProductResponsePayload.toJson (p : ListProductResponsePayload) : Json :=
  .obj [("string", .str p.Message), ("statuscode", .num p.StatusCode),
    ("dataList", .arr (p.Products.map Product.toJson)),
    ("params", .obj [("itemsnumber", .num p.Params.ProductCount),
      ("pagination", encodePtr Pagination.toJson p.Params.Pagination)])]

/-- Encodes a `ListProductResponse`. -/
def ListProductResponse.toJson (r : ListProductResponse) : Json :=
  .obj [("response", encodePtr ListProductResponsePayload.toJson r.Response)]

/-! ### `GetProduct`, `PutProduct`, `ListProducts` (`pkg/product.go`) -/

/-- What a function returning `(*models.Product, error)` returns. -/
abbrev ProductResult := Option Product × Option GoError

/-- The end of `GetProduct` and of `PutProduct`: the body of a 200 answer is decoded as
a `GetProductResponse` and `response.Response.Data` is returned; `response.Response` is
dereferenced without a nil check. -/
def parseProductResponse (slug body : String) : Run ProductResult :=
  match UnmarshalGetProductResponse body with
  | .error err =>
    .returned (none,
      some (ErrorfW ("failed to parse the response for product \"" ++ slug ++ "\": ") err))
  | .ok response =>
    match response.Response with
    | none => .panicked "invalid memory address or nil pointer dereference"
    | some payload => .returned (payload.Data, none)

/-- The method `GetProduct` of `pkg.Marketplace`. -/
def GetProduct (client : HTTPClient) (slug : String) (log : List Request) :
    Run ProductResult × List Request :=
  let requestURL := MakeURL ("/api/v1/products/" ++ slug)
    [("increaseViewCount", "false"), ("isSlug", "true")]
  match Get client requestURL log with
  | (.error err, log1) =>
    (.returned (none,
      some (ErrorfW ("sending the request for product \"" ++ slug ++ "\" failed: ") err)), log1)
  | (.ok resp, log1) =>
    if resp.StatusCode = 404 then
      (.returned (none, some (Errorf ("product \"" ++ slug ++ "\" not found"))), log1)
    else if resp.StatusCode ≠ 200 then
      (.returned (none, some (Errorf ("getting product \"" ++ slug ++ "\" failed: (" ++
        fmtInt resp.StatusCode ++ ")"))), log1)
    else
      match resp.Body with
      | .error err =>
        (.returned (none,
          some (ErrorfW ("failed to read the response for product \"" ++ slug ++ "\": ") err)),
          log1)
      | .ok body => (parseProductResponse slug body, log1)

/-- The method `PutProduct` of `pkg.Marketplace`.  `json.Marshal` cannot fail on a
`Product`, so its error branch is not represented. -/
def PutProduct (client : HTTPClient) (product : Product) (versionUpdate : Bool)
    (log : List Request) : Run ProductResult × List Request :=
  let encoded := product.toJson.text
  let requestURL := MakeURL ("/api/v1/products/" ++ product.ProductId)
    [("archivepreviousversion", "false"), ("isversionupdate", FormatBool versionUpdate)]
  match Put client requestURL encoded "application/json" log with
  | (.error err, log1) =>
    (.returned (none,
      some (ErrorfW ("sending the update for product \"" ++ product.Slug ++ "\" failed: ") err)),
      log1)
  | (.ok resp, log1) =>
    match resp.Body with
    | .error err =>
      (.returned (none, some (ErrorfW
        ("failed to read the update response for product \"" ++ product.Slug ++ "\": ") err)),
        log1)
    | .ok body =>
      if resp.StatusCode ≠ 200 then
        (.returned (none, some (Errorf ("updating product \"" ++ product.Slug ++ "\" failed: (" ++
          fmtInt resp.StatusCode ++ ")\n" ++ body))), log1)
      else (parseProductResponse product.Slug body, log1)

/-- What `ListProducts` returns: `([]*models.Product, error)`. -/
abbrev ProductsResult := List Product × Option GoError

/-- The request of `ListProducts` for a page: the parameters, then the pagination. -/
def listRequestURL (values : List (String × String)) (pagination : Pagination) : URL :=
  pagination.Apply (MakeURL "/api/v1/products" values)

/-- The loop of `ListProducts`, `for ; len(products) < totalProducts; pagination.Page++`.
The first argument bounds the number of iterations: `none` is returned when the bound is
reached while the loop condition still holds. -/
def listProductsLoop (client : HTTPClient) (values : List (String × String)) :
    Nat → List Product → Int → Pagination → List Request →
      Option (Run ProductsResult) × List Request
  | fuel, products, totalProducts, pagination, log =>
    if (products.length : Int) < totalProducts then
      match fuel with
      | 0 => (none, log)
      | fuel + 1 =>
        match Get client (listRequestURL values pagination) log with
        | (.error err, log1) =>
          (some (.returned ([],
            some (ErrorfW "sending the request for the list of products failed: " err))), log1)
        | (.ok resp, log1) =>
          if resp.StatusCode ≠ 200 then
            (some (.returned ([], some (Errorf ("getting the list of products failed: (" ++
              fmtInt resp.StatusCode ++ ") " ++ resp.Status)))), log1)
          else
            match resp.Body with
            | .error err =>
              (some (.returned ([],
                some (ErrorfW "failed to read the list of products: " err))), log1)
            | .ok body =>
              match UnmarshalListProductResponse body with
              | .error err =>
                (some (.returned ([],
                  some (ErrorfW "failed to parse the list of products: " err))), log1)
              | .ok response =>
                match response.Response with
                | none =>
                  (some (.panicked "invalid memory address or nil pointer dereference"), log1)
                | some payload =>
                  listProductsLoop client values fuel (products ++ payload.Products)
                    payload.Params.ProductCount { pagination with Page := pagination.Page + 1 }
                    log1
    else (some (.returned (products, none)), log)

/-- The parameters of `ListProducts`: `managed`, and `search` when the term is not empty. -/
def listValues (allOrgs : Bool) (searchTerm : String) : List (String × String) :=
  let values := [("managed", FormatBool (!allOrgs))]
  if searchTerm ≠ "" then setValue "search" searchTerm values else values

/-- The method `ListProducts` of `pkg.Marketplace`, with a bound on the iterations of
its loop. -/
def ListProducts (fuel : Nat) (client : HTTPClient) (allOrgs : Bool) (searchTerm : String)
    (log : List Request) : Option (Run ProductsResult) × List Request :=
  listProductsLoop client (listValues allOrgs searchTerm) fuel [] 1 ⟨1, 20⟩ log

/-- The method `GetProductWithVersion` of `pkg.Marketplace`; `product.AllVersions[0]` is
read without a check of the length. -/
def GetProductWithVersion (client : HTTPClient) (slug version : String) (log : List Request) :
    Run ProductResult × List Request :=
  match GetProduct client slug log with
  | (.panicked reason, log1) => (.panicked reason, log1)
  | (.returned (_, some err), log1) => (.returned (none, some err), log1)
  | (.returned (none, none), log1) =>
    (.panicked "invalid memory address or nil pointer dereference", log1)
  | (.returned (some product, none), log1) =>
    let resolved : Option String :=
      if version = "latest" then
        match product.AllVersions with
        | [] => none
        | first :: _ => some first.Number
      else some version
    match resolved with
    | none => (.panicked "index out of range [0] with length 0", log1)
    | some version1 =>
      if !product.HasVersion version1 then
        (.returned (none, some (Errorf ("product \"" ++ slug ++ "\" does not have a version " ++
          version1))), log1)
      else (.returned (some product, none), log1)

end Pkg

/-! ## The commands (`cmd`) -/

namespace Cmd

open Models

/-- One call of the upload collaborator: how the uploader was built
(`internal.NewS3Uploader(region, hashAlgo, orgId, credentials)`, the credentials left
out) and the arguments of `Upload(bucket, file)`. -/
structure UploadCall where
  Region : String
  HashAlgo : String
  OrgId : String
  Bucket : String
  File : String
  deriving Repr, DecidableEq

/-- The upload collaborator, a black box "upload(file) → (url, hash)" (spec, section 1):
given the calls made before and the call, the URL and the hash of the file, or an error. -/
abbrev Uploader := List UploadCall → UploadCall → Except GoError (String × String)

/-- Modelled from the spec: the constant `internal.HashAlgoSHA1` handed to the uploader. -/
def InternalHashAlgoSHA1 : String := "SHA1"

/-- What a command writes to its output: a line of text, a table of the table writer
(headers, rows, footer) or a JSON text. -/
inductive Rendered where
  | text (s : String)
  | table (headers : List String) (rows : List (List String)) (footer : List String)
  | json (text : String)
  deriving Repr, DecidableEq

/-- The package variables a command reads: the flags and the configured storage. -/
structure Globals where
  ProductSlug : String
  ProductVersion : String
  OutputFormat : String
  pvaFile : String
  StorageRegion : String
  StorageBucket : String
  ChartName : String
  ChartURL : String
  ChartVersion : String
  ChartRepositoryName : String
  ChartRepositoryURL : String
  deriving Repr, DecidableEq

/-- The run of a command (`RunE`): the error it returns (or the panic), the HTTP requests
it issued, the calls of the upload collaborator, and what it wrote to its output. -/
structure CmdResult where
  err : Run (Option GoError)
  requests : List Request
  uploads : List UploadCall
  output : List Rendered
  deriving Repr, DecidableEq

/-- Modelled from the spec: the constant `FormatTable` of the output format flag. -/
def FormatTable : String := "table"

/-- Modelled from the spec: the constant `FormatJSON` of the output format flag. -/
def FormatJSON : String := "json"

/-- The row of `RenderCharts` for a chart; `chart.Repo` is dereferenced without a check. -/
def chartRow (chart : ChartVersion) : Option (List String) :=
  match chart.Repo with
  | none => none
  | some repo => some [chart.Id, chart.Version, chart.TarUrl, repo.Name ++ " " ++ repo.Url]

/-- The rows of `RenderCharts`, `none` when a row panics. -/
def chartRows : List ChartVersion → Option (List (List String))
  | [] => some []
  | chart :: rest =>
    match chartRow chart with
    | none => none
    | some row =>
      match chartRows rest with
      | none => none
      | some rows => some (row :: rows)

/-- The function `RenderCharts` of `cmd/output.go`. -/
def RenderCharts (format : String) (charts : List ChartVersion) :
    Run (Option GoError) × List Rendered :=
  if format = FormatTable then
    match chartRows charts with
    | none => (.panicked "invalid memory address or nil pointer dereference", [])
    | some rows => (.returned none, [.table ["Id", "Version", "URL", "Repository"] rows []])
  else if format = FormatJSON then
    (.returned none, [.json (Json.arr (charts.map ChartVersion.toJson)).text])
  else (.returned none, [])

/-- The version check of the create commands and its error. -/
def missingVersionError (slug version : String) : GoError :=
  Errorf ("product \"" ++ slug ++ "\" does not have a version " ++ version ++
    ", please add it first")

/-- The command `CreateOVACmd` (`RunE`) of `cmd/ova.go`. -/
def CreateOVACmd (client : HTTPClient) (uploader : Uploader) (g : Globals) : CmdResult :=
  match Pkg.GetProduct client g.ProductSlug [] with
  | (.panicked reason, log1) => ⟨.panicked reason, log1, [], []⟩
  | (.returned (_, some err), log1) => ⟨.returned (some err), log1, [], []⟩
  | (.returned (none, none), log1) =>
    ⟨.panicked "invalid memory address or nil pointer dereference", log1, [], []⟩
  | (.returned (some product, none), log1) =>
    if !product.HasVersion g.ProductVersion then
      ⟨.returned (some (missingVersionError g.ProductSlug g.ProductVersion)), log1, [], []⟩
    else
      let call : UploadCall := ⟨g.StorageRegion, InternalHashAlgoSHA1,
        product.PublisherDetails.OrgId, g.StorageBucket, g.pvaFile⟩
      match uploader [] call with
      | .error err => ⟨.returned (some err), log1, [call], []⟩
      | .ok (fileURL, fileHash) =>
        let product1 : Product := { product with
          ProductDeploymentFiles := [⟨fileURL, g.ProductVersion, fileHash, HashAlgoSHA1, ""⟩] }
        match Pkg.PutProduct client product1 false log1 with
        | (.panicked reason, log2) => ⟨.panicked reason, log2, [call], []⟩
        | (.returned (_, some err), log2) => ⟨.returned (some err), log2, [call], []⟩
        | (.returned (_, none), log2) => ⟨.returned none, log2, [call], []⟩

/-- The idempotent insert of a deployment type (spec, section 4.3, step 3). -/
def addDeploymentType (deploymentType : String) (types : List String) : List String :=
  if deploymentType ∈ types then types else types ++ [deploymentType]

/-- Modelled from the spec: the command `CreateChartCmd` of `cmd/charts.go`, which is not
among the sources (its tests are): the sequence of section 4.3: `GetProduct`; the check
`HasVersion` with the error "... please add it first"; a new `ChartVersion` built from
the flags (no `Id`, `AppVersion` the target version) appended to `ChartVersions`, and
`"HELM"` ensured in `DeploymentTypes`; `PutProduct(product, false)`; the charts of the
version of the returned product rendered. -/
def CreateChartCmd (client : HTTPClient) (g : Globals) : CmdResult :=
  match Pkg.GetProduct client g.ProductSlug [] with
  | (.panicked reason, log1) => ⟨.panicked reason, log1, [], []⟩
  | (.returned (_, some err), log1) => ⟨.returned (some err), log1, [], []⟩
  | (.returned (none, none), log1) =>
    ⟨.panicked "invalid memory address or nil pointer dereference", log1, [], []⟩
  | (.returned (some product, none), log1) =>
    if !product.HasVersion g.ProductVersion then
      ⟨.returned (some (missingVersionError g.ProductSlug g.ProductVersion)), log1, [], []⟩
    else
      let chart : ChartVersion := ⟨"", g.ChartVersion, g.ProductVersion,
        some ⟨g.ChartRepositoryName, g.ChartRepositoryURL⟩, g.ChartURL, g.ChartURL⟩
      let product1 : Product := { product with
        DeploymentTypes := addDeploymentType DeploymentTypeHelm product.DeploymentTypes
        ChartVersions := product.ChartVersions ++ [chart] }
      match Pkg.PutProduct client product1 false log1 with
      | (.panicked reason, log2) => ⟨.panicked reason, log2, [], []⟩
      | (.returned (_, some err), log2) => ⟨.returned (some err), log2, [], []⟩
      | (.returned (none, none), log2) =>
        ⟨.panicked "invalid memory address or nil pointer dereference", log2, [], []⟩
      | (.returned (some updated, none), log2) =>
        match RenderCharts g.OutputFormat (updated.GetChartsForVersion g.ProductVersion) with
        | (r, out) => ⟨r, log2, [], out⟩

end Cmd

/-! ## Reference definitions and example data -/

namespace Models

/-- The reference of `GetVersion` in the words of the specification: for the empty
number the last element of `AllVersions`, otherwise the element whose `Number` is the
given one; absent when there is none. -/
def GetVersionReference (P : Product) (n : String) : Option Version :=
  if n = "" then P.AllVersions.getLast?
  else P.AllVersions.find? (fun v => decide (v.Number = n))

/-- The product of the test of `GetVersion` with an empty argument: the versions 1.2.3,
2.3.4 and 0.0.1 added in this order. -/
def productThreeVersions : Product :=
  ⟨"", "my-product", "My Product", "PENDING", ⟨""⟩,
    [⟨"1.2.3", "PENDING"⟩, ⟨"2.3.4", "PENDING"⟩, ⟨"0.0.1", "PENDING"⟩], [], [], [], []⟩

/-- A product with the slug `X` and the version 1.2.3. -/
def productX : Product :=
  ⟨"id-of-x", "X", "My Super Product", "CHART", ⟨"org"⟩, [⟨"1.2.3", "PENDING"⟩], [], [], [], []⟩

end Models

/-- The client of the test "Error putting product": it answers 418 with a text body. -/
def teapotClient : HTTPClient :=
  fun _ _ => .ok ⟨418, "418 Teapot", .ok "Teapots all the way down"⟩

/-- A backend that holds the product `X`: every GET is answered with status 200 and the
envelope of the product, every other request with the status 418 and a text. -/
def backendX : HTTPClient :=
  fun _ req =>
    if req.Method = "GET" then
      .ok ⟨200, "200 OK",
        .ok (Pkg.MarshalGetProductResponse ⟨some ⟨"testing", 200, some Models.productX⟩⟩)⟩
    else .ok ⟨418, "418 Teapot", .ok "Teapots all the way down"⟩

/-- An upload collaborator that stores every file. -/
def uploaderOk : Cmd.Uploader :=
  fun _ call => .ok ("https://storage.example.com/" ++ call.File, "0a0b0c")

/-- The flags of a create command for the version 9.9.9 of the product `X`. -/
def globalsMissingVersion : Cmd.Globals :=
  ⟨"X", "9.9.9", "table", "appliance.ova", "us-east-1", "bucket", "mydatabase",
    "https://charts.example.com/mydatabase-2.0.0.tgz", "2.0.0", "Example charts",
    "https://charts.example.com"⟩

/-- A text that can follow a value inside a document: the end of the text, a comma, a
closing bracket or a closing brace. -/
def Delimited (rest : List Char) : Prop :=
  ∀ c r, rest = c :: r → c = ',' ∨ c = ']' ∨ c = '\x7d'


mutual
/-- A document without `float` nodes: every number in it is an integer. -/
def Json.Plain : Json → Prop
  | .float _ => False
  | .arr xs => plainElems xs
  | .obj kvs => plainMembers kvs
  | _ => True
/-- Every element is without `float` nodes. -/
def plainElems : List Json → Prop
  | [] => True
  | x :: xs => x.Plain ∧ plainElems xs
/-- Every member value is without `float` nodes. -/
def plainMembers : List (String × Json) → Prop
  | [] => True
  | (_, v) :: rest => v.Plain ∧ plainMembers rest
end

mutual
/-- The number of nodes of a document, a bound on what the parser needs to read it. -/
def Json.size : Json → Nat
  | .arr xs => 1 + sizeElems xs
  | .obj kvs => 1 + sizeMembers kvs
  | _ => 1
/-- The number of nodes of the elements of an array. -/
def sizeElems : List Json → Nat
  | [] => 0
  | x :: xs => 1 + x.size + sizeElems xs
/-- The number of nodes of the members of an object. -/
def sizeMembers : List (String × Json) → Nat
  | [] => 0
  | (_, v) :: rest => 1 + v.size + sizeMembers rest
end

/-- A character that starts the text of a value. -/
def ValueStart (c : Char) : Prop :=
  c = '"' ∨ c = '[' ∨ c = '\x7b' ∨ c = 'n' ∨ c = 't' ∨ c = 'f' ∨ c = '-' ∨ isDigit c = true

namespace Pkg

open Models

/-- The request `ListProducts` issues for a page: a GET of `/api/v1/products` with the
parameters and the pagination `{page, pagesize: 20}`. -/
def pageRequest (values : List (String × String)) (page : Nat) : Request :=
  ⟨"GET", (listRequestURL values ⟨page, 20⟩).Path, (listRequestURL values ⟨page, 20⟩).Query,
    "", ""⟩

/-- The requests for the pages 1 to `k`, in this order. -/
def pageRequests (values : List (String × String)) : Nat → List Request
  | 0 => []
  | k + 1 => pageRequests values k ++ [pageRequest values (k + 1)]

/-- The products of the pages 1 to `k`, in the order of the pages. -/
def productsUpTo (r : Nat → ListProductResponsePayload) : Nat → List Product
  | 0 => []
  | k + 1 => productsUpTo r k ++ (r (k + 1)).Products

/-- A page with one product and a reported total of two. -/
def pageOfTwo (slug : String) : ListProductResponsePayload :=
  ⟨"ok", 200, [⟨"id-" ++ slug, slug, "Product " ++ slug, "OVA", ⟨"org"⟩, [], [], [], [], []⟩],
    ⟨2, some ⟨1, 20⟩⟩⟩

/-- The pages of a backend with two products that serves one product per page. -/
def twoPages (i : Nat) : ListProductResponsePayload :=
  if i = 1 then pageOfTwo "first" else pageOfTwo "second"

/-- The bodies of the pages of `twoPages`. -/
def twoPagesBody (i : Nat) : String := (ListProductResponse.toJson ⟨some (twoPages i)⟩).text

/-- The backend of `twoPages`: the request number `i` is answered with the page `i`. -/
def twoPagesClient : HTTPClient :=
  fun log _ => .ok ⟨200, "200 OK", .ok (twoPagesBody (log.length + 1))⟩

end Pkg

/-! ## Definitions for the request shapes, the pages of `ListProducts` and the create flow -/

namespace Pkg

open Models

/-- The request that `GetProduct` hands to the client for a slug. -/
def getRequestOf (slug : String) : Request :=
  ⟨"GET", "/api/v1/products/" ++ slug, [("increaseViewCount", "false"), ("isSlug", "true")],
    "", ""⟩

/-- The request that `PutProduct` hands to the client for a product and a flag. -/
def putRequestOf (product : Product) (versionUpdate : Bool) : Request :=
  ⟨"PUT", "/api/v1/products/" ++ product.ProductId,
    [("archivepreviousversion", "false"), ("isversionupdate", FormatBool versionUpdate)],
    "application/json", product.toJson.text⟩

/-- The call `json.Unmarshal(requestBody, updatedProduct)` with
`updatedProduct := &models.Product{}`, as the test of the create-chart command decodes
the body of the PUT request. -/
def UnmarshalProduct (body : String) : Except GoError Product :=
  match parseJson body with
  | none => .error jsonInvalidText
  | some j => Product.fromJson j Product.zero

/-- What one iteration of the loop of `ListProducts` makes of the answer to its request:
the payload of a successful page (status 200, a body that is read and decoded, an envelope
with a `response`), or the result with which `ListProducts` ends. -/
def pageOutcome (answer : Except GoError Response) :
    Except (Run ProductsResult) ListProductResponsePayload :=
  match answer with
  | .error err =>
    .error (.returned ([],
      some (ErrorfW "sending the request for the list of products failed: " err)))
  | .ok resp =>
    if resp.StatusCode ≠ 200 then
      .error (.returned ([], some (Errorf ("getting the list of products failed: (" ++
        fmtInt resp.StatusCode ++ ") " ++ resp.Status))))
    else
      match resp.Body with
      | .error err =>
        .error (.returned ([], some (ErrorfW "failed to read the list of products: " err)))
      | .ok body =>
        match UnmarshalListProductResponse body with
        | .error err =>
          .error (.returned ([], some (ErrorfW "failed to parse the list of products: " err)))
        | .ok response =>
          match response.Response with
          | none => .error (.panicked "invalid memory address or nil pointer dereference")
          | some payload => .ok payload

/-- A page without products that reports a total of one product. -/
def emptyPage : ListProductResponsePayload := ⟨"ok", 200, [], ⟨1, some ⟨1, 20⟩⟩⟩

/-- A backend that answers every request with the page `emptyPage`. -/
def emptyPagesClient : HTTPClient :=
  fun _ _ => .ok ⟨200, "200 OK", .ok (ListProductResponse.toJson ⟨some emptyPage⟩).text⟩

end Pkg

/-- A backend that holds the product `X` and accepts every update: every request is
answered with status 200 and the envelope of the product. -/
def backendXAccepting : HTTPClient :=
  fun _ _ =>
    .ok ⟨200, "200 OK",
      .ok (Pkg.MarshalGetProductResponse ⟨some ⟨"testing", 200, some Models.productX⟩⟩)⟩

/-- The flags of a create command for the version 1.2.3 of the product `X`. -/
def globalsPresentVersion : Cmd.Globals :=
  ⟨"X", "1.2.3", "table", "appliance.ova", "us-east-1", "bucket", "mydatabase",
    "https://charts.example.com/mydatabase-2.0.0.tgz", "2.0.0", "Example charts",
    "https://charts.example.com"⟩

namespace Cmd

open Models

/-- The call of the upload collaborator that `CreateOVACmd` makes for a fetched product. -/
def uploadCallOf (g : Globals) (product : Product) : UploadCall :=
  ⟨g.StorageRegion, InternalHashAlgoSHA1, product.PublisherDetails.OrgId, g.StorageBucket,
    g.pvaFile⟩

/-- The deployment file that `CreateOVACmd` builds from the result of the upload. -/
def newDeploymentFile (g : Globals) (fileURL fileHash : String) : ProductDeploymentFile :=
  ⟨fileURL, g.ProductVersion, fileHash, HashAlgoSHA1, ""⟩

/-- The product that `CreateOVACmd` hands to `PutProduct`: the fetched product with its
`ProductDeploymentFiles` replaced by the new file. -/
def ovaSubmission (g : Globals) (product : Product) (fileURL fileHash : String) : Product :=
  { product with ProductDeploymentFiles := [newDeploymentFile g fileURL fileHash] }

/-- The chart that the create-chart command builds from its flags. -/
def newChart (g : Globals) : ChartVersion :=
  ⟨"", g.ChartVersion, g.ProductVersion, some ⟨g.ChartRepositoryName, g.ChartRepositoryURL⟩,
    g.ChartURL, g.ChartURL⟩

/-- The product that the create-chart command hands to `PutProduct`. -/
def chartSubmission (g : Globals) (product : Product) : Product :=
  { product with
    DeploymentTypes := addDeploymentType DeploymentTypeHelm product.DeploymentTypes
    ChartVersions := product.ChartVersions ++ [newChart g] }

end Cmd

namespace Pkg

/-- The value of `totalProducts` after the pages 1 to `j`: the assumed total 1 before the
first page, then the `itemsnumber` reported by the most recent page. -/
def totalAfter (r : Nat → ListProductResponsePayload) : Nat → Int
  | 0 => 1
  | j + 1 => (r (j + 1)).Params.ProductCount

end Pkg

/-! ## The list commands and the renderers of lists -/

namespace Models

/-- Modelled from the spec: the type of one file of an OVA in `internal/models`, which is
not among the sources; `RenderOVAs` reads its `Size`. -/
structure ProductItemFile where
  Size : Int
  deriving Repr, DecidableEq

/-- Modelled from the spec: the type `ProductItemDetails` of `internal/models`, which is
not among the sources, with the fields that `RenderOVAs` reads: `Name`, `Type` (named
`ItemType` here) and `Files`. -/
structure ProductItemDetails where
  Name : String
  ItemType : String
  Files : List ProductItemFile
  deriving Repr, DecidableEq

/-- Decodes one member into a `ProductItemFile`. -/
def ProductItemFile.field (key : String) (j : Json) (cur : ProductItemFile) :
    Except GoError ProductItemFile :=
  if key = "size" then (decodeInt j cur.Size).map (fun x => { cur with Size := x })
  else .ok cur

/-- Decodes one member into a `ProductItemDetails`. -/
def ProductItemDetails.field (key : String) (j : Json) (cur : ProductItemDetails) :
    Except GoError ProductItemDetails :=
  if key = "name" then (decodeString j cur.Name).map (fun x => { cur with Name := x })
  else if key = "type" then
    (decodeString j cur.ItemType).map (fun x => { cur with ItemType := x })
  else if key = "files" then
    (decodeSlice (fun e => decodeStruct ProductItemFile.field e ⟨0⟩) j).map
      (fun x => { cur with Files := x })
  else .ok cur

/-- The call `json.Unmarshal([]byte(ova.ItemJson), details)` with
`details := &models.ProductItemDetails{}`. -/
def UnmarshalProductItemDetails (text : String) : Except GoError ProductItemDetails :=
  match parseJson text with
  | none => .error jsonInvalidText
  | some j => decodeStruct ProductItemDetails.field j ⟨"", "", []⟩

/-- The product of the tests of `ListOVACmd`: the versions 1.2.3 and 2.3.4 and one OVA,
of the version 1.2.3. -/
def productWithOVA : Product :=
  ⟨"", "my-super-product", "My Super Product", "PENDING", ⟨""⟩,
    [⟨"1.2.3", "PENDING"⟩, ⟨"2.3.4", "PENDING"⟩], [],
    [⟨"https://storage.example.com/fake-ova.ova", "1.2.3", "0a0b0c", "SHA1", ""⟩], [], []⟩

/-- A product whose only version has the number `N/A`. -/
def productVersionNA : Product :=
  ⟨"", "my-product", "My Product", "PENDING", ⟨""⟩, [⟨"N/A", "PENDING"⟩], [], [], [], []⟩

end Models

namespace Cmd

open Models

/-- Addition of two Go `int` values (64 bits, wrapping around). -/
def addInt (a b : Int) : Int :=
  (a + b + 9223372036854775808) % 18446744073709551616 - 9223372036854775808

/-- The inner loop of `RenderOVAs`: `size += file.Size` over the files. -/
def sumSizes : List ProductItemFile → Int → Int
  | [], size => size
  | file :: rest, size => sumSizes rest (addInt size file.Size)

/-- The row of `RenderOVAs` for an OVA, or the error of decoding its `ItemJson`. -/
def ovaRow (ova : ProductDeploymentFile) : Except GoError (List String) :=
  match UnmarshalProductItemDetails ova.ItemJson with
  | .error err => .error (ErrorfW "failed to parse the list of OVA files: " err)
  | .ok details =>
    .ok [details.Name, fmtInt (sumSizes details.Files 0), details.ItemType,
      fmtInt details.Files.length]

/-- The loop of `RenderOVAs` over the OVAs: the rows, or the first error. -/
def ovaRows : List ProductDeploymentFile → Except GoError (List (List String))
  | [] => .ok []
  | ova :: rest =>
    match ovaRow ova with
    | .error err => .error err
    | .ok row =>
      match ovaRows rest with
      | .error err => .error err
      | .ok rows => .ok (row :: rows)

/-- The function `RenderOVAs` of `cmd/output.go`; an error of a row is returned before
the table is rendered. -/
def RenderOVAs (format version : String) (product : Product) :
    Run (Option GoError) × List Rendered :=
  let ovas := product.GetOVAsForVersion version
  if format = FormatTable then
    if ovas.length = 0 then
      (.returned none,
        [.text ("product \"" ++ product.Slug ++ "\" " ++ version ++ " does not have any OVAs\n")])
    else
      match ovaRows ovas with
      | .error err => (.returned (some err), [])
      | .ok rows => (.returned none, [.table ["Name", "Size", "Type", "Files"] rows []])
  else if format = FormatJSON then
    (.returned none, [.json (Json.arr (ovas.map ProductDeploymentFile.toJson)).text])
  else (.returned none, [])

/-- The command `ListOVACmd` (`RunE`) of `cmd/ova.go`. -/
def ListOVACmd (client : HTTPClient) (g : Globals) : CmdResult :=
  match Pkg.GetProduct client g.ProductSlug [] with
  | (.panicked reason, log1) => ⟨.panicked reason, log1, [], []⟩
  | (.returned (_, some err), log1) => ⟨.returned (some err), log1, [], []⟩
  | (.returned (none, none), log1) =>
    ⟨.panicked "invalid memory address or nil pointer dereference", log1, [], []⟩
  | (.returned (some product, none), log1) =>
    if !product.HasVersion g.ProductVersion then
      ⟨.returned (some (Errorf ("product \"" ++ g.ProductSlug ++ "\" does not have a version " ++
        g.ProductVersion))), log1, [], []⟩
    else
      match RenderOVAs g.OutputFormat g.ProductVersion product with
      | (r, out) => ⟨r, log1, [], out⟩

/-- Modelled from the spec: the command `ListChartsCmd` of `cmd/charts.go`, which is not
among the sources (its tests are): `GetProduct`; the check `HasVersion` with the error
"does not have a version X" (section 7); a version without charts is reported with the
line "... does not have any charts" and is not an error (section 8); otherwise the charts
of the version are rendered. -/
def ListChartsCmd (client : HTTPClient) (g : Globals) : CmdResult :=
  match Pkg.GetProduct client g.ProductSlug [] with
  | (.panicked reason, log1) => ⟨.panicked reason, log1, [], []⟩
  | (.returned (_, some err), log1) => ⟨.returned (some err), log1, [], []⟩
  | (.returned (none, none), log1) =>
    ⟨.panicked "invalid memory address or nil pointer dereference", log1, [], []⟩
  | (.returned (some product, none), log1) =>
    if !product.HasVersion g.ProductVersion then
      ⟨.returned (some (Errorf ("product \"" ++ g.ProductSlug ++ "\" does not have a version " ++
        g.ProductVersion))), log1, [], []⟩
    else
      let charts := product.GetChartsForVersion g.ProductVersion
      if charts.length = 0 then
        ⟨.returned none, log1, [],
          [.text ("product \"" ++ g.ProductSlug ++ "\" " ++ g.ProductVersion ++
            " does not have any charts\n")]⟩
      else
        match RenderCharts g.OutputFormat charts with
        | (r, out) => ⟨r, log1, [], out⟩

/-- The local variable `latestVersion` of the loop of `RenderProductList`. -/
def latestVersion (product : Product) : String :=
  if h : 0 < product.AllVersions.length then
    (product.AllVersions.get
      ⟨product.AllVersions.length - 1, Nat.sub_lt h Nat.one_pos⟩).Number
  else "N/A"

/-- The row of `RenderProductList` for a product. -/
def productRow (product : Product) : List String :=
  [product.Slug, product.DisplayName, product.SolutionType, latestVersion product]

/-- The function `RenderProductList` of `cmd/output.go`. -/
def RenderProductList (format : String) (products : List Product) :
    Run (Option GoError) × List Rendered :=
  if format = FormatTable then
    (.returned none, [.table ["Slug", "Name", "Type", "Latest Version"]
      (products.map productRow)
      ["", "", "", "", "Total count: " ++ fmtInt products.length]])
  else if format = FormatJSON then
    (.returned none, [.json (Json.arr (products.map Product.toJson)).text])
  else (.returned none, [])

end Cmd

/-! ## The renderers of the package `lib` (`lib/output.go`) -/

namespace Lib

open Models

/-- Modelled from the spec: the constant `FormatTable` of the package `lib`. -/
def FormatTable : String := "table"

/-- Modelled from the spec: the constant `FormatJSON` of the package `lib`. -/
def FormatJSON : String := "json"

/-- The local variable `latestVersion` of the loop of `RenderProductList` of the package
`lib`.  The type `models.Product` that this package imports is not among the sources:
it is taken to be the aggregate of section 3 of the specification. -/
def latestVersion (product : Product) : String :=
  if h : 0 < product.AllVersions.length then
    (product.AllVersions.get
      ⟨product.AllVersions.length - 1, Nat.sub_lt h Nat.one_pos⟩).Number
  else "N/A"

/-- The row of `RenderProductList` of the package `lib` for a product. -/
def productRow (product : Product) : List String :=
  [product.Slug, product.DisplayName, product.SolutionType, latestVersion product]

/-- The function `RenderProductList` of `lib/output.go`. -/
def RenderProductList (format : String) (products : List Product) :
    Run (Option GoError) × List Cmd.Rendered :=
  if format = FormatTable then
    (.returned none, [.table ["Slug", "Name", "Type", "Latest Version"]
      (products.map productRow)
      ["", "", "", "", "Total count: " ++ fmtInt products.length]])
  else if format = FormatJSON then
    (.returned none, [.json (Json.arr (products.map Product.toJson)).text])
  else (.returned none, [])

end Lib

/-- A backend that holds the product of the tests of `ListOVACmd`: every request is
answered with status 200 and the envelope of the product. -/
def backendWithOVA : HTTPClient :=
  fun _ _ =>
    .ok ⟨200, "200 OK",
      .ok (Pkg.MarshalGetProductResponse ⟨some ⟨"testing", 200, some Models.productWithOVA⟩⟩)⟩

/-- The flags of a list command for the version 9.9.9 of the product of the tests. -/
def globalsListMissing : Cmd.Globals :=
  ⟨"my-super-product", "9.9.9", "table", "", "", "", "", "", "", "", ""⟩

/-- The flags of a list command for the version 2.3.4 of the product of the tests. -/
def globalsListNoOVA : Cmd.Globals :=
  ⟨"my-super-product", "2.3.4", "table", "", "", "", "", "", "", "", ""⟩

/-- A backend that answers every request with status 200 and a body whose product has no
member at all, hence no version. -/
def backendNoVersions : HTTPClient :=
  fun _ _ => .ok ⟨200, "200 OK", .ok "\x7b\"response\":\x7b\"data\":\x7b\x7d\x7d\x7d"⟩

/-! ## Theorems -/

open Models

/-! ### JSON text: the parser reads back what the renderer writes -/

theorem digitChar_spec (k : Nat) (hk : k < 10) :
    isDigit (Nat.digitChar k) = true ∧ (Nat.digitChar k).toNat - 48 = k ∧
      (k ≠ 0 → Nat.digitChar k ≠ '0') := by
  interval_cases k <;> decide

theorem toDigitsCore_spec (fuel : Nat) : ∀ (n : Nat) (ds : List Char), n < fuel →
    ∃ pre, Nat.toDigitsCore 10 fuel n ds = pre ++ ds ∧
      (∀ c ∈ pre, isDigit c = true) ∧
      (∀ a, pre.foldl (fun acc c => acc * 10 + (c.toNat - 48)) a = a * 10 ^ pre.length + n) ∧
      (n = 0 → pre = ['0']) ∧ (n ≠ 0 → ∃ d tl, pre = d :: tl ∧ d ≠ '0') := by
  induction fuel with
  | zero => intro n ds h; omega
  | succ fuel ih =>
    intro n ds h
    obtain ⟨hd1, hd2, hd3⟩ := digitChar_spec (n % 10) (Nat.mod_lt _ (by decide))
    by_cases h0 : n / 10 = 0
    · have hn : n < 10 := by omega
      have hmod : n % 10 = n := Nat.mod_eq_of_lt hn
      refine ⟨[Nat.digitChar (n % 10)], ?_, ?_, ?_, ?_, ?_⟩
      · simp [Nat.toDigitsCore, h0]
      · intro c hc
        simp only [List.mem_singleton] at hc
        rw [hc]; exact hd1
      · intro a
        simp only [List.foldl_cons, List.foldl_nil, List.length_singleton, pow_one]
        rw [hd2, hmod]
      · intro hz; subst hz; rfl
      · intro hz
        exact ⟨_, [], rfl, hd3 (by omega)⟩
    · obtain ⟨pre, hpre, hdig, hval, _, hne⟩ :=
        ih (n / 10) (Nat.digitChar (n % 10) :: ds) (by omega)
      obtain ⟨d, tl, hdtl, hdne⟩ := hne h0
      refine ⟨pre ++ [Nat.digitChar (n % 10)], ?_, ?_, ?_, ?_, ?_⟩
      · simp [Nat.toDigitsCore, h0, hpre]
      · intro c hc
        rcases List.mem_append.mp hc with hc | hc
        · exact hdig c hc
        · simp only [List.mem_singleton] at hc
          rw [hc]; exact hd1
      · intro a
        rw [List.foldl_append, hval]
        simp only [List.foldl_cons, List.foldl_nil, List.length_append, List.length_singleton]
        rw [hd2, pow_succ]
        have := Nat.div_add_mod n 10
        nlinarith [Nat.div_add_mod n 10]
      · intro hz; omega
      · intro _
        exact ⟨d, tl ++ [Nat.digitChar (n % 10)], by rw [hdtl]; rfl, hdne⟩

theorem renderNat_spec (n : Nat) :
    (∀ c ∈ renderNat n, isDigit c = true) ∧ digitsValue (renderNat n) = n ∧
      ∃ d tl, renderNat n = d :: tl ∧ (d = '0' → tl = []) := by
  obtain ⟨pre, hpre, hdig, hval, hz, hnz⟩ := toDigitsCore_spec (n + 1) n [] (by omega)
  have hr : renderNat n = pre := by
    simp [renderNat, Nat.toDigits, hpre]
  rw [hr]
  refine ⟨hdig, ?_, ?_⟩
  · simpa [digitsValue] using hval 0
  · by_cases h0 : n = 0
    · exact ⟨'0', [], hz h0, fun _ => rfl⟩
    · obtain ⟨d, tl, hdtl, hdne⟩ := hnz h0
      exact ⟨d, tl, hdtl, fun h => absurd h hdne⟩

theorem takeDigits_append (pre rest : List Char) (hpre : ∀ c ∈ pre, isDigit c = true)
    (hrest : ∀ c r, rest = c :: r → isDigit c = false) :
    takeDigits (pre ++ rest) = (pre, rest) := by
  induction pre with
  | nil =>
    cases rest with
    | nil => rfl
    | cons c r => simp [takeDigits, hrest c r rfl]
  | cons d ds ih =>
    have hd : isDigit d = true := hpre d (List.mem_cons_self _ _)
    have := ih (fun c hc => hpre c (List.mem_cons_of_mem _ hc))
    simp [takeDigits, hd, this]

theorem Delimited.not_digit {rest : List Char} (h : Delimited rest) :
    ∀ c r, rest = c :: r → isDigit c = false := by
  intro c r hr
  rcases h c r hr with h | h | h <;> subst h <;> decide

theorem parseFraction_delimited {rest : List Char} (h : Delimited rest) :
    parseFraction rest = some ([], rest) := by
  cases rest with
  | nil => rfl
  | cons c r =>
    have hc : c ≠ '.' := by
      rcases h c r rfl with h | h | h <;> subst h <;> decide
    simp [parseFraction, hc]

theorem parseExponent_delimited {rest : List Char} (h : Delimited rest) :
    parseExponent rest = some ([], rest) := by
  cases rest with
  | nil => rfl
  | cons c r =>
    have hc : ¬ (c = 'e' ∨ c = 'E') := by
      rcases h c r rfl with h | h | h <;> subst h <;> decide
    simp [parseExponent, hc]

theorem parseUnsigned_renderNat (neg : Bool) (n : Nat) (rest : List Char) (h : Delimited rest) :
    parseUnsigned neg (renderNat n ++ rest) =
      some (Json.num (if neg then -(n : Int) else n), rest) := by
  obtain ⟨hdig, hval, d, tl, hdtl, hzero⟩ := renderNat_spec n
  have htake := takeDigits_append (renderNat n) rest hdig h.not_digit
  unfold parseUnsigned
  rw [htake]
  rw [hdtl] at hval ⊢
  have hlead : ¬ (d = '0' ∧ tl ≠ []) := fun hh => hh.2 (hzero hh.1)
  simp only [hlead, if_false, parseFraction_delimited h, parseExponent_delimited h, and_self,
    if_true, hval]

theorem parseNumber_renderInt (n : Int) (rest : List Char) (h : Delimited rest) :
    parseNumber (renderInt n ++ rest) = some (Json.num n, rest) := by
  cases n with
  | ofNat m =>
    obtain ⟨hdig, _, d, tl, hdtl, _⟩ := renderNat_spec m
    have hd : d ≠ '-' := by
      intro hd
      have := hdig d (by rw [hdtl]; exact List.mem_cons_self _ _)
      rw [hd] at this
      exact absurd this (by decide)
    have := parseUnsigned_renderNat false m rest h
    simp only [renderInt]
    rw [hdtl] at this ⊢
    simp only [parseNumber, List.cons_append, hd, if_false]
    simpa using this
  | negSucc m =>
    have := parseUnsigned_renderNat true (m + 1) rest h
    simp only [renderInt, parseNumber, List.cons_append, if_true]
    rw [this]
    rfl

theorem hexVal_hexDigit (d : Nat) (hd : d < 16) : hexVal (hexDigit d) = some d := by
  interval_cases d <;> decide

theorem parseHex4_hex4 (n : Nat) (hn : n < 65536) (rest : List Char) :
    parseHex4 (hex4 n ++ rest) = some (n, rest) := by
  have h3 := hexVal_hexDigit (n / 4096 % 16) (Nat.mod_lt _ (by decide))
  have h2 := hexVal_hexDigit (n / 256 % 16) (Nat.mod_lt _ (by decide))
  have h1 := hexVal_hexDigit (n / 16 % 16) (Nat.mod_lt _ (by decide))
  have h0 := hexVal_hexDigit (n % 16) (Nat.mod_lt _ (by decide))
  simp only [hex4, List.cons_append, List.nil_append, parseHex4, h3, h2, h1, h0]
  congr 2
  omega

theorem parseStringBody_escapeChars (s : List Char) : ∀ (fuel : Nat) (rest : List Char),
    s.length < fuel → parseStringBody fuel (escapeChars s ++ '"' :: rest) = some (s, rest) := by
  induction s with
  | nil =>
    intro fuel rest hf
    obtain ⟨f, rfl⟩ : ∃ f, fuel = f + 1 := ⟨fuel - 1, by simp at hf; omega⟩
    simp [escapeChars, parseStringBody]
  | cons c s ih =>
    intro fuel rest hf
    obtain ⟨f, rfl⟩ : ∃ f, fuel = f + 1 := ⟨fuel - 1, by simp at hf; omega⟩
    have hrec := ih f rest (by simp at hf; omega)
    by_cases h1 : c = '"'
    · subst h1
      simp [escapeChars, escapeChar, parseStringBody, unescape, hrec]
    by_cases h2 : c = '\\'
    · subst h2
      simp [escapeChars, escapeChar, parseStringBody, unescape, hrec]
    by_cases h3 : c = '\n'
    · subst h3
      simp [escapeChars, escapeChar, parseStringBody, unescape, hrec]
    by_cases h4 : c = '\r'
    · subst h4
      simp [escapeChars, escapeChar, parseStringBody, unescape, hrec]
    by_cases h5 : c = '\t'
    · subst h5
      simp [escapeChars, escapeChar, parseStringBody, unescape, hrec]
    by_cases h6 : c.toNat < 32 ∨ c = '<' ∨ c = '>' ∨ c = '&' ∨ c.toNat = 8232 ∨ c.toNat = 8233
    · have hn : c.toNat < 55296 := by
        rcases h6 with h | h | h | h | h | h
        · omega
        · subst h; decide
        · subst h; decide
        · subst h; decide
        · omega
        · omega
      have hhex := parseHex4_hex4 c.toNat (by omega) (escapeChars s ++ '"' :: rest)
      have hs1 : ¬ (55296 ≤ c.toNat ∧ c.toNat < 56320) := by omega
      have hs2 : ¬ (56320 ≤ c.toNat ∧ c.toNat < 57344) := by omega
      simp only [escapeChars, escapeChar, h1, h2, h3, h4, h5, h6, if_false, if_true,
        List.cons_append, List.append_assoc]
      simp only [parseStringBody, show ('\\' : Char) ≠ '"' by decide, if_false, if_true, hhex,
        hs1, hs2, hrec, Option.map_some', Char.ofNat_toNat]
    · have h7 : ¬ c.toNat < 32 := fun h => h6 (Or.inl h)
      simp only [escapeChars, escapeChar, h1, h2, h3, h4, h5, h6, if_false, List.cons_append,
        List.nil_append]
      simp only [parseStringBody, h1, h2, h7, if_false, hrec, Option.map_some']

theorem parseString_renderString (s : String) (rest : List Char) :
    parseString (escapeChars s.data ++ '"' :: rest) = some (s, rest) := by
  unfold parseString
  rw [parseStringBody_escapeChars s.data _ rest]
  · rfl
  · have hlen : ∀ l : List Char, l.length ≤ (escapeChars l).length := by
      intro l
      induction l with
      | nil => simp [escapeChars]
      | cons c cs ih =>
        have : 1 ≤ (escapeChar c).length := by
          unfold escapeChar
          split_ifs <;> simp [hex4]
        simp only [escapeChars, List.length_append, List.length_cons]
        omega
    have := hlen s.data
    simp only [List.length_append, List.length_cons]
    omega

theorem ValueStart.spec {c : Char} (h : ValueStart c) :
    isWs c = false ∧ c ≠ ']' ∧ c ≠ '\x7d' ∧ c ≠ ',' := by
  rcases h with h | h | h | h | h | h | h | h
  any_goals (subst h; decide)
  refine ⟨?_, ?_, ?_, ?_⟩
  · cases hw : isWs c with
    | false => rfl
    | true =>
      simp only [isWs, Bool.or_eq_true, decide_eq_true_eq] at hw
      rcases hw with ((hw | hw) | hw) | hw <;> subst hw <;> exact absurd h (by decide)
  all_goals (intro hc; subst hc; exact absurd h (by decide))

theorem renderInt_head (n : Int) :
    ∃ c tl, renderInt n = c :: tl ∧ (c = '-' ∨ isDigit c = true) := by
  cases n with
  | ofNat m =>
    obtain ⟨hdig, _, d, tl, hdtl, _⟩ := renderNat_spec m
    exact ⟨d, tl, hdtl, Or.inr (hdig d (by rw [hdtl]; exact List.mem_cons_self _ _))⟩
  | negSucc m => exact ⟨'-', _, rfl, Or.inl rfl⟩

theorem render_head (j : Json) (hp : j.Plain) :
    ∃ c tl, j.render = c :: tl ∧ ValueStart c := by
  cases j with
  | null => exact ⟨_, _, rfl, by unfold ValueStart; decide⟩
  | bool b => cases b <;> exact ⟨_, _, rfl, by unfold ValueStart; decide⟩
  | num n =>
    obtain ⟨c, tl, h, hc⟩ := renderInt_head n
    refine ⟨c, tl, by simpa [Json.render] using h, ?_⟩
    rcases hc with hc | hc
    · exact Or.inr (Or.inr (Or.inr (Or.inr (Or.inr (Or.inr (Or.inl hc))))))
    · exact Or.inr (Or.inr (Or.inr (Or.inr (Or.inr (Or.inr (Or.inr hc))))))
  | float lit => simp [Json.Plain] at hp
  | str s => exact ⟨_, _, rfl, Or.inl rfl⟩
  | arr xs => exact ⟨'[', renderElems xs ++ [']'], by rw [Json.render], Or.inr (Or.inl rfl)⟩
  | obj kvs =>
    exact ⟨'\x7b', renderMembers kvs ++ ['\x7d'], by rw [Json.render],
      Or.inr (Or.inr (Or.inl rfl))⟩

theorem skipWs_start (c : Char) (tl : List Char) (h : isWs c = false) :
    skipWs (c :: tl) = c :: tl := by
  simp [skipWs, h]

theorem Delimited.cons_comma (r : List Char) : Delimited (',' :: r) := by
  intro c r1 h
  simp only [List.cons.injEq] at h
  exact Or.inl h.1.symm

theorem Delimited.cons_bracket (r : List Char) : Delimited (']' :: r) := by
  intro c r1 h
  simp only [List.cons.injEq] at h
  exact Or.inr (Or.inl h.1.symm)

theorem Delimited.cons_brace (r : List Char) : Delimited ('\x7d' :: r) := by
  intro c r1 h
  simp only [List.cons.injEq] at h
  exact Or.inr (Or.inr h.1.symm)

theorem Delimited.nil : Delimited [] := by
  intro c r h
  cases h

theorem parseValue_num (n : Int) (rest : List Char) (hd : Delimited rest) (fuel : Nat) :
    parseValue (fuel + 1) (renderInt n ++ rest) = some (Json.num n, rest) := by
  obtain ⟨c, tl, h, hc⟩ := renderInt_head n
  have hnum := parseNumber_renderInt n rest hd
  rw [h] at hnum ⊢
  have hs : ValueStart c := by
    rcases hc with hc | hc
    · exact Or.inr (Or.inr (Or.inr (Or.inr (Or.inr (Or.inr (Or.inl hc))))))
    · exact Or.inr (Or.inr (Or.inr (Or.inr (Or.inr (Or.inr (Or.inr hc))))))
  have hne : c ≠ '"' ∧ c ≠ '[' ∧ c ≠ '\x7b' ∧ c ≠ 'n' ∧ c ≠ 't' ∧ c ≠ 'f' := by
    rcases hc with hc | hc
    · subst hc; decide
    · refine ⟨?_, ?_, ?_, ?_, ?_, ?_⟩ <;>
        (intro hh; subst hh; exact absurd hc (by decide))
  obtain ⟨h1, h2, h3, h4, h5, h6⟩ := hne
  simp only [List.cons_append] at hnum ⊢
  rw [parseValue, skipWs_start _ _ hs.spec.1]
  simp only [h1, h2, h3, h4, h5, h6, if_false]
  exact hnum

theorem parseValue_str (s : String) (rest : List Char) (fuel : Nat) :
    parseValue (fuel + 1) (renderString s ++ rest) = some (Json.str s, rest) := by
  have h := parseString_renderString s rest
  simp only [renderString, List.cons_append, List.append_assoc, List.singleton_append,
    List.nil_append]
  rw [parseValue, skipWs_start _ _ (by decide)]
  simp only [if_true, h, Option.map_some']

theorem parseValue_arr_step (f : Nat) (body tl1 rest : List Char) (c : Char) (xs : List Json)
    (hb : body = c :: tl1) (hs : ValueStart c) (hel : parseElems f body = some (xs, rest)) :
    parseValue (f + 1) ('[' :: body) = some (Json.arr xs, rest) := by
  rw [parseValue, skipWs_start _ _ (by decide)]
  simp only [show ('[' : Char) ≠ '"' by decide, if_false, if_true, hel, Option.map_some']
  rw [hb, skipWs_start _ _ hs.spec.1]
  simp only [hs.spec.2.1, if_false]

theorem parseValue_obj_step (f : Nat) (body rest : List Char) (kvs : List (String × Json))
    (hel : parseMembers f ('"' :: body) = some (kvs, rest)) :
    parseValue (f + 1) ('\x7b' :: '"' :: body) = some (Json.obj kvs, rest) := by
  rw [parseValue, skipWs_start _ _ (by decide)]
  simp only [show ('\x7b' : Char) ≠ '"' by decide, show ('\x7b' : Char) ≠ '[' by decide,
    if_false, if_true, hel, Option.map_some']
  rw [skipWs_start _ _ (by decide)]
  simp only [show ('"' : Char) ≠ '\x7d' by decide, if_false]

theorem parseElems_step_last (f : Nat) (body rest : List Char) (x : Json)
    (hv : parseValue f body = some (x, ']' :: rest)) :
    parseElems (f + 1) body = some ([x], rest) := by
  rw [parseElems, hv]
  simp only [skipWs_start _ _ (show isWs ']' = false by decide),
    show (']' : Char) ≠ ',' by decide, if_false, if_true]

theorem parseElems_step_more (f : Nat) (body body2 rest : List Char) (x : Json) (xs : List Json)
    (hv : parseValue f body = some (x, ',' :: body2))
    (hrec : parseElems f body2 = some (xs, rest)) :
    parseElems (f + 1) body = some (x :: xs, rest) := by
  rw [parseElems, hv]
  simp only [skipWs_start _ _ (show isWs ',' = false by decide), if_true, hrec,
    Option.map_some']

theorem parseMembers_step_last (f : Nat) (b1 b2 rest : List Char) (k : String) (v : Json)
    (hk : parseString b1 = some (k, ':' :: b2))
    (hv : parseValue f b2 = some (v, '\x7d' :: rest)) :
    parseMembers (f + 1) ('"' :: b1) = some ([(k, v)], rest) := by
  rw [parseMembers, skipWs_start _ _ (by decide)]
  simp only [if_true, hk, skipWs_start _ _ (show isWs ':' = false by decide), hv,
    skipWs_start _ _ (show isWs '\x7d' = false by decide),
    show ('\x7d' : Char) ≠ ',' by decide, if_false]

theorem parseMembers_step_more (f : Nat) (b1 b2 b3 rest : List Char) (k : String) (v : Json)
    (kvs : List (String × Json))
    (hk : parseString b1 = some (k, ':' :: b2))
    (hv : parseValue f b2 = some (v, ',' :: b3))
    (hrec : parseMembers f b3 = some (kvs, rest)) :
    parseMembers (f + 1) ('"' :: b1) = some ((k, v) :: kvs, rest) := by
  rw [parseMembers, skipWs_start _ _ (by decide)]
  simp only [if_true, hk, skipWs_start _ _ (show isWs ':' = false by decide), hv,
    skipWs_start _ _ (show isWs ',' = false by decide), hrec, Option.map_some']

theorem renderElems_head (x : Json) (xs : List Json) :
    ∃ more, renderElems (x :: xs) = x.render ++ more := by
  cases xs with
  | nil => exact ⟨[], by simp [renderElems]⟩
  | cons y ys => exact ⟨',' :: renderElems (y :: ys), by rw [renderElems]⟩

theorem Json.size_pos (j : Json) : 1 ≤ j.size := by
  cases j <;> simp [Json.size]

/-- The parser reads back what the renderer writes, for values, for the elements of an
array up to the closing bracket and for the members of an object up to the closing brace,
as soon as its bound is at least the number of nodes. -/
theorem parse_render_all (fuel : Nat) :
    (∀ (j : Json) (rest : List Char), j.Plain → Delimited rest → j.size ≤ fuel →
      parseValue fuel (j.render ++ rest) = some (j, rest)) ∧
    (∀ (x : Json) (xs : List Json) (rest : List Char), plainElems (x :: xs) →
      sizeElems (x :: xs) ≤ fuel →
      parseElems fuel (renderElems (x :: xs) ++ ']' :: rest) = some (x :: xs, rest)) ∧
    (∀ (k : String) (v : Json) (kvs : List (String × Json)) (rest : List Char),
      plainMembers ((k, v) :: kvs) → sizeMembers ((k, v) :: kvs) ≤ fuel →
      parseMembers fuel (renderMembers ((k, v) :: kvs) ++ '\x7d' :: rest) =
        some ((k, v) :: kvs, rest)) := by
  induction fuel with
  | zero =>
    refine ⟨?_, ?_, ?_⟩
    · intro j rest _ _ hf
      have := j.size_pos
      omega
    · intro x xs rest _ hf
      simp only [sizeElems] at hf
      omega
    · intro k v kvs rest _ hf
      simp only [sizeMembers] at hf
      omega
  | succ f ih =>
    obtain ⟨ihv, ihe, ihm⟩ := ih
    refine ⟨?_, ?_, ?_⟩
    · intro j rest hp hd hf
      cases j with
      | null => simp [Json.render, parseValue, skipWs, isWs]
      | bool b => cases b <;> simp [Json.render, parseValue, skipWs, isWs]
      | num n => simpa [Json.render] using parseValue_num n rest hd f
      | float lit => simp [Json.Plain] at hp
      | str s => simpa [Json.render] using parseValue_str s rest f
      | arr xs =>
        cases xs with
        | nil => simp [Json.render, renderElems, parseValue, skipWs, isWs]
        | cons x xs =>
          have hpl : plainElems (x :: xs) := by simpa [Json.Plain] using hp
          obtain ⟨c, tl, hc, hs⟩ := render_head x hpl.1
          have hel := ihe x xs rest hpl (by simp only [Json.size] at hf; omega)
          obtain ⟨more, hmore⟩ := renderElems_head x xs
          have hren : (Json.arr (x :: xs)).render ++ rest =
              '[' :: (renderElems (x :: xs) ++ ']' :: rest) := by
            simp [Json.render]
          rw [hren]
          exact parseValue_arr_step f _ (tl ++ more ++ ']' :: rest) rest c (x :: xs)
            (by rw [hmore, hc]; simp) hs hel
      | obj kvs =>
        cases kvs with
        | nil => simp [Json.render, renderMembers, parseValue, skipWs, isWs]
        | cons kv kvs =>
          obtain ⟨k, v⟩ := kv
          have hpl : plainMembers ((k, v) :: kvs) := by simpa [Json.Plain] using hp
          have hel := ihm k v kvs rest hpl (by simp only [Json.size] at hf; omega)
          have hhead : ∃ tl1, renderMembers ((k, v) :: kvs) ++ '\x7d' :: rest = '"' :: tl1 := by
            cases kvs with
            | nil =>
              exact ⟨escapeChars k.data ++ ['"'] ++ ':' :: v.render ++ '\x7d' :: rest,
                by simp [renderMembers, renderString]⟩
            | cons y ys =>
              exact ⟨escapeChars k.data ++ ['"'] ++
                ':' :: (v.render ++ ',' :: renderMembers (y :: ys)) ++ '\x7d' :: rest,
                by simp [renderMembers, renderString]⟩
          obtain ⟨tl1, htl1⟩ := hhead
          have hren : (Json.obj ((k, v) :: kvs)).render ++ rest = '\x7b' :: '"' :: tl1 := by
            rw [← htl1]; simp [Json.render]
          rw [hren]
          rw [htl1] at hel
          exact parseValue_obj_step f tl1 rest _ hel
    · intro x xs rest hp hf
      cases xs with
      | nil =>
        have hv := ihv x (']' :: rest) hp.1 (Delimited.cons_bracket rest)
          (by simp only [sizeElems] at hf; omega)
        exact parseElems_step_last f _ rest x (by simpa [renderElems] using hv)
      | cons y ys =>
        have hv := ihv x (',' :: (renderElems (y :: ys) ++ ']' :: rest)) hp.1
          (Delimited.cons_comma _) (by simp only [sizeElems] at hf ⊢; omega)
        have hrec := ihe y ys rest hp.2 (by simp only [sizeElems] at hf ⊢; omega)
        refine parseElems_step_more f _ _ rest x (y :: ys) ?_ hrec
        rw [← hv, renderElems]
        simp
    · intro k v kvs rest hp hf
      cases kvs with
      | nil =>
        have hv := ihv v ('\x7d' :: rest) hp.1 (Delimited.cons_brace rest)
          (by simp only [sizeMembers] at hf; omega)
        have hk := parseString_renderString k (':' :: (v.render ++ '\x7d' :: rest))
        have hren : renderMembers [(k, v)] ++ '\x7d' :: rest =
            '"' :: (escapeChars k.data ++ '"' :: ':' :: (v.render ++ '\x7d' :: rest)) := by
          simp [renderMembers, renderString]
        rw [hren]
        exact parseMembers_step_last f _ _ rest k v hk hv
      | cons kv1 rest1 =>
        obtain ⟨k1, v1⟩ := kv1
        have hv := ihv v (',' :: (renderMembers ((k1, v1) :: rest1) ++ '\x7d' :: rest)) hp.1
          (Delimited.cons_comma _) (by simp only [sizeMembers] at hf ⊢; omega)
        have hrec := ihm k1 v1 rest1 rest hp.2 (by simp only [sizeMembers] at hf ⊢; omega)
        have hk := parseString_renderString k
          (':' :: (v.render ++ ',' :: (renderMembers ((k1, v1) :: rest1) ++ '\x7d' :: rest)))
        have hren : renderMembers ((k, v) :: (k1, v1) :: rest1) ++ '\x7d' :: rest =
            '"' :: (escapeChars k.data ++ '"' :: ':' ::
              (v.render ++ ',' :: (renderMembers ((k1, v1) :: rest1) ++ '\x7d' :: rest))) := by
          rw [renderMembers]
          simp [renderString]
        rw [hren]
        exact parseMembers_step_more f _ _ _ rest k v _ hk hv hrec

theorem size_le_render_all (n : Nat) :
    (∀ j : Json, j.size ≤ n → j.Plain → j.size ≤ j.render.length) ∧
    (∀ xs : List Json, sizeElems xs ≤ n → plainElems xs →
      sizeElems xs ≤ (renderElems xs).length + 1) ∧
    (∀ kvs : List (String × Json), sizeMembers kvs ≤ n → plainMembers kvs →
      sizeMembers kvs ≤ (renderMembers kvs).length + 1) := by
  induction n with
  | zero =>
    refine ⟨?_, ?_, ?_⟩
    · intro j hj _
      have := j.size_pos
      omega
    · intro xs hxs _
      omega
    · intro kvs hkvs _
      omega
  | succ n ih =>
    obtain ⟨ihv, ihe, ihm⟩ := ih
    refine ⟨?_, ?_, ?_⟩
    · intro j hj hp
      cases j with
      | null => simp [Json.size, Json.render]
      | bool b => cases b <;> simp [Json.size, Json.render]
      | num m =>
        obtain ⟨c, tl, h, _⟩ := renderInt_head m
        simp [Json.size, Json.render, h]
      | float lit => simp [Json.Plain] at hp
      | str s => simp [Json.size, Json.render, renderString]
      | arr xs =>
        have := ihe xs (by simp only [Json.size] at hj; omega) (by simpa [Json.Plain] using hp)
        simp only [Json.size, Json.render, List.length_cons, List.length_append,
          List.length_singleton]
        omega
      | obj kvs =>
        have := ihm kvs (by simp only [Json.size] at hj; omega) (by simpa [Json.Plain] using hp)
        simp only [Json.size, Json.render, List.length_cons, List.length_append,
          List.length_singleton]
        omega
    · intro xs hxs hp
      cases xs with
      | nil => simp [sizeElems]
      | cons x xs =>
        have hx := ihv x (by simp only [sizeElems] at hxs; omega) hp.1
        have hrest := ihe xs (by simp only [sizeElems] at hxs; omega) hp.2
        cases xs with
        | nil =>
          simp only [sizeElems, renderElems]
          omega
        | cons y ys =>
          rw [renderElems]
          simp only [List.length_append, List.length_cons]
          rw [sizeElems]
          omega
    · intro kvs hkvs hp
      cases kvs with
      | nil => simp [sizeMembers]
      | cons kv kvs =>
        obtain ⟨k, v⟩ := kv
        have hx := ihv v (by simp only [sizeMembers] at hkvs; omega) hp.1
        have hrest := ihm kvs (by simp only [sizeMembers] at hkvs; omega) hp.2
        cases kvs with
        | nil =>
          simp only [sizeMembers, renderMembers, List.length_append, List.length_cons]
          omega
        | cons y ys =>
          rw [renderMembers]
          simp only [List.length_append, List.length_cons]
          rw [sizeMembers]
          omega

/-- Round trip of the text form: a document without `float` nodes is parsed back from
its text. -/
theorem parseJson_text (j : Json) (hp : j.Plain) : parseJson j.text = some j := by
  have hsize := (size_le_render_all j.size).1 j (Nat.le_refl _) hp
  have h := (parse_render_all (j.render.length + 1)).1 j [] hp Delimited.nil (by omega)
  rw [List.append_nil] at h
  simp [parseJson, Json.text, h, skipWs]

theorem plainElems_map {α : Type} (enc : α → Json) (h : ∀ a, (enc a).Plain) (xs : List α) :
    plainElems (xs.map enc) := by
  induction xs with
  | nil => simp [plainElems]
  | cons x xs ih => exact ⟨h x, ih⟩

theorem decodeAll_map {α : Type} (enc : α → Json) (dec : Json → Except GoError α)
    (h : ∀ a, dec (enc a) = .ok a) (xs : List α) :
    decodeAll dec (xs.map enc) = .ok xs := by
  induction xs with
  | nil => rfl
  | cons x xs ih => simp [decodeAll, h, ih]

theorem exceptMap_ok {α β : Type} (f : α → β) (a : α) :
    Except.map f (Except.ok a : Except GoError α) = Except.ok (f a) := rfl

namespace Models

theorem Version_roundTrip (v z : Version) : Version.fromJson v.toJson z = .ok v := by
  cases v; cases z; rfl

theorem Version_plain (v : Version) : v.toJson.Plain := by
  simp [Version.toJson, Json.Plain, plainMembers]

theorem Repo_roundTrip (v z : Repo) : Repo.fromJson v.toJson z = .ok v := by
  cases v; cases z; rfl

theorem Repo_plain (v : Repo) : v.toJson.Plain := by
  simp [Repo.toJson, Json.Plain, plainMembers]

theorem ChartVersion_roundTrip (v z : ChartVersion) :
    ChartVersion.fromJson v.toJson z = .ok v := by
  obtain ⟨a, b, c, r, d, e⟩ := v
  cases z
  cases r with
  | none => rfl
  | some r => cases r; rfl

theorem ChartVersion_plain (v : ChartVersion) : v.toJson.Plain := by
  obtain ⟨a, b, c, r, d, e⟩ := v
  cases r with
  | none => simp [ChartVersion.toJson, Json.Plain, plainMembers, encodePtr]
  | some r => simp [ChartVersion.toJson, Json.Plain, plainMembers, encodePtr, Repo.toJson]

theorem ProductDeploymentFile_roundTrip (v z : ProductDeploymentFile) :
    ProductDeploymentFile.fromJson v.toJson z = .ok v := by
  cases v; cases z; rfl

theorem ProductDeploymentFile_plain (v : ProductDeploymentFile) : v.toJson.Plain := by
  simp [ProductDeploymentFile.toJson, Json.Plain, plainMembers]

theorem DockerImageTag_roundTrip (v z : DockerImageTag) :
    DockerImageTag.fromJson v.toJson z = .ok v := by
  cases v; cases z; rfl

theorem DockerImageTag_plain (v : DockerImageTag) : v.toJson.Plain := by
  simp [DockerImageTag.toJson, Json.Plain, plainMembers]

theorem DockerImageTag_roundTripAll (xs : List DockerImageTag) :
    decodeAll (fun e => DockerImageTag.fromJson e DockerImageTag.zero)
      (xs.map DockerImageTag.toJson) = .ok xs :=
  decodeAll_map _ _ (fun a => DockerImageTag_roundTrip a _) xs

theorem DockerURLDetails.field_Url (j : Json) (cur : DockerURLDetails) :
    DockerURLDetails.field (foldKey "Url") j cur =
      (decodeString j cur.Url).map (fun x => { cur with Url := x }) := rfl

theorem DockerURLDetails.field_ImageTags (j : Json) (cur : DockerURLDetails) :
    DockerURLDetails.field (foldKey "ImageTags") j cur =
      (decodeSlice (fun e => DockerImageTag.fromJson e DockerImageTag.zero) j).map
        (fun x => { cur with ImageTags := x }) := rfl

theorem DockerURLDetails_roundTrip (v z : DockerURLDetails) :
    DockerURLDetails.fromJson v.toJson z = .ok v := by
  simp only [DockerURLDetails.fromJson, DockerURLDetails.toJson, decodeStruct, decodeFields,
    DockerURLDetails.field_ImageTags, DockerURLDetails.field_Url, decodeString, decodeSlice,
    DockerImageTag_roundTripAll, exceptMap_ok]

theorem DockerURLDetails_plain (v : DockerURLDetails) : v.toJson.Plain := by
  simp [DockerURLDetails.toJson, Json.Plain, plainMembers,
    plainElems_map _ DockerImageTag_plain]

theorem DockerURLDetails_roundTripAll (xs : List DockerURLDetails) :
    decodeAll (fun e => DockerURLDetails.fromJson e DockerURLDetails.zero)
      (xs.map DockerURLDetails.toJson) = .ok xs :=
  decodeAll_map _ _ (fun a => DockerURLDetails_roundTrip a _) xs

theorem DockerVersionList.field_AppVersion (j : Json) (cur : DockerVersionList) :
    DockerVersionList.field (foldKey "AppVersion") j cur =
      (decodeString j cur.AppVersion).map (fun x => { cur with AppVersion := x }) := rfl

theorem DockerVersionList.field_DockerURLs (j : Json) (cur : DockerVersionList) :
    DockerVersionList.field (foldKey "DockerURLs") j cur =
      (decodeSlice (fun e => DockerURLDetails.fromJson e DockerURLDetails.zero) j).map
        (fun x => { cur with DockerURLs := x }) := rfl

theorem DockerVersionList.field_DeploymentInstruction (j : Json) (cur : DockerVersionList) :
    DockerVersionList.field (foldKey "DeploymentInstruction") j cur =
      (decodeString j cur.DeploymentInstruction).map
        (fun x => { cur with DeploymentInstruction := x }) := rfl

theorem DockerVersionList_roundTrip (v z : DockerVersionList) :
    DockerVersionList.fromJson v.toJson z = .ok v := by
  simp only [DockerVersionList.fromJson, DockerVersionList.toJson, decodeStruct, decodeFields,
    DockerVersionList.field_AppVersion, DockerVersionList.field_DockerURLs,
    DockerVersionList.field_DeploymentInstruction, decodeString, decodeSlice,
    DockerURLDetails_roundTripAll, exceptMap_ok]

theorem DockerVersionList_plain (v : DockerVersionList) : v.toJson.Plain := by
  simp [DockerVersionList.toJson, Json.Plain, plainMembers,
    plainElems_map _ DockerURLDetails_plain]

theorem Publisher_roundTrip (v z : Publisher) : Publisher.fromJson v.toJson z = .ok v := by
  cases v; cases z; rfl

end Models

namespace Models

theorem Version_roundTripAll (xs : List Version) :
    decodeAll (fun e => Version.fromJson e Version.zero) (xs.map Version.toJson) = .ok xs :=
  decodeAll_map _ _ (fun a => Version_roundTrip a _) xs

theorem ChartVersion_roundTripAll (xs : List ChartVersion) :
    decodeAll (fun e => ChartVersion.fromJson e ChartVersion.zero) (xs.map ChartVersion.toJson) = .ok xs :=
  decodeAll_map _ _ (fun a => ChartVersion_roundTrip a _) xs

theorem ProductDeploymentFile_roundTripAll (xs : List ProductDeploymentFile) :
    decodeAll (fun e => ProductDeploymentFile.fromJson e ProductDeploymentFile.zero) (xs.map ProductDeploymentFile.toJson) = .ok xs :=
  decodeAll_map _ _ (fun a => ProductDeploymentFile_roundTrip a _) xs

theorem DockerVersionList_roundTripAll (xs : List DockerVersionList) :
    decodeAll (fun e => DockerVersionList.fromJson e DockerVersionList.zero) (xs.map DockerVersionList.toJson) = .ok xs :=
  decodeAll_map _ _ (fun a => DockerVersionList_roundTrip a _) xs

theorem decodeAll_strings (xs : List String) :
    decodeAll (fun e => decodeString e "") (xs.map Json.str) = .ok xs :=
  decodeAll_map Json.str (fun e => decodeString e "") (fun _ => rfl) xs

theorem Product.field_ProductId (j : Json) (cur : Product) :
    Product.field (foldKey "ProductId") j cur =
      (decodeString j cur.ProductId).map (fun x => { cur with ProductId := x }) := rfl

theorem Product.field_Slug (j : Json) (cur : Product) :
    Product.field (foldKey "Slug") j cur =
      (decodeString j cur.Slug).map (fun x => { cur with Slug := x }) := rfl

theorem Product.field_DisplayName (j : Json) (cur : Product) :
    Product.field (foldKey "DisplayName") j cur =
      (decodeString j cur.DisplayName).map (fun x => { cur with DisplayName := x }) := rfl

theorem Product.field_SolutionType (j : Json) (cur : Product) :
    Product.field (foldKey "SolutionType") j cur =
      (decodeString j cur.SolutionType).map (fun x => { cur with SolutionType := x }) := rfl

theorem Product.field_PublisherDetails (j : Json) (cur : Product) :
    Product.field (foldKey "PublisherDetails") j cur =
      (Publisher.fromJson j cur.PublisherDetails).map
        (fun x => { cur with PublisherDetails := x }) := rfl

theorem Product.field_AllVersions (j : Json) (cur : Product) :
    Product.field (foldKey "AllVersions") j cur =
      (decodeSlice (fun e => Version.fromJson e Version.zero) j).map
        (fun x => { cur with AllVersions := x }) := rfl

theorem Product.field_ChartVersions (j : Json) (cur : Product) :
    Product.field (foldKey "ChartVersions") j cur =
      (decodeSlice (fun e => ChartVersion.fromJson e ChartVersion.zero) j).map
        (fun x => { cur with ChartVersions := x }) := rfl

theorem Product.field_ProductDeploymentFiles (j : Json) (cur : Product) :
    Product.field (foldKey "ProductDeploymentFiles") j cur =
      (decodeSlice (fun e => ProductDeploymentFile.fromJson e ProductDeploymentFile.zero) j).map
        (fun x => { cur with ProductDeploymentFiles := x }) := rfl

theorem Product.field_DockerLinkVersions (j : Json) (cur : Product) :
    Product.field (foldKey "DockerLinkVersions") j cur =
      (decodeSlice (fun e => DockerVersionList.fromJson e DockerVersionList.zero) j).map
        (fun x => { cur with DockerLinkVersions := x }) := rfl

theorem Product.field_DeploymentTypes (j : Json) (cur : Product) :
    Product.field (foldKey "DeploymentTypes") j cur =
      (decodeSlice (fun e => decodeString e "") j).map
        (fun x => { cur with DeploymentTypes := x }) := rfl

theorem Product_roundTrip (p z : Product) : Product.fromJson p.toJson z = .ok p := by
  simp only [Product.fromJson, Product.toJson, decodeStruct, decodeFields,
    Product.field_ProductId, Product.field_Slug, Product.field_DisplayName, Product.field_SolutionType, Product.field_PublisherDetails,
    Product.field_AllVersions, Product.field_ChartVersions, Product.field_ProductDeploymentFiles,
    Product.field_DockerLinkVersions, Product.field_DeploymentTypes,
    decodeSlice, Publisher_roundTrip, Version_roundTripAll,
    ChartVersion_roundTripAll, ProductDeploymentFile_roundTripAll,
    DockerVersionList_roundTripAll, decodeAll_strings, exceptMap_ok]
  simp only [decodeString, exceptMap_ok]

theorem Product_plain (p : Product) : p.toJson.Plain := by
  simp [Product.toJson, Publisher.toJson, Json.Plain, plainMembers,
    plainElems_map _ Version_plain, plainElems_map _ ChartVersion_plain,
    plainElems_map _ ProductDeploymentFile_plain, plainElems_map _ DockerVersionList_plain,
    plainElems_map Json.str (fun _ => by simp [Json.Plain])]

end Models

namespace Pkg

open Models

theorem GetProductResponsePayload.field_message (j : Json) (cur : GetProductResponsePayload) :
    GetProductResponsePayload.field (foldKey "message") j cur =
      (decodeString j cur.Message).map (fun x => { cur with Message := x }) := rfl

theorem GetProductResponsePayload.field_statuscode (j : Json)
    (cur : GetProductResponsePayload) :
    GetProductResponsePayload.field (foldKey "statuscode") j cur =
      (decodeInt j cur.StatusCode).map (fun x => { cur with StatusCode := x }) := rfl

theorem GetProductResponsePayload.field_data (j : Json) (cur : GetProductResponsePayload) :
    GetProductResponsePayload.field (foldKey "data") j cur =
      (decodePtr Product.fromJson Product.zero j cur.Data).map
        (fun x => { cur with Data := x }) := rfl

theorem encodePtr_some {α : Type} (inner : α → Json) (v : α) :
    encodePtr inner (some v) = inner v := rfl

theorem decodePtr_product (d : Option Product) (cur : Option Product) :
    decodePtr Product.fromJson Product.zero (encodePtr Product.toJson d) cur = .ok d := by
  cases d with
  | none => rfl
  | some p =>
    simp only [encodePtr]
    have h := Product_roundTrip p (cur.getD Product.zero)
    simp only [Product.toJson] at h ⊢
    simp only [decodePtr, h]

/-- Round trip of the envelope at the level of documents. -/
theorem GetProductResponsePayload_roundTrip (p z : GetProductResponsePayload)
    (hcode : -9223372036854775808 ≤ p.StatusCode ∧ p.StatusCode ≤ 9223372036854775807) :
    GetProductResponsePayload.fromJson p.toJson z = .ok p := by
  simp only [GetProductResponsePayload.fromJson, GetProductResponsePayload.toJson, decodeStruct,
    decodeFields, GetProductResponsePayload.field_message,
    GetProductResponsePayload.field_statuscode, GetProductResponsePayload.field_data,
    decodeString, decodeInt, hcode, and_self, if_true, decodePtr_product, exceptMap_ok]

theorem GetProductResponsePayload_plain (p : GetProductResponsePayload) : p.toJson.Plain := by
  obtain ⟨m, c, d⟩ := p
  cases d with
  | none => simp [GetProductResponsePayload.toJson, Json.Plain, plainMembers, encodePtr]
  | some q => exact ⟨trivial, trivial, Product_plain q, trivial⟩

theorem GetProductResponse.field_response (j : Json) (cur : GetProductResponse) :
    GetProductResponse.field (foldKey "response") j cur =
      (decodePtr GetProductResponsePayload.fromJson GetProductResponsePayload.zero j
        cur.Response).map (fun x => { cur with Response := x }) := rfl

theorem decodePtr_payload (p : GetProductResponsePayload) (cur : Option GetProductResponsePayload)
    (hcode : -9223372036854775808 ≤ p.StatusCode ∧ p.StatusCode ≤ 9223372036854775807) :
    decodePtr GetProductResponsePayload.fromJson GetProductResponsePayload.zero
      (encodePtr GetProductResponsePayload.toJson (some p)) cur = .ok (some p) := by
  have h := GetProductResponsePayload_roundTrip p (cur.getD GetProductResponsePayload.zero) hcode
  simp only [GetProductResponsePayload.toJson] at h
  simp only [encodePtr_some, GetProductResponsePayload.toJson, decodePtr, h]

/-- Round trip of `GetProductResponse`: the body that `json.Marshal` writes for an
envelope with a payload is decoded by `json.Unmarshal` into the same envelope. -/
theorem Unmarshal_Marshal (p : GetProductResponsePayload)
    (hcode : -9223372036854775808 ≤ p.StatusCode ∧ p.StatusCode ≤ 9223372036854775807) :
    UnmarshalGetProductResponse (MarshalGetProductResponse ⟨some p⟩) = .ok ⟨some p⟩ := by
  have hplain : (GetProductResponse.toJson ⟨some p⟩).Plain := by
    exact ⟨GetProductResponsePayload_plain p, trivial⟩
  simp only [UnmarshalGetProductResponse, MarshalGetProductResponse, parseJson_text _ hplain]
  simp only [GetProductResponse.fromJson, GetProductResponse.toJson, decodeStruct, decodeFields,
    GetProductResponse.field_response, decodePtr_payload p _ hcode, exceptMap_ok]

end Pkg

/-! ### The request of `GetProduct` and of `PutProduct` -/

/-- `GetProduct` issues exactly one request, whatever the answer. -/
theorem Pkg.GetProduct_log (client : HTTPClient) (slug : String) (log : List Request) :
    (Pkg.GetProduct client slug log).2 =
      log ++ [⟨"GET", "/api/v1/products/" ++ slug,
        [("increaseViewCount", "false"), ("isSlug", "true")], "", ""⟩] := by
  unfold Pkg.GetProduct Pkg.Get Pkg.MakeURL
  simp only []
  split
  · rename_i h; simp only [Prod.mk.injEq] at h; exact h.2.symm
  · rename_i h
    simp only [Prod.mk.injEq] at h
    split
    · exact h.2.symm
    · split
      · exact h.2.symm
      · split <;> exact h.2.symm

/-- C1: for every slug, when the backend answers the GET of `GetProduct` with status 404,
`GetProduct` returns no product and the error `product "<slug>" not found`. -/
theorem C1_GetProduct_not_found (client : HTTPClient) (slug : String) (log : List Request)
    (resp : Response)
    (hdo : client log ⟨"GET", "/api/v1/products/" ++ slug,
      [("increaseViewCount", "false"), ("isSlug", "true")], "", ""⟩ = .ok resp)
    (h404 : resp.StatusCode = 404) :
    (Pkg.GetProduct client slug log).1 =
      .returned (none, some (GoError.errorString ("product \"" ++ slug ++ "\" not found"))) := by
  simp [Pkg.GetProduct, Pkg.Get, Pkg.MakeURL, hdo, h404, Errorf]

/-- C1, at the slug of the tests: the message is `product "missing-slug" not found`. -/
theorem C1_GetProduct_not_found_witness :
    ((fun _ _ => .ok ⟨404, "404 Not Found", .ok ""⟩ : HTTPClient) []
        ⟨"GET", "/api/v1/products/" ++ "missing-slug",
          [("increaseViewCount", "false"), ("isSlug", "true")], "", ""⟩
        = .ok ⟨404, "404 Not Found", .ok ""⟩ ∧
      (⟨404, "404 Not Found", .ok ""⟩ : Response).StatusCode = 404) ∧
    (Pkg.GetProduct (fun _ _ => .ok ⟨404, "404 Not Found", .ok ""⟩) "missing-slug" []).1 =
      .returned (none, some (GoError.errorString "product \"missing-slug\" not found")) :=
  ⟨⟨rfl, rfl⟩,
    C1_GetProduct_not_found (fun _ _ => .ok ⟨404, "404 Not Found", .ok ""⟩) "missing-slug" []
      ⟨404, "404 Not Found", .ok ""⟩ rfl rfl⟩

/-- C2: for every slug and every transport error `e` of the client, `GetProduct` returns
no product and an error whose message is `sending the request for product "<slug>" failed: `
followed by the message of `e`, and which wraps `e`. -/
theorem C2_GetProduct_transport_error (client : HTTPClient) (slug : String) (log : List Request)
    (e : GoError)
    (hdo : client log ⟨"GET", "/api/v1/products/" ++ slug,
      [("increaseViewCount", "false"), ("isSlug", "true")], "", ""⟩ = .error e) :
    ∃ err, (Pkg.GetProduct client slug log).1 = .returned (none, some err) ∧
      err.Error = "sending the request for product \"" ++ slug ++ "\" failed: " ++ e.Error ∧
      err.Unwrap = some e := by
  refine ⟨ErrorfW ("sending the request for product \"" ++ slug ++ "\" failed: ") e, ?_, rfl, rfl⟩
  simp [Pkg.GetProduct, Pkg.Get, Pkg.MakeURL, hdo]

/-- C2, at the slug and the error of the tests: the message is
`sending the request for product "my-super-product" failed: request failed`. -/
theorem C2_GetProduct_transport_error_witness :
    (fun _ _ => .error (GoError.errorString "request failed") : HTTPClient) []
        ⟨"GET", "/api/v1/products/" ++ "my-super-product",
          [("increaseViewCount", "false"), ("isSlug", "true")], "", ""⟩
        = .error (GoError.errorString "request failed") ∧
    ∃ err, (Pkg.GetProduct (fun _ _ => .error (GoError.errorString "request failed"))
        "my-super-product" []).1 = .returned (none, some err) ∧
      err.Error = "sending the request for product \"" ++ "my-super-product" ++ "\" failed: " ++
        (GoError.errorString "request failed").Error ∧
      err.Unwrap = some (GoError.errorString "request failed") :=
  ⟨rfl, C2_GetProduct_transport_error (fun _ _ => .error (GoError.errorString "request failed"))
    "my-super-product" [] (GoError.errorString "request failed") rfl⟩

/-- C3: for every product, every status code other than 200 and every body text read
from the response, `PutProduct` returns no product and the error
`updating product "<Slug>" failed: (<code>)`, a newline, then the body unchanged. -/
theorem C3_PutProduct_status_error (client : HTTPClient) (product : Product)
    (versionUpdate : Bool) (log : List Request) (resp : Response) (body : String)
    (hdo : client log ⟨"PUT", "/api/v1/products/" ++ product.ProductId,
      [("archivepreviousversion", "false"), ("isversionupdate", FormatBool versionUpdate)],
      "application/json", product.toJson.text⟩ = .ok resp)
    (hbody : resp.Body = .ok body)
    (hcode : resp.StatusCode ≠ 200) :
    (Pkg.PutProduct client product versionUpdate log).1 =
      .returned (none, some (GoError.errorString ("updating product \"" ++ product.Slug ++
        "\" failed: (" ++ fmtInt resp.StatusCode ++ ")\n" ++ body))) := by
  simp [Pkg.PutProduct, Pkg.Put, Pkg.MakeURL, hdo, hbody, hcode, Errorf]

/-- C3, at the scenario of the specification: status 418 with the body
`Teapots all the way down`. -/
theorem C3_PutProduct_status_error_witness :
    (teapotClient [] ⟨"PUT", "/api/v1/products/" ++ productX.ProductId,
      [("archivepreviousversion", "false"), ("isversionupdate", FormatBool false)],
      "application/json", productX.toJson.text⟩
        = .ok ⟨418, "418 Teapot", .ok "Teapots all the way down"⟩ ∧
      (⟨418, "418 Teapot", .ok "Teapots all the way down"⟩ : Response).Body =
        .ok "Teapots all the way down" ∧
      (⟨418, "418 Teapot", .ok "Teapots all the way down"⟩ : Response).StatusCode ≠ 200) ∧
    (Pkg.PutProduct teapotClient productX false []).1 =
      .returned (none, some (GoError.errorString
        "updating product \"X\" failed: (418)\nTeapots all the way down")) :=
  ⟨⟨rfl, rfl, by decide⟩,
    C3_PutProduct_status_error teapotClient productX false []
      ⟨418, "418 Teapot", .ok "Teapots all the way down"⟩ "Teapots all the way down"
      rfl rfl (by decide)⟩

/-! ### Domain lookups -/

theorem Models.hasVersionIn_iff (vs : List Version) (n : String) :
    hasVersionIn vs n = true ↔ ∃ v ∈ vs, v.Number = n := by
  induction vs with
  | nil => simp [hasVersionIn]
  | cons v vs ih =>
    by_cases h : v.Number = n
    · simp [hasVersionIn, h]
    · simp [hasVersionIn, h, ih]

/-- C4: `HasVersion(n)` is true if and only if some element of `AllVersions` has `Number`
exactly `n`; it is false for every `n` when `AllVersions` is empty. -/
theorem C4_HasVersion_iff (P : Product) (n : String) :
    (P.HasVersion n = true ↔ ∃ v ∈ P.AllVersions, v.Number = n) ∧
      (P.AllVersions = [] → P.HasVersion n = false) := by
  refine ⟨Models.hasVersionIn_iff P.AllVersions n, fun h => ?_⟩
  simp [Product.HasVersion, h, hasVersionIn]

theorem Models.lastVersionOf_eq (vs : List Version) : lastVersionOf vs = vs.getLast? := by
  induction vs with
  | nil => rfl
  | cons v vs ih =>
    cases vs with
    | nil => rfl
    | cons w ws => rw [lastVersionOf, ih, List.getLast?_cons_cons]

theorem Models.findVersionIn_eq (vs : List Version) (n : String) :
    findVersionIn vs n = vs.find? (fun v => decide (v.Number = n)) := by
  induction vs with
  | nil => rfl
  | cons v vs ih =>
    by_cases h : v.Number = n
    · simp [findVersionIn, h]
    · simp [findVersionIn, h, ih]

/-- C5: `GetVersion(n)` is the reference of the claim: for the empty `n` the last element
of `AllVersions` (absent when there is none), otherwise the element whose `Number` is
exactly `n`, absent when no element matches; the result is a value or absent, never an
error. -/
theorem C5_GetVersion_reference (P : Product) (n : String) :
    P.GetVersion n = GetVersionReference P n ∧
      (∀ v, P.GetVersion n = some v → v ∈ P.AllVersions) ∧
      (n ≠ "" → ∀ v, P.GetVersion n = some v → v.Number = n) ∧
      (n ≠ "" → (P.GetVersion n = none ↔ ∀ v ∈ P.AllVersions, v.Number ≠ n)) ∧
      (P.AllVersions = [] → P.GetVersion n = none) := by
  have href : P.GetVersion n = GetVersionReference P n := by
    unfold Product.GetVersion GetVersionReference
    rw [Models.lastVersionOf_eq, Models.findVersionIn_eq]
  refine ⟨href, ?_, ?_, ?_, ?_⟩
  · intro v hv
    rw [href] at hv
    unfold GetVersionReference at hv
    split at hv
    · exact List.mem_of_getLast?_eq_some hv
    · exact List.mem_of_find?_eq_some hv
  · intro hn v hv
    rw [href] at hv
    unfold GetVersionReference at hv
    rw [if_neg hn] at hv
    simpa using List.find?_some hv
  · intro hn
    rw [href]
    unfold GetVersionReference
    rw [if_neg hn]
    simp
  · intro h
    rw [href]
    unfold GetVersionReference
    split <;> simp [h]

theorem Models.scanForVersion_eq {α : Type} (app : α → String) (n : String) (xs acc : List α) :
    scanForVersion app n xs acc = acc ++ xs.filter (fun x => decide (app x = n)) := by
  induction xs generalizing acc with
  | nil => simp [scanForVersion]
  | cons x xs ih =>
    by_cases h : app x = n
    · simp [scanForVersion, h, ih]
    · simp [scanForVersion, h, ih]

theorem Models.count_filter_app {α : Type} [DecidableEq α] (app : α → String) (n : String)
    (xs : List α) (a : α) :
    (xs.filter (fun x => decide (app x = n))).count a = if app a = n then xs.count a else 0 := by
  by_cases h : app a = n
  · rw [if_pos h, List.count_filter]
    simpa using h
  · rw [if_neg h, List.count_eq_zero]
    intro hm
    exact h (by simpa using (List.mem_filter.mp hm).2)

/-- C7: `GetChartsForVersion(v)` and `GetOVAsForVersion(v)` return exactly the entries of
their collection whose `AppVersion` is `v`, in the original order: the result is the
filtered collection, a subsequence in which every entry occurs as often as it does among
the matching entries of the source; it is empty when no entry matches. -/
theorem C7_lookups_for_version_filter (P : Product) (v : String) :
    (P.GetChartsForVersion v = P.ChartVersions.filter (fun c => decide (c.AppVersion = v)) ∧
      List.Sublist (P.GetChartsForVersion v) P.ChartVersions ∧
      (∀ c, (P.GetChartsForVersion v).count c =
        if c.AppVersion = v then P.ChartVersions.count c else 0) ∧
      ((∀ c ∈ P.ChartVersions, c.AppVersion ≠ v) → P.GetChartsForVersion v = [])) ∧
    (P.GetOVAsForVersion v =
        P.ProductDeploymentFiles.filter (fun f => decide (f.AppVersion = v)) ∧
      List.Sublist (P.GetOVAsForVersion v) P.ProductDeploymentFiles ∧
      (∀ f, (P.GetOVAsForVersion v).count f =
        if f.AppVersion = v then P.ProductDeploymentFiles.count f else 0) ∧
      ((∀ f ∈ P.ProductDeploymentFiles, f.AppVersion ≠ v) → P.GetOVAsForVersion v = [])) := by
  have hc : P.GetChartsForVersion v =
      P.ChartVersions.filter (fun c => decide (c.AppVersion = v)) := by
    simp [Product.GetChartsForVersion, Models.scanForVersion_eq]
  have ho : P.GetOVAsForVersion v =
      P.ProductDeploymentFiles.filter (fun f => decide (f.AppVersion = v)) := by
    simp [Product.GetOVAsForVersion, Models.scanForVersion_eq]
  refine ⟨⟨hc, ?_, ?_, ?_⟩, ⟨ho, ?_, ?_, ?_⟩⟩
  · rw [hc]; exact List.filter_sublist _
  · intro c
    rw [hc, Models.count_filter_app]
  · intro h
    rw [hc, List.filter_eq_nil_iff]
    intro c hcm
    simpa using h c hcm
  · rw [ho]; exact List.filter_sublist _
  · intro f
    rw [ho, Models.count_filter_app]
  · intro h
    rw [ho, List.filter_eq_nil_iff]
    intro f hfm
    simpa using h f hfm

/-! ### The create commands -/

/-- C8: for every fetched product and every version that is not among its `AllVersions`,
`CreateOVACmd` and the create-chart command fail with the error
`product "<slug>" does not have a version <v>, please add it first`; the upload
collaborator is not called and the only HTTP request issued is the GET of the product:
no PUT request is issued. -/
theorem C8_create_missing_version (client : HTTPClient) (uploader : Cmd.Uploader)
    (g : Cmd.Globals) (X : Product)
    (hget : (Pkg.GetProduct client g.ProductSlug []).1 = .returned (some X, none))
    (hver : ∀ v ∈ X.AllVersions, v.Number ≠ g.ProductVersion) :
    ((Cmd.CreateOVACmd client uploader g).err =
        .returned (some (GoError.errorString ("product \"" ++ g.ProductSlug ++
          "\" does not have a version " ++ g.ProductVersion ++ ", please add it first"))) ∧
      (Cmd.CreateOVACmd client uploader g).requests =
        [⟨"GET", "/api/v1/products/" ++ g.ProductSlug,
          [("increaseViewCount", "false"), ("isSlug", "true")], "", ""⟩] ∧
      (∀ r ∈ (Cmd.CreateOVACmd client uploader g).requests, r.Method ≠ "PUT") ∧
      (Cmd.CreateOVACmd client uploader g).uploads = []) ∧
    ((Cmd.CreateChartCmd client g).err =
        .returned (some (GoError.errorString ("product \"" ++ g.ProductSlug ++
          "\" does not have a version " ++ g.ProductVersion ++ ", please add it first"))) ∧
      (Cmd.CreateChartCmd client g).requests =
        [⟨"GET", "/api/v1/products/" ++ g.ProductSlug,
          [("increaseViewCount", "false"), ("isSlug", "true")], "", ""⟩] ∧
      (∀ r ∈ (Cmd.CreateChartCmd client g).requests, r.Method ≠ "PUT") ∧
      (Cmd.CreateChartCmd client g).uploads = []) := by
  have hhas : X.HasVersion g.ProductVersion = false := by
    rw [Bool.eq_false_iff]
    intro h
    obtain ⟨v, hv, hn⟩ := (Models.hasVersionIn_iff X.AllVersions g.ProductVersion).mp h
    exact hver v hv hn
  have hpair : Pkg.GetProduct client g.ProductSlug [] =
      (.returned (some X, none), [⟨"GET", "/api/v1/products/" ++ g.ProductSlug,
        [("increaseViewCount", "false"), ("isSlug", "true")], "", ""⟩]) := by
    apply Prod.ext
    · exact hget
    · simpa using Pkg.GetProduct_log client g.ProductSlug []
  have hova : Cmd.CreateOVACmd client uploader g =
      ⟨.returned (some (Cmd.missingVersionError g.ProductSlug g.ProductVersion)),
        [⟨"GET", "/api/v1/products/" ++ g.ProductSlug,
          [("increaseViewCount", "false"), ("isSlug", "true")], "", ""⟩], [], []⟩ := by
    simp [Cmd.CreateOVACmd, hpair, hhas]
  have hchart : Cmd.CreateChartCmd client g =
      ⟨.returned (some (Cmd.missingVersionError g.ProductSlug g.ProductVersion)),
        [⟨"GET", "/api/v1/products/" ++ g.ProductSlug,
          [("increaseViewCount", "false"), ("isSlug", "true")], "", ""⟩], [], []⟩ := by
    simp [Cmd.CreateChartCmd, hpair, hhas]
  rw [hova, hchart]
  simp [Cmd.missingVersionError, Errorf]

set_option maxRecDepth 1000000 in
/-- C8, at the scenario of the specification: the product `X` has the version 1.2.3 only
and a chart or an OVA is created for the version 9.9.9. -/
theorem C8_create_missing_version_witness :
    ((Pkg.GetProduct backendX globalsMissingVersion.ProductSlug []).1 =
        .returned (some productX, none) ∧
      ∀ v ∈ productX.AllVersions, v.Number ≠ globalsMissingVersion.ProductVersion) ∧
    ((Cmd.CreateOVACmd backendX uploaderOk globalsMissingVersion).err =
        .returned (some (GoError.errorString
          "product \"X\" does not have a version 9.9.9, please add it first")) ∧
      (Cmd.CreateOVACmd backendX uploaderOk globalsMissingVersion).requests =
        [⟨"GET", "/api/v1/products/X",
          [("increaseViewCount", "false"), ("isSlug", "true")], "", ""⟩] ∧
      (∀ r ∈ (Cmd.CreateOVACmd backendX uploaderOk globalsMissingVersion).requests,
        r.Method ≠ "PUT") ∧
      (Cmd.CreateOVACmd backendX uploaderOk globalsMissingVersion).uploads = []) ∧
    ((Cmd.CreateChartCmd backendX globalsMissingVersion).err =
        .returned (some (GoError.errorString
          "product \"X\" does not have a version 9.9.9, please add it first")) ∧
      (Cmd.CreateChartCmd backendX globalsMissingVersion).requests =
        [⟨"GET", "/api/v1/products/X",
          [("increaseViewCount", "false"), ("isSlug", "true")], "", ""⟩] ∧
      (∀ r ∈ (Cmd.CreateChartCmd backendX globalsMissingVersion).requests, r.Method ≠ "PUT") ∧
      (Cmd.CreateChartCmd backendX globalsMissingVersion).uploads = []) :=
  ⟨⟨by decide, by decide⟩,
    C8_create_missing_version backendX uploaderOk globalsMissingVersion productX
      (by decide) (by decide)⟩

/-! ### `GetProduct` on a successful answer -/

/-- C9: round trip through the envelope: when the backend answers 200 with the JSON
serialization of `GetProductResponse{Response: {Data: P, StatusCode, Message}}`,
`GetProduct` returns the product `P`, equal in every field, and no error; the status code
and the message of the envelope are discarded. -/
theorem C9_GetProduct_envelope_round_trip (client : HTTPClient) (slug : String)
    (log : List Request) (P : Product) (message status : String) (statusCode : Int)
    (hcode : -9223372036854775808 ≤ statusCode ∧ statusCode ≤ 9223372036854775807)
    (hdo : client log ⟨"GET", "/api/v1/products/" ++ slug,
      [("increaseViewCount", "false"), ("isSlug", "true")], "", ""⟩ =
        .ok ⟨200, status,
          .ok (Pkg.MarshalGetProductResponse ⟨some ⟨message, statusCode, some P⟩⟩)⟩) :
    (Pkg.GetProduct client slug log).1 = .returned (some P, none) := by
  have hrt := Pkg.Unmarshal_Marshal ⟨message, statusCode, some P⟩ hcode
  simp [Pkg.GetProduct, Pkg.Get, Pkg.MakeURL, hdo, Pkg.parseProductResponse, hrt]

/-- C9, at the product `X` behind the backend of the examples. -/
theorem C9_GetProduct_envelope_round_trip_witness :
    ((-9223372036854775808 : Int) ≤ 200 ∧ (200 : Int) ≤ 9223372036854775807) ∧
    backendX [] ⟨"GET", "/api/v1/products/" ++ "X",
      [("increaseViewCount", "false"), ("isSlug", "true")], "", ""⟩ =
        .ok ⟨200, "200 OK",
          .ok (Pkg.MarshalGetProductResponse ⟨some ⟨"testing", 200, some productX⟩⟩)⟩ ∧
    (Pkg.GetProduct backendX "X" []).1 = .returned (some productX, none) :=
  ⟨by decide, by rfl,
    C9_GetProduct_envelope_round_trip backendX "X" [] productX "testing" "200 OK" 200
      (by decide) (by rfl)⟩

/-! ### `ListProducts` -/

namespace Pkg

theorem Get_pageRequest (client : HTTPClient) (values : List (String × String)) (j : Nat)
    (log : List Request) :
    Get client (listRequestURL values ⟨((j : Nat) : Int), 20⟩) log =
      (client log (pageRequest values j), log ++ [pageRequest values j]) := rfl

/-- One iteration of the loop of `ListProducts` on a page that is answered with status
200 and a body that decodes to a payload. -/
theorem listProductsLoop_step (client : HTTPClient) (values : List (String × String))
    (fuel j : Nat) (products : List Product) (total : Int) (log : List Request)
    (status body : String) (payload : ListProductResponsePayload)
    (hcond : (products.length : Int) < total)
    (hdo : client log (pageRequest values j) = .ok ⟨200, status, .ok body⟩)
    (hbody : UnmarshalListProductResponse body = .ok ⟨some payload⟩) :
    listProductsLoop client values (fuel + 1) products total ⟨((j : Nat) : Int), 20⟩ log =
      listProductsLoop client values fuel (products ++ payload.Products)
        payload.Params.ProductCount ⟨((j + 1 : Nat) : Int), 20⟩ (log ++ [pageRequest values j]) := by
  rw [listProductsLoop]
  simp only [hcond, if_true, Get_pageRequest, hdo, hbody]
  simp

/-- The loop of `ListProducts` ends when its condition fails. -/
theorem listProductsLoop_stop (client : HTTPClient) (values : List (String × String))
    (fuel : Nat) (products : List Product) (total : Int) (pagination : Pagination)
    (log : List Request) (hcond : ¬ (products.length : Int) < total) :
    listProductsLoop client values fuel products total pagination log =
      (some (.returned (products, none)), log) := by
  cases fuel <;> simp [listProductsLoop, hcond]

theorem listProductsLoop_pages (client : HTTPClient) (values : List (String × String))
    (r : Nat → ListProductResponsePayload) (body status : Nat → String) (k : Nat)
    (hpages : ∀ i, 1 ≤ i → i ≤ k →
      client (pageRequests values (i - 1)) (pageRequest values i) =
          .ok ⟨200, status i, .ok (body i)⟩ ∧
        UnmarshalListProductResponse (body i) = .ok ⟨some (r i)⟩)
    (hstop : (r k).Params.ProductCount ≤ ((productsUpTo r k).length : Int))
    (hleast : ∀ j, 1 ≤ j → j < k →
      ((productsUpTo r j).length : Int) < (r j).Params.ProductCount) :
    ∀ (d j fuel : Nat), 1 ≤ j → j + d = k → d ≤ fuel →
      listProductsLoop client values fuel (productsUpTo r j) (r j).Params.ProductCount
          ⟨((j + 1 : Nat) : Int), 20⟩ (pageRequests values j) =
        (some (.returned (productsUpTo r k, none)), pageRequests values k) := by
  intro d
  induction d with
  | zero =>
    intro j fuel _ hjk _
    have hj : j = k := by omega
    subst hj
    exact listProductsLoop_stop client values fuel _ _ _ _ (by omega)
  | succ d ih =>
    intro j fuel hj hjk hfuel
    obtain ⟨f, rfl⟩ : ∃ f, fuel = f + 1 := ⟨fuel - 1, by omega⟩
    obtain ⟨hdo, hbody⟩ := hpages (j + 1) (by omega) (by omega)
    rw [Nat.add_sub_cancel] at hdo
    rw [listProductsLoop_step client values f (j + 1) _ _ _ (status (j + 1)) (body (j + 1))
      (r (j + 1)) (hleast j hj (by omega)) hdo hbody]
    exact ih (j + 1) f (by omega) (by omega) (by omega)

theorem listProductsLoop_log (client : HTTPClient) (values : List (String × String))
    (fuel : Nat) : ∀ (products : List Product) (total : Int) (pagination : Pagination)
      (log : List Request),
      ∃ extra, (listProductsLoop client values fuel products total pagination log).2 =
          log ++ extra ∧
        ((products.length : Int) < total → 1 ≤ fuel → extra ≠ []) := by
  induction fuel with
  | zero =>
    intro products total pagination log
    refine ⟨[], ?_, fun _ h => by omega⟩
    rw [listProductsLoop]
    split <;> simp
  | succ f ih =>
    intro products total pagination log
    rw [listProductsLoop]
    by_cases hc : (products.length : Int) < total
    · simp only [hc, if_true, Get]
      generalize (⟨"GET", (listRequestURL values pagination).Path,
        (listRequestURL values pagination).Query, "", ""⟩ : Request) = req
      cases hdo : client log req with
      | error e => exact ⟨[req], rfl, fun _ _ => by simp⟩
      | ok resp =>
        by_cases hs : resp.StatusCode ≠ 200
        · dsimp only
          rw [if_pos hs]
          exact ⟨[req], rfl, fun _ _ => by simp⟩
        · dsimp only
          rw [if_neg hs]
          cases hb : resp.Body with
          | error e => exact ⟨[req], rfl, fun _ _ => by simp⟩
          | ok body =>
            try simp only []
            cases hu : UnmarshalListProductResponse body with
            | error e => exact ⟨[req], rfl, fun _ _ => by simp⟩
            | ok response =>
              try simp only []
              cases hr : response.Response with
              | none => exact ⟨[req], rfl, fun _ _ => by simp⟩
              | some payload =>
                try simp only []
                obtain ⟨extra, hextra, _⟩ := ih (products ++ payload.Products)
                  payload.Params.ProductCount { pagination with Page := pagination.Page + 1 }
                  (log ++ [req])
                exact ⟨req :: extra, by rw [hextra]; simp, fun _ _ => by simp⟩
    · simp only [hc, if_false]
      exact ⟨[], by simp, fun h => h.elim⟩

theorem pageRequests_length (values : List (String × String)) (m : Nat) :
    (pageRequests values m).length = m := by
  induction m with
  | zero => rfl
  | succ m ih => simp [pageRequests, ih]

theorem pageRequests_getElem (values : List (String × String)) (m : Nat) :
    ∀ i, i < m → (pageRequests values m)[i]? = some (pageRequest values (i + 1)) := by
  induction m with
  | zero => intro i hi; omega
  | succ m ih =>
    intro i hi
    have hlm := pageRequests_length values m
    by_cases him : i < m
    · rw [pageRequests, List.getElem?_append_left (by omega)]
      exact ih i him
    · have : i = m := by omega
      subst this
      rw [pageRequests, List.getElem?_append_right (by omega)]
      simp [hlm]

end Pkg

/-- C10: for page responses that are all successful (status 200, a body that decodes to
a payload), `ListProducts` requests the pages 1, 2, 3, ... in this order, with page size
20, stops after the page `k`, the least `k ≥ 1` such that the number of products of the
pages 1 to `k` is at least the `itemsnumber` reported by the page `k`, and returns the
concatenation of the `dataList` of the pages 1 to `k` in the order of the pages; and for
every backend `ListProducts` issues at least one request. -/
theorem C10_ListProducts_pages (client : HTTPClient) (allOrgs : Bool) (searchTerm : String)
    (r : Nat → Pkg.ListProductResponsePayload) (body status : Nat → String) (k fuel : Nat)
    (hk : 1 ≤ k)
    (hpages : ∀ i, 1 ≤ i → i ≤ k →
      client (Pkg.pageRequests (Pkg.listValues allOrgs searchTerm) (i - 1))
          (Pkg.pageRequest (Pkg.listValues allOrgs searchTerm) i) =
          .ok ⟨200, status i, .ok (body i)⟩ ∧
        Pkg.UnmarshalListProductResponse (body i) = .ok ⟨some (r i)⟩)
    (hstop : (r k).Params.ProductCount ≤ ((Pkg.productsUpTo r k).length : Int))
    (hleast : ∀ j, 1 ≤ j → j < k →
      ((Pkg.productsUpTo r j).length : Int) < (r j).Params.ProductCount)
    (hfuel : k ≤ fuel) :
    Pkg.ListProducts fuel client allOrgs searchTerm [] =
        (some (.returned (Pkg.productsUpTo r k, none)),
          Pkg.pageRequests (Pkg.listValues allOrgs searchTerm) k) ∧
      (∀ i, i < k →
        (Pkg.pageRequests (Pkg.listValues allOrgs searchTerm) k)[i]? =
          some ⟨"GET", "/api/v1/products",
            Pkg.setValue "pagination" (Pkg.Pagination.toJson ⟨((i + 1 : Nat) : Int), 20⟩).text
              (Pkg.listValues allOrgs searchTerm), "", ""⟩) ∧
      (Pkg.pageRequests (Pkg.listValues allOrgs searchTerm) k).length = k ∧
      ∀ (anyClient : HTTPClient) (n : Nat), 1 ≤ n →
        (Pkg.ListProducts n anyClient allOrgs searchTerm []).2 ≠ [] := by
  refine ⟨?_, ?_, Pkg.pageRequests_length _ k, ?_⟩
  · obtain ⟨f, rfl⟩ : ∃ f, fuel = f + 1 := ⟨fuel - 1, by omega⟩
    obtain ⟨hdo, hbody⟩ := hpages 1 (by omega) hk
    have hstep := Pkg.listProductsLoop_step client (Pkg.listValues allOrgs searchTerm) f 1 [] 1 []
      (status 1) (body 1) (r 1) (by simp) hdo hbody
    have hrest := Pkg.listProductsLoop_pages client (Pkg.listValues allOrgs searchTerm) r body
      status k hpages hstop hleast (k - 1) 1 f (by omega) (by omega) (by omega)
    unfold Pkg.ListProducts
    exact hstep.trans hrest
  · intro i hi
    rw [Pkg.pageRequests_getElem _ k i hi]
    rfl
  · intro anyClient n hn
    obtain ⟨f, rfl⟩ : ∃ f, n = f + 1 := ⟨n - 1, by omega⟩
    obtain ⟨extra, hextra, hne⟩ := Pkg.listProductsLoop_log anyClient
      (Pkg.listValues allOrgs searchTerm) (f + 1) [] 1 ⟨1, 20⟩ []
    unfold Pkg.ListProducts
    rw [hextra, List.nil_append]
    exact hne (by simp) (by omega)

set_option maxRecDepth 1000000 in
/-- C10, at a backend with two products that serves one product per page and reports the
total 2 on each page: the pages 1 and 2 are requested and both products are returned. -/
theorem C10_ListProducts_pages_witness :
    ((1 ≤ 2) ∧
      (∀ i, 1 ≤ i → i ≤ 2 →
        Pkg.twoPagesClient (Pkg.pageRequests (Pkg.listValues false "") (i - 1))
            (Pkg.pageRequest (Pkg.listValues false "") i) =
            .ok ⟨200, "200 OK", .ok (Pkg.twoPagesBody i)⟩ ∧
          Pkg.UnmarshalListProductResponse (Pkg.twoPagesBody i) = .ok ⟨some (Pkg.twoPages i)⟩) ∧
      (Pkg.twoPages 2).Params.ProductCount ≤ ((Pkg.productsUpTo Pkg.twoPages 2).length : Int) ∧
      (∀ j, 1 ≤ j → j < 2 →
        ((Pkg.productsUpTo Pkg.twoPages j).length : Int) < (Pkg.twoPages j).Params.ProductCount) ∧
      2 ≤ 2) ∧
    Pkg.ListProducts 2 Pkg.twoPagesClient false "" [] =
      (some (.returned ((Pkg.pageOfTwo "first").Products ++ (Pkg.pageOfTwo "second").Products,
          none)),
        [⟨"GET", "/api/v1/products",
            [("managed", "true"), ("pagination", "\x7b\"page\":1,\"pagesize\":20\x7d")], "", ""⟩,
          ⟨"GET", "/api/v1/products",
            [("managed", "true"), ("pagination", "\x7b\"page\":2,\"pagesize\":20\x7d")], "", ""⟩]) :=
  ⟨⟨by decide,
      fun i h1 h2 => by
        interval_cases i
        · exact ⟨rfl, rfl⟩
        · exact ⟨rfl, rfl⟩,
      by decide,
      fun j h1 h2 => by
        interval_cases j
        decide,
      by decide⟩,
    (C10_ListProducts_pages Pkg.twoPagesClient false "" Pkg.twoPages Pkg.twoPagesBody
      (fun _ => "200 OK") 2 2 (by decide)
      (fun i h1 h2 => by
        interval_cases i
        · exact ⟨rfl, rfl⟩
        · exact ⟨rfl, rfl⟩)
      (by decide)
      (fun j h1 h2 => by
        interval_cases j
        decide)
      (by decide)).1.trans (by decide)⟩

/-! ### Termination of `ListProducts` -/

namespace Pkg

/-- One iteration of the loop of `ListProducts` whose condition holds: the page is
requested, and the loop ends with the outcome of a failed page or goes on with the
payload of a successful one. -/
theorem listProductsLoop_body (client : HTTPClient) (values : List (String × String))
    (f j : Nat) (products : List Product) (total : Int) (log : List Request)
    (hcond : (products.length : Int) < total) :
    listProductsLoop client values (f + 1) products total ⟨((j : Nat) : Int), 20⟩ log =
      match pageOutcome (client log (pageRequest values j)) with
      | .error res => (some res, log ++ [pageRequest values j])
      | .ok payload =>
        listProductsLoop client values f (products ++ payload.Products)
          payload.Params.ProductCount ⟨((j + 1 : Nat) : Int), 20⟩
          (log ++ [pageRequest values j]) := by
  rw [listProductsLoop]
  simp only [hcond, if_true, Get_pageRequest]
  cases hdo : client log (pageRequest values j) with
  | error e => rfl
  | ok resp =>
    by_cases hs : resp.StatusCode ≠ 200
    · simp only [pageOutcome, if_pos hs]
    · simp only [pageOutcome, if_neg hs]
      cases hb : resp.Body with
      | error e => rfl
      | ok body =>
        cases hu : UnmarshalListProductResponse body with
        | error e => simp only [hu]
        | ok response =>
          cases hr : response.Response with
          | none => simp only [hu, hr]
          | some payload =>
            simp only [hu, hr]
            push_cast
            rfl

/-- The loop of `ListProducts` with no iteration left and a condition that holds. -/
theorem listProductsLoop_out (client : HTTPClient) (values : List (String × String))
    (products : List Product) (total : Int) (pagination : Pagination) (log : List Request)
    (hcond : (products.length : Int) < total) :
    listProductsLoop client values 0 products total pagination log = (none, log) := by
  simp [listProductsLoop, hcond]

theorem totalAfter_below (values : List (String × String)) (client : HTTPClient)
    (r : Nat → ListProductResponsePayload) (k : Nat)
    (hpre : ∀ i, 1 ≤ i → i < k →
      pageOutcome (client (pageRequests values (i - 1)) (pageRequest values i)) = .ok (r i) ∧
        ((productsUpTo r i).length : Int) < (r i).Params.ProductCount) :
    ∀ m, m < k → ((productsUpTo r m).length : Int) < totalAfter r m := by
  intro m hm
  cases m with
  | zero => simp [productsUpTo, totalAfter]
  | succ m => exact (hpre (m + 1) (by omega) hm).2

/-- While the pages are successful and leave the count below the reported total, the
loop of `ListProducts` goes from one page to the next. -/
theorem listProductsLoop_upTo (client : HTTPClient) (values : List (String × String))
    (r : Nat → ListProductResponsePayload) (k : Nat)
    (hpre : ∀ i, 1 ≤ i → i < k →
      pageOutcome (client (pageRequests values (i - 1)) (pageRequest values i)) = .ok (r i) ∧
        ((productsUpTo r i).length : Int) < (r i).Params.ProductCount) :
    ∀ m, m < k → ∀ f,
      listProductsLoop client values (f + m) [] 1 ⟨1, 20⟩ [] =
        listProductsLoop client values f (productsUpTo r m) (totalAfter r m)
          ⟨((m + 1 : Nat) : Int), 20⟩ (pageRequests values m) := by
  intro m
  induction m with
  | zero => intro _ f; rfl
  | succ m ih =>
    intro hm f
    have hstep := ih (by omega) (f + 1)
    have hout := (hpre (m + 1) (by omega) hm).1
    rw [Nat.add_sub_cancel] at hout
    rw [show f + (m + 1) = f + 1 + m by omega, hstep,
      listProductsLoop_body client values f (m + 1) _ _ _
        (totalAfter_below values client r k hpre m (by omega)), hout]
    rfl

theorem productsUpTo_empty (n : Nat) : productsUpTo (fun _ => emptyPage) n = [] := by
  induction n with
  | zero => rfl
  | succ n ih =>
    rw [productsUpTo, ih]
    rfl

/-- On successful pages that all leave the count below the reported total, `ListProducts`
has not ended after `n` iterations, and has issued the requests for the pages 1 to `n`. -/
theorem ListProducts_running (client : HTTPClient) (allOrgs : Bool) (searchTerm : String)
    (r : Nat → ListProductResponsePayload) (n : Nat)
    (hpre : ∀ i, 1 ≤ i → i < n + 1 →
      pageOutcome (client (pageRequests (listValues allOrgs searchTerm) (i - 1))
          (pageRequest (listValues allOrgs searchTerm) i)) = .ok (r i) ∧
        ((productsUpTo r i).length : Int) < (r i).Params.ProductCount) :
    ListProducts n client allOrgs searchTerm [] =
      (none, pageRequests (listValues allOrgs searchTerm) n) := by
  have h := listProductsLoop_upTo client (listValues allOrgs searchTerm) r (n + 1) hpre n
    (by omega) 0
  rw [Nat.zero_add] at h
  unfold ListProducts
  rw [h]
  exact listProductsLoop_out client _ _ _ _ _
    (totalAfter_below (listValues allOrgs searchTerm) client r (n + 1) hpre n (by omega))

set_option maxRecDepth 1000000 in
theorem pageOutcome_emptyPage (log : List Request) (req : Request) :
    pageOutcome (emptyPagesClient log req) = .ok emptyPage := by
  rfl

theorem ListProducts_emptyPages (n : Nat) :
    ListProducts n emptyPagesClient false "" [] = (none, pageRequests (listValues false "") n) := by
  refine ListProducts_running emptyPagesClient false "" (fun _ => emptyPage) n ?_
  intro i _ _
  refine ⟨pageOutcome_emptyPage _ _, ?_⟩
  rw [productsUpTo_empty]
  show ((([] : List Product).length : Nat) : Int) < emptyPage.Params.ProductCount
  decide

end Pkg

/-- C11, as stated, fails: against a backend whose every page is a successful answer
without products that reports the total 1, `ListProducts` has not ended after `n`
iterations, whatever `n`, and has then issued `n` requests. -/
theorem C11_ListProducts_empty_pages_never_stop :
    (∀ n, (Pkg.ListProducts n Pkg.emptyPagesClient false "" []).1 = none ∧
      (Pkg.ListProducts n Pkg.emptyPagesClient false "" []).2.length = n) ∧
    ¬ ∃ n, (Pkg.ListProducts n Pkg.emptyPagesClient false "" []).1 ≠ none := by
  refine ⟨fun n => ?_, ?_⟩
  · rw [Pkg.ListProducts_emptyPages]
    exact ⟨rfl, Pkg.pageRequests_length _ n⟩
  · rintro ⟨n, hn⟩
    exact hn (by rw [Pkg.ListProducts_emptyPages])

/-- C11, amended: `ListProducts` is a function of the answers of the server, and it ends
at the first page `k` that is a failed answer, with the outcome of that failure, or at
the first successful page `k` at which the accumulated count reaches the total that the
page reports (so a server that reports a total smaller than what it has makes it end
early), in both cases after exactly `k` requests and for every bound of at least `k`
iterations.  It has no bound of its own: when the page `k` is again a successful answer
that leaves the count below the reported total, it has not ended after `k` requests. -/
theorem C11_ListProducts_ends_at_first_closing_page (client : HTTPClient) (allOrgs : Bool)
    (searchTerm : String) (r : Nat → Pkg.ListProductResponsePayload) (k : Nat) (hk : 1 ≤ k)
    (hpre : ∀ i, 1 ≤ i → i < k →
      Pkg.pageOutcome (client (Pkg.pageRequests (Pkg.listValues allOrgs searchTerm) (i - 1))
          (Pkg.pageRequest (Pkg.listValues allOrgs searchTerm) i)) = .ok (r i) ∧
        ((Pkg.productsUpTo r i).length : Int) < (r i).Params.ProductCount) :
    (∀ res,
      Pkg.pageOutcome (client (Pkg.pageRequests (Pkg.listValues allOrgs searchTerm) (k - 1))
          (Pkg.pageRequest (Pkg.listValues allOrgs searchTerm) k)) = .error res →
      ∀ fuel, k ≤ fuel →
        Pkg.ListProducts fuel client allOrgs searchTerm [] =
          (some res, Pkg.pageRequests (Pkg.listValues allOrgs searchTerm) k)) ∧
    (Pkg.pageOutcome (client (Pkg.pageRequests (Pkg.listValues allOrgs searchTerm) (k - 1))
          (Pkg.pageRequest (Pkg.listValues allOrgs searchTerm) k)) = .ok (r k) →
      (r k).Params.ProductCount ≤ ((Pkg.productsUpTo r k).length : Int) →
      ∀ fuel, k ≤ fuel →
        Pkg.ListProducts fuel client allOrgs searchTerm [] =
          (some (.returned (Pkg.productsUpTo r k, none)),
            Pkg.pageRequests (Pkg.listValues allOrgs searchTerm) k)) ∧
    (Pkg.pageOutcome (client (Pkg.pageRequests (Pkg.listValues allOrgs searchTerm) (k - 1))
          (Pkg.pageRequest (Pkg.listValues allOrgs searchTerm) k)) = .ok (r k) →
      ((Pkg.productsUpTo r k).length : Int) < (r k).Params.ProductCount →
      Pkg.ListProducts k client allOrgs searchTerm [] =
        (none, Pkg.pageRequests (Pkg.listValues allOrgs searchTerm) k)) ∧
    (Pkg.pageRequests (Pkg.listValues allOrgs searchTerm) k).length = k := by
  obtain ⟨m, rfl⟩ : ∃ m, k = m + 1 := ⟨k - 1, by omega⟩
  have hbelow := Pkg.totalAfter_below (Pkg.listValues allOrgs searchTerm) client r (m + 1) hpre m
    (by omega)
  have hupto : ∀ f, Pkg.listProductsLoop client (Pkg.listValues allOrgs searchTerm)
      (f + 1 + m) [] 1 ⟨1, 20⟩ [] = _ := fun f =>
    (Pkg.listProductsLoop_upTo client (Pkg.listValues allOrgs searchTerm) r (m + 1) hpre m
      (by omega) (f + 1)).trans
      (Pkg.listProductsLoop_body client (Pkg.listValues allOrgs searchTerm) f (m + 1) _ _ _ hbelow)
  simp only [Nat.add_sub_cancel]
  refine ⟨?_, ?_, ?_, Pkg.pageRequests_length _ _⟩
  · intro res hres fuel hfuel
    obtain ⟨f, rfl⟩ : ∃ f, fuel = f + 1 + m := ⟨fuel - (m + 1), by omega⟩
    unfold Pkg.ListProducts
    rw [hupto f, hres]
    rfl
  · intro hok hstop fuel hfuel
    obtain ⟨f, rfl⟩ : ∃ f, fuel = f + 1 + m := ⟨fuel - (m + 1), by omega⟩
    unfold Pkg.ListProducts
    rw [hupto f, hok]
    exact Pkg.listProductsLoop_stop client _ f _ _ _ _ (by
      have : Pkg.productsUpTo r m ++ (r (m + 1)).Products = Pkg.productsUpTo r (m + 1) := rfl
      rw [this]
      omega)
  · intro hok hgo
    refine Pkg.ListProducts_running client allOrgs searchTerm r (m + 1) ?_
    intro i hi1 hi2
    by_cases hik : i < m + 1
    · exact hpre i hi1 hik
    · have : i = m + 1 := by omega
      subst this
      simp only [Nat.add_sub_cancel]
      exact ⟨hok, hgo⟩

set_option maxRecDepth 1000000 in
/-- C11 (amended), at the backend with two products that serves one product per page and
reports the total 2: the first page leaves the count below the total, the second page
reaches it, and `ListProducts` ends after two requests for every bound of at least 2. -/
theorem C11_ListProducts_ends_at_first_closing_page_witness :
    ((1 ≤ 2) ∧
      ∀ i, 1 ≤ i → i < 2 →
        Pkg.pageOutcome (Pkg.twoPagesClient (Pkg.pageRequests (Pkg.listValues false "") (i - 1))
            (Pkg.pageRequest (Pkg.listValues false "") i)) = .ok (Pkg.twoPages i) ∧
          ((Pkg.productsUpTo Pkg.twoPages i).length : Int) <
            (Pkg.twoPages i).Params.ProductCount) ∧
    ∀ fuel, 2 ≤ fuel →
      Pkg.ListProducts fuel Pkg.twoPagesClient false "" [] =
        (some (.returned (Pkg.productsUpTo Pkg.twoPages 2, none)),
          Pkg.pageRequests (Pkg.listValues false "") 2) :=
  ⟨⟨by decide, fun i h1 h2 => by
      interval_cases i
      exact ⟨rfl, by decide⟩⟩,
    (C11_ListProducts_ends_at_first_closing_page Pkg.twoPagesClient false "" Pkg.twoPages 2
      (by decide)
      (fun i h1 h2 => by
        interval_cases i
        exact ⟨rfl, by decide⟩)).2.1 rfl (by decide)⟩

/-! ### Requests and answers of `GetProduct` and `PutProduct` -/

namespace Pkg

/-- `PutProduct` issues exactly one request, whatever the answer. -/
theorem PutProduct_log (client : HTTPClient) (product : Product) (versionUpdate : Bool)
    (log : List Request) :
    (PutProduct client product versionUpdate log).2 =
      log ++ [putRequestOf product versionUpdate] := by
  unfold PutProduct Put MakeURL putRequestOf
  simp only []
  split
  · rename_i h; simp only [Prod.mk.injEq] at h; exact h.2.symm
  · rename_i h
    simp only [Prod.mk.injEq] at h
    split
    · exact h.2.symm
    · split <;> exact h.2.symm

/-- The text that `json.Marshal` writes for a product is decoded back to the product. -/
theorem UnmarshalProduct_text (product : Product) :
    UnmarshalProduct product.toJson.text = .ok product := by
  simp only [UnmarshalProduct, parseJson_text _ (Product_plain product), Product_roundTrip]

theorem GetProduct_eq_getRequestOf (client : HTTPClient) (slug : String) (log : List Request) :
    (GetProduct client slug log).2 = log ++ [getRequestOf slug] :=
  GetProduct_log client slug log

end Pkg

/-- C17: for every slug and every status code other than 200 and 404, `GetProduct`
returns no product and the error `getting product "<slug>" failed: (<code>)`; the body of
the response is not consulted: the result is the same whatever reading the body would
give. -/
theorem C17_GetProduct_other_status (client : HTTPClient) (slug : String) (log : List Request)
    (resp : Response)
    (hdo : client log ⟨"GET", "/api/v1/products/" ++ slug,
      [("increaseViewCount", "false"), ("isSlug", "true")], "", ""⟩ = .ok resp)
    (h404 : resp.StatusCode ≠ 404) (h200 : resp.StatusCode ≠ 200) :
    (Pkg.GetProduct client slug log).1 =
      .returned (none, some (GoError.errorString ("getting product \"" ++ slug ++
        "\" failed: (" ++ fmtInt resp.StatusCode ++ ")"))) := by
  simp [Pkg.GetProduct, Pkg.Get, Pkg.MakeURL, hdo, h404, h200, Errorf]

/-- C17, at the status 500 with a body that cannot be read: the message is
`getting product "my-super-product" failed: (500)`. -/
theorem C17_GetProduct_other_status_witness :
    ((fun _ _ => .ok ⟨500, "500 Internal Server Error",
          .error (GoError.errorString "unexpected EOF")⟩ : HTTPClient) []
        ⟨"GET", "/api/v1/products/" ++ "my-super-product",
          [("increaseViewCount", "false"), ("isSlug", "true")], "", ""⟩ =
        .ok ⟨500, "500 Internal Server Error", .error (GoError.errorString "unexpected EOF")⟩ ∧
      (⟨500, "500 Internal Server Error",
        .error (GoError.errorString "unexpected EOF")⟩ : Response).StatusCode ≠ 404 ∧
      (⟨500, "500 Internal Server Error",
        .error (GoError.errorString "unexpected EOF")⟩ : Response).StatusCode ≠ 200) ∧
    (Pkg.GetProduct (fun _ _ => .ok ⟨500, "500 Internal Server Error",
        .error (GoError.errorString "unexpected EOF")⟩) "my-super-product" []).1 =
      .returned (none, some (GoError.errorString
        "getting product \"my-super-product\" failed: (500)")) :=
  ⟨⟨rfl, by decide, by decide⟩,
    C17_GetProduct_other_status (fun _ _ => .ok ⟨500, "500 Internal Server Error",
        .error (GoError.errorString "unexpected EOF")⟩) "my-super-product" []
      ⟨500, "500 Internal Server Error", .error (GoError.errorString "unexpected EOF")⟩
      rfl (by decide) (by decide)⟩

/-- C18, the failing inputs: on a 200 answer whose body is the JSON text `{}` or `null`
the envelope decodes without error and without a `response`, and `GetProduct`
dereferences the nil `response.Response`: it panics instead of reporting a parse
failure; on the body `{"response":{}}` it returns a nil product together with a nil
error. -/
theorem C18_GetProduct_envelope_without_response :
    (Pkg.GetProduct (fun _ _ => .ok ⟨200, "200 OK", .ok "\x7b\x7d"⟩) "X" []).1 =
        .panicked "invalid memory address or nil pointer dereference" ∧
      (Pkg.GetProduct (fun _ _ => .ok ⟨200, "200 OK", .ok "null"⟩) "X" []).1 =
        .panicked "invalid memory address or nil pointer dereference" ∧
      (Pkg.GetProduct (fun _ _ => .ok ⟨200, "200 OK", .ok "\x7b\"response\":\x7b\x7d\x7d"⟩)
        "X" []).1 = .returned (none, none) ∧
      Pkg.UnmarshalGetProductResponse "\x7b\x7d" = .ok ⟨none⟩ ∧
      Pkg.UnmarshalGetProductResponse "null" = .ok ⟨none⟩ := by
  refine ⟨by decide, by decide, by decide, rfl, rfl⟩

/-- C19: for every slug, `GetProduct` issues exactly one HTTP request, whatever the
answer: a GET of the path `/api/v1/products/` followed by the slug, whose query
parameters are `isSlug=true` and `increaseViewCount=false` and no other. -/
theorem C19_GetProduct_one_request (client : HTTPClient) (slug : String) (log : List Request) :
    ∃ req, (Pkg.GetProduct client slug log).2 = log ++ [req] ∧
      ((Pkg.GetProduct client slug log).2.length = log.length + 1) ∧
      req.Method = "GET" ∧ req.Path = "/api/v1/products/" ++ slug ∧ req.Body = "" ∧
      (∀ name value, (name, value) ∈ req.Query ↔
        (name = "isSlug" ∧ value = "true") ∨ (name = "increaseViewCount" ∧ value = "false")) ∧
      req.Query.length = 2 := by
  refine ⟨Pkg.getRequestOf slug, Pkg.GetProduct_eq_getRequestOf client slug log, ?_, rfl, rfl,
    rfl, ?_, rfl⟩
  · rw [Pkg.GetProduct_eq_getRequestOf]
    simp
  · intro name value
    simp only [Pkg.getRequestOf, List.mem_cons, Prod.mk.injEq, List.mem_nil_iff, or_false]
    tauto

/-- C20: for every product and flag, `PutProduct` issues exactly one HTTP request,
whatever the answer: a PUT of the path `/api/v1/products/` followed by the `ProductId`,
with the query parameters `archivepreviousversion=false` and `isversionupdate` equal to
`true` or `false` as the flag is, and with a body that is the JSON serialization of the
product: decoding the body yields the product. -/
theorem C20_PutProduct_one_request (client : HTTPClient) (product : Product)
    (versionUpdate : Bool) (log : List Request) :
    ∃ req, (Pkg.PutProduct client product versionUpdate log).2 = log ++ [req] ∧
      ((Pkg.PutProduct client product versionUpdate log).2.length = log.length + 1) ∧
      req.Method = "PUT" ∧ req.Path = "/api/v1/products/" ++ product.ProductId ∧
      (∀ name value, (name, value) ∈ req.Query ↔
        (name = "archivepreviousversion" ∧ value = "false") ∨
          (name = "isversionupdate" ∧ value = if versionUpdate then "true" else "false")) ∧
      req.Query.length = 2 ∧
      req.Body = product.toJson.text ∧
      Pkg.UnmarshalProduct req.Body = .ok product := by
  refine ⟨Pkg.putRequestOf product versionUpdate, Pkg.PutProduct_log client product versionUpdate log,
    ?_, rfl, rfl, ?_, rfl, rfl, Pkg.UnmarshalProduct_text product⟩
  · rw [Pkg.PutProduct_log]
    simp
  · intro name value
    simp only [Pkg.putRequestOf, FormatBool, List.mem_cons, Prod.mk.injEq, List.mem_nil_iff,
      or_false]

/-! ### The run of `CreateOVACmd` -/

namespace Cmd

theorem GetProduct_pair (client : HTTPClient) (slug : String) :
    Pkg.GetProduct client slug [] =
      ((Pkg.GetProduct client slug []).1, [Pkg.getRequestOf slug]) := by
  apply Prod.ext
  · rfl
  · simpa using Pkg.GetProduct_eq_getRequestOf client slug []

theorem PutProduct_pair (client : HTTPClient) (product : Product) (versionUpdate : Bool)
    (log : List Request) :
    Pkg.PutProduct client product versionUpdate log =
      ((Pkg.PutProduct client product versionUpdate log).1,
        log ++ [Pkg.putRequestOf product versionUpdate]) := by
  apply Prod.ext
  · rfl
  · exact Pkg.PutProduct_log client product versionUpdate log

/-- The run of `CreateOVACmd`, step by step, with the requests and the calls of the
upload collaborator that each way through it leaves behind. -/
theorem CreateOVACmd_eq (client : HTTPClient) (uploader : Uploader) (g : Globals) :
    CreateOVACmd client uploader g =
      match (Pkg.GetProduct client g.ProductSlug []).1 with
      | .panicked reason => ⟨.panicked reason, [Pkg.getRequestOf g.ProductSlug], [], []⟩
      | .returned (_, some err) =>
        ⟨.returned (some err), [Pkg.getRequestOf g.ProductSlug], [], []⟩
      | .returned (none, none) =>
        ⟨.panicked "invalid memory address or nil pointer dereference",
          [Pkg.getRequestOf g.ProductSlug], [], []⟩
      | .returned (some product, none) =>
        if !product.HasVersion g.ProductVersion then
          ⟨.returned (some (missingVersionError g.ProductSlug g.ProductVersion)),
            [Pkg.getRequestOf g.ProductSlug], [], []⟩
        else
          match uploader [] (uploadCallOf g product) with
          | .error err =>
            ⟨.returned (some err), [Pkg.getRequestOf g.ProductSlug], [uploadCallOf g product], []⟩
          | .ok (fileURL, fileHash) =>
            match (Pkg.PutProduct client (ovaSubmission g product fileURL fileHash) false
              [Pkg.getRequestOf g.ProductSlug]).1 with
            | .panicked reason =>
              ⟨.panicked reason, [Pkg.getRequestOf g.ProductSlug,
                Pkg.putRequestOf (ovaSubmission g product fileURL fileHash) false],
                [uploadCallOf g product], []⟩
            | .returned (_, some err) =>
              ⟨.returned (some err), [Pkg.getRequestOf g.ProductSlug,
                Pkg.putRequestOf (ovaSubmission g product fileURL fileHash) false],
                [uploadCallOf g product], []⟩
            | .returned (_, none) =>
              ⟨.returned none, [Pkg.getRequestOf g.ProductSlug,
                Pkg.putRequestOf (ovaSubmission g product fileURL fileHash) false],
                [uploadCallOf g product], []⟩ := by
  unfold CreateOVACmd
  rw [GetProduct_pair client g.ProductSlug]
  generalize (Pkg.GetProduct client g.ProductSlug []).1 = got
  rcases got with ⟨p, e⟩ | reason
  · cases e with
    | some err => cases p <;> rfl
    | none =>
      cases p with
      | none => rfl
      | some product =>
        simp only []
        split
        · rfl
        · show (match uploader [] (uploadCallOf g product) with
            | .error err => _
            | .ok (fileURL, fileHash) => _) = _
          cases hup : uploader [] (uploadCallOf g product) with
          | error err => rfl
          | ok res =>
            obtain ⟨fileURL, fileHash⟩ := res
            simp only [ovaSubmission, newDeploymentFile, uploadCallOf]
            generalize hput : Pkg.PutProduct client _ false [Pkg.getRequestOf g.ProductSlug] = put
            have hlog := congrArg Prod.snd hput
            rw [Pkg.PutProduct_log] at hlog
            obtain ⟨res, log2⟩ := put
            simp only [List.singleton_append] at hlog
            subst hlog
            rcases res with ⟨p2, e2⟩ | reason
            · cases e2 <;> rfl
            · rfl
  · rfl

end Cmd

namespace Cmd

theorem hasVersion_mem {product : Product} {version : String}
    (h : product.HasVersion version = true) :
    ∃ v ∈ product.AllVersions, v.Number = version :=
  (Models.hasVersionIn_iff product.AllVersions version).mp h

/-- The way of `CreateOVACmd` through a successful fetch, version check and upload. -/
theorem CreateOVACmd_submits (client : HTTPClient) (uploader : Uploader) (g : Globals)
    (X : Product) (fileURL fileHash : String)
    (hget : (Pkg.GetProduct client g.ProductSlug []).1 = .returned (some X, none))
    (hver : X.HasVersion g.ProductVersion = true)
    (hup : uploader [] (uploadCallOf g X) = .ok (fileURL, fileHash)) :
    (CreateOVACmd client uploader g).requests =
        [Pkg.getRequestOf g.ProductSlug,
          Pkg.putRequestOf (ovaSubmission g X fileURL fileHash) false] ∧
      (CreateOVACmd client uploader g).uploads = [uploadCallOf g X] := by
  rw [CreateOVACmd_eq, hget]
  simp only [hver, Bool.not_true, Bool.false_eq_true, if_false, hup]
  generalize (Pkg.PutProduct client (ovaSubmission g X fileURL fileHash) false
    [Pkg.getRequestOf g.ProductSlug]).1 = put
  rcases put with ⟨p2, e2⟩ | reason
  · cases e2 <;> exact ⟨rfl, rfl⟩
  · exact ⟨rfl, rfl⟩

/-- The requests of the create-chart command when the product is fetched and has the
version: the GET, then the PUT of the product with the new chart. -/
theorem CreateChartCmd_submits (client : HTTPClient) (g : Globals) (X : Product)
    (hget : (Pkg.GetProduct client g.ProductSlug []).1 = .returned (some X, none))
    (hver : X.HasVersion g.ProductVersion = true) :
    (CreateChartCmd client g).requests =
      [Pkg.getRequestOf g.ProductSlug, Pkg.putRequestOf (chartSubmission g X) false] := by
  unfold CreateChartCmd
  rw [GetProduct_pair client g.ProductSlug, hget]
  simp only [hver, Bool.not_true, Bool.false_eq_true, if_false]
  simp only [chartSubmission, newChart]
  generalize hput : Pkg.PutProduct client _ false [Pkg.getRequestOf g.ProductSlug] = put
  have hlog := congrArg Prod.snd hput
  rw [Pkg.PutProduct_log] at hlog
  obtain ⟨res, log2⟩ := put
  simp only [List.singleton_append] at hlog
  subst hlog
  rcases res with ⟨p2, e2⟩ | reason
  · cases e2 <;> cases p2 <;> rfl
  · rfl

theorem addDeploymentType_spec (t : String) (types : List String) :
    t ∈ addDeploymentType t types ∧
      (t ∈ types → addDeploymentType t types = types) ∧
      (t ∉ types → addDeploymentType t types = types ++ [t] ∧
        (addDeploymentType t types).count t = 1) ∧
      (∀ s ∈ types, s ∈ addDeploymentType t types) := by
  unfold addDeploymentType
  by_cases h : t ∈ types
  · simp [h]
  · simp only [h, if_false, List.mem_append, List.mem_singleton, or_true, true_and,
      not_false_eq_true, forall_true_left, false_implies]
    refine ⟨?_, fun s hs => Or.inl hs⟩
    rw [List.count_append, List.count_eq_zero.mpr h]
    simp

end Cmd

/-- C12: adding the `"HELM"` deployment type is an idempotent insert: when the product is
fetched and has the version, the create-chart command issues the GET and then a PUT whose
body decodes to a product with `"HELM"` in `DeploymentTypes`; when the fetched product
lists `"HELM"` already, `DeploymentTypes` is submitted unchanged, and when it does not,
`"HELM"` is added once, after the existing entries, which are all kept. -/
theorem C12_create_chart_adds_helm_once (client : HTTPClient) (g : Cmd.Globals) (X : Product)
    (hget : (Pkg.GetProduct client g.ProductSlug []).1 = .returned (some X, none))
    (hver : X.HasVersion g.ProductVersion = true) :
    ∃ req submitted,
      (Cmd.CreateChartCmd client g).requests = [Pkg.getRequestOf g.ProductSlug, req] ∧
      req.Method = "PUT" ∧
      Pkg.UnmarshalProduct req.Body = .ok submitted ∧
      "HELM" ∈ submitted.DeploymentTypes ∧
      ("HELM" ∈ X.DeploymentTypes → submitted.DeploymentTypes = X.DeploymentTypes) ∧
      ("HELM" ∉ X.DeploymentTypes →
        submitted.DeploymentTypes = X.DeploymentTypes ++ ["HELM"] ∧
          submitted.DeploymentTypes.count "HELM" = 1) ∧
      (∀ t ∈ X.DeploymentTypes, t ∈ submitted.DeploymentTypes) := by
  obtain ⟨h1, h2, h3, h4⟩ := Cmd.addDeploymentType_spec "HELM" X.DeploymentTypes
  exact ⟨Pkg.putRequestOf (Cmd.chartSubmission g X) false, Cmd.chartSubmission g X,
    Cmd.CreateChartCmd_submits client g X hget hver, rfl, Pkg.UnmarshalProduct_text _,
    h1, h2, h3, h4⟩

set_option maxRecDepth 1000000 in
/-- C12, at the product `X`, which has the version 1.2.3 and no deployment type, behind
a backend that accepts the update. -/
theorem C12_create_chart_adds_helm_once_witness :
    ((Pkg.GetProduct backendXAccepting globalsPresentVersion.ProductSlug []).1 =
        .returned (some productX, none) ∧
      productX.HasVersion globalsPresentVersion.ProductVersion = true) ∧
    ∃ req submitted,
      (Cmd.CreateChartCmd backendXAccepting globalsPresentVersion).requests =
        [Pkg.getRequestOf globalsPresentVersion.ProductSlug, req] ∧
      req.Method = "PUT" ∧
      Pkg.UnmarshalProduct req.Body = .ok submitted ∧
      "HELM" ∈ submitted.DeploymentTypes ∧
      ("HELM" ∈ productX.DeploymentTypes →
        submitted.DeploymentTypes = productX.DeploymentTypes) ∧
      ("HELM" ∉ productX.DeploymentTypes →
        submitted.DeploymentTypes = productX.DeploymentTypes ++ ["HELM"] ∧
          submitted.DeploymentTypes.count "HELM" = 1) ∧
      (∀ t ∈ productX.DeploymentTypes, t ∈ submitted.DeploymentTypes) :=
  ⟨⟨by decide, by decide⟩,
    C12_create_chart_adds_helm_once backendXAccepting globalsPresentVersion productX
      (by decide) (by decide)⟩

/-- C13: for every fetched product that has the target version and every successful
upload returning a URL and a hash, `CreateOVACmd` issues the GET and then a PUT whose
body decodes to a product whose `ProductDeploymentFiles` is exactly the one-element list
of the new file (the URL, the target version, the hash, the algorithm SHA1): the list is
replaced, and a deployment file of the fetched product other than the new one is absent
from the submitted document. -/
theorem C13_create_ova_replaces_deployment_files (client : HTTPClient) (uploader : Cmd.Uploader)
    (g : Cmd.Globals) (X : Product) (fileURL fileHash : String)
    (hget : (Pkg.GetProduct client g.ProductSlug []).1 = .returned (some X, none))
    (hver : X.HasVersion g.ProductVersion = true)
    (hup : uploader [] (Cmd.uploadCallOf g X) = .ok (fileURL, fileHash)) :
    ∃ req submitted,
      (Cmd.CreateOVACmd client uploader g).requests = [Pkg.getRequestOf g.ProductSlug, req] ∧
      req.Method = "PUT" ∧
      Pkg.UnmarshalProduct req.Body = .ok submitted ∧
      submitted.ProductDeploymentFiles =
        [⟨fileURL, g.ProductVersion, fileHash, "SHA1", ""⟩] ∧
      submitted.ProductDeploymentFiles.length = 1 ∧
      (∀ f ∈ X.ProductDeploymentFiles,
        f ≠ ⟨fileURL, g.ProductVersion, fileHash, "SHA1", ""⟩ →
          f ∉ submitted.ProductDeploymentFiles) := by
  refine ⟨Pkg.putRequestOf (Cmd.ovaSubmission g X fileURL fileHash) false,
    Cmd.ovaSubmission g X fileURL fileHash,
    (Cmd.CreateOVACmd_submits client uploader g X fileURL fileHash hget hver hup).1, rfl,
    Pkg.UnmarshalProduct_text _, rfl, rfl, ?_⟩
  intro f _ hne hmem
  simp only [Cmd.ovaSubmission, Cmd.newDeploymentFile, List.mem_singleton] at hmem
  exact hne hmem

set_option maxRecDepth 1000000 in
/-- C13, at the product `X` with the version 1.2.3 and an upload that succeeds. -/
theorem C13_create_ova_replaces_deployment_files_witness :
    ((Pkg.GetProduct backendXAccepting globalsPresentVersion.ProductSlug []).1 =
        .returned (some productX, none) ∧
      productX.HasVersion globalsPresentVersion.ProductVersion = true ∧
      uploaderOk [] (Cmd.uploadCallOf globalsPresentVersion productX) =
        .ok ("https://storage.example.com/appliance.ova", "0a0b0c")) ∧
    ∃ req submitted,
      (Cmd.CreateOVACmd backendXAccepting uploaderOk globalsPresentVersion).requests =
        [Pkg.getRequestOf globalsPresentVersion.ProductSlug, req] ∧
      req.Method = "PUT" ∧
      Pkg.UnmarshalProduct req.Body = .ok submitted ∧
      submitted.ProductDeploymentFiles =
        [⟨"https://storage.example.com/appliance.ova", globalsPresentVersion.ProductVersion,
          "0a0b0c", "SHA1", ""⟩] ∧
      submitted.ProductDeploymentFiles.length = 1 ∧
      (∀ f ∈ productX.ProductDeploymentFiles,
        f ≠ ⟨"https://storage.example.com/appliance.ova", globalsPresentVersion.ProductVersion,
          "0a0b0c", "SHA1", ""⟩ → f ∉ submitted.ProductDeploymentFiles) :=
  ⟨⟨by decide, by decide, by rfl⟩,
    C13_create_ova_replaces_deployment_files backendXAccepting uploaderOk globalsPresentVersion
      productX "https://storage.example.com/appliance.ova" "0a0b0c" (by decide) (by decide)
      (by rfl)⟩

/-- C14: `CreateOVACmd` changes only `ProductDeploymentFiles`: when the product is
fetched, has the version and the upload succeeds, the product submitted by the PUT
equals the fetched product in its identity, its descriptive fields, `AllVersions`,
`ChartVersions`, the container-image lists and `DeploymentTypes`, and the PUT is the
request of `PutProduct` with `versionUpdate = false` (`isversionupdate=false`). -/
theorem C14_create_ova_frame (client : HTTPClient) (uploader : Cmd.Uploader)
    (g : Cmd.Globals) (X : Product) (fileURL fileHash : String)
    (hget : (Pkg.GetProduct client g.ProductSlug []).1 = .returned (some X, none))
    (hver : X.HasVersion g.ProductVersion = true)
    (hup : uploader [] (Cmd.uploadCallOf g X) = .ok (fileURL, fileHash)) :
    ∃ req submitted,
      (Cmd.CreateOVACmd client uploader g).requests = [Pkg.getRequestOf g.ProductSlug, req] ∧
      Pkg.UnmarshalProduct req.Body = .ok submitted ∧
      req = Pkg.putRequestOf submitted false ∧
      ("isversionupdate", "false") ∈ req.Query ∧
      ("isversionupdate", "true") ∉ req.Query ∧
      submitted = { X with ProductDeploymentFiles := submitted.ProductDeploymentFiles } ∧
      submitted.ProductId = X.ProductId ∧ submitted.Slug = X.Slug ∧
      submitted.DisplayName = X.DisplayName ∧ submitted.SolutionType = X.SolutionType ∧
      submitted.PublisherDetails = X.PublisherDetails ∧
      submitted.AllVersions = X.AllVersions ∧ submitted.ChartVersions = X.ChartVersions ∧
      submitted.DockerLinkVersions = X.DockerLinkVersions ∧
      submitted.DeploymentTypes = X.DeploymentTypes := by
  refine ⟨Pkg.putRequestOf (Cmd.ovaSubmission g X fileURL fileHash) false,
    Cmd.ovaSubmission g X fileURL fileHash,
    (Cmd.CreateOVACmd_submits client uploader g X fileURL fileHash hget hver hup).1,
    Pkg.UnmarshalProduct_text _, rfl, ?_, ?_, rfl, rfl, rfl, rfl, rfl, rfl, rfl, rfl, rfl, rfl⟩
  · simp [Pkg.putRequestOf, FormatBool]
  · simp [Pkg.putRequestOf, FormatBool]

set_option maxRecDepth 1000000 in
/-- C14, at the product `X` with the version 1.2.3 and an upload that succeeds. -/
theorem C14_create_ova_frame_witness :
    ((Pkg.GetProduct backendXAccepting globalsPresentVersion.ProductSlug []).1 =
        .returned (some productX, none) ∧
      productX.HasVersion globalsPresentVersion.ProductVersion = true ∧
      uploaderOk [] (Cmd.uploadCallOf globalsPresentVersion productX) =
        .ok ("https://storage.example.com/appliance.ova", "0a0b0c")) ∧
    ∃ req submitted,
      (Cmd.CreateOVACmd backendXAccepting uploaderOk globalsPresentVersion).requests =
        [Pkg.getRequestOf globalsPresentVersion.ProductSlug, req] ∧
      Pkg.UnmarshalProduct req.Body = .ok submitted ∧
      req = Pkg.putRequestOf submitted false ∧
      ("isversionupdate", "false") ∈ req.Query ∧
      ("isversionupdate", "true") ∉ req.Query ∧
      submitted = { productX with ProductDeploymentFiles := submitted.ProductDeploymentFiles } ∧
      submitted.ProductId = productX.ProductId ∧ submitted.Slug = productX.Slug ∧
      submitted.DisplayName = productX.DisplayName ∧
      submitted.SolutionType = productX.SolutionType ∧
      submitted.PublisherDetails = productX.PublisherDetails ∧
      submitted.AllVersions = productX.AllVersions ∧
      submitted.ChartVersions = productX.ChartVersions ∧
      submitted.DockerLinkVersions = productX.DockerLinkVersions ∧
      submitted.DeploymentTypes = productX.DeploymentTypes :=
  ⟨⟨by decide, by decide, by rfl⟩,
    C14_create_ova_frame backendXAccepting uploaderOk globalsPresentVersion productX
      "https://storage.example.com/appliance.ova" "0a0b0c" (by decide) (by decide) (by rfl)⟩

/-- C15: version-reference invariant: in every run of `CreateOVACmd`, every PUT request
it issues carries a product in which every entry of `ProductDeploymentFiles` has an
`AppVersion` that is the `Number` of an entry of `AllVersions` of the same product. -/
theorem C15_create_ova_version_reference (client : HTTPClient) (uploader : Cmd.Uploader)
    (g : Cmd.Globals) (req : Request)
    (hreq : req ∈ (Cmd.CreateOVACmd client uploader g).requests)
    (hput : req.Method = "PUT") :
    ∃ submitted, Pkg.UnmarshalProduct req.Body = .ok submitted ∧
      ∀ f ∈ submitted.ProductDeploymentFiles,
        ∃ v ∈ submitted.AllVersions, v.Number = f.AppVersion := by
  have hnot : ∀ r : Request, r ∈ [Pkg.getRequestOf g.ProductSlug] → r.Method = "PUT" → False := by
    intro r hr hm
    simp only [List.mem_singleton] at hr
    subst hr
    have hm2 : ("GET" : String) = "PUT" := hm
    exact absurd hm2 (by decide)
  have hsub : ∀ (X : Product) (fileURL fileHash : String),
      X.HasVersion g.ProductVersion = true →
      req ∈ [Pkg.getRequestOf g.ProductSlug,
        Pkg.putRequestOf (Cmd.ovaSubmission g X fileURL fileHash) false] →
      ∃ submitted, Pkg.UnmarshalProduct req.Body = .ok submitted ∧
        ∀ f ∈ submitted.ProductDeploymentFiles,
          ∃ v ∈ submitted.AllVersions, v.Number = f.AppVersion := by
    intro X fileURL fileHash hver hmem
    simp only [List.mem_cons, List.mem_singleton, List.mem_nil_iff, or_false] at hmem
    rcases hmem with h | h
    · subst h
      have hm2 : ("GET" : String) = "PUT" := hput
      exact absurd hm2 (by decide)
    · subst h
      refine ⟨Cmd.ovaSubmission g X fileURL fileHash, Pkg.UnmarshalProduct_text _, ?_⟩
      intro f hf
      simp only [Cmd.ovaSubmission, Cmd.newDeploymentFile, List.mem_singleton] at hf
      subst hf
      exact Cmd.hasVersion_mem hver
  rw [Cmd.CreateOVACmd_eq] at hreq
  rcases hgot : (Pkg.GetProduct client g.ProductSlug []).1 with ⟨p, e⟩ | reason
  · rw [hgot] at hreq
    cases e with
    | some err => cases p <;> exact (hnot req hreq hput).elim
    | none =>
      cases p with
      | none => exact (hnot req hreq hput).elim
      | some X =>
        simp only [] at hreq
        by_cases hver : X.HasVersion g.ProductVersion = true
        · simp only [hver, Bool.not_true, Bool.false_eq_true, if_false] at hreq
          cases hup : uploader [] (Cmd.uploadCallOf g X) with
          | error err =>
            rw [hup] at hreq
            exact (hnot req hreq hput).elim
          | ok res =>
            obtain ⟨fileURL, fileHash⟩ := res
            rw [hup] at hreq
            simp only [] at hreq
            rcases hp : (Pkg.PutProduct client (Cmd.ovaSubmission g X fileURL fileHash) false
              [Pkg.getRequestOf g.ProductSlug]).1 with ⟨p2, e2⟩ | reason
            · rw [hp] at hreq
              cases e2 <;> exact hsub X fileURL fileHash hver hreq
            · rw [hp] at hreq
              exact hsub X fileURL fileHash hver hreq
        · simp only [Bool.not_eq_true] at hver
          simp only [hver, Bool.not_false, if_true] at hreq
          exact (hnot req hreq hput).elim
  · rw [hgot] at hreq
    exact (hnot req hreq hput).elim

set_option maxRecDepth 1000000 in
/-- C15, at the PUT request of the run of `CreateOVACmd` for the version 1.2.3 of the
product `X`. -/
theorem C15_create_ova_version_reference_witness :
    (Pkg.putRequestOf (Cmd.ovaSubmission globalsPresentVersion productX
          "https://storage.example.com/appliance.ova" "0a0b0c") false ∈
        (Cmd.CreateOVACmd backendXAccepting uploaderOk globalsPresentVersion).requests ∧
      (Pkg.putRequestOf (Cmd.ovaSubmission globalsPresentVersion productX
          "https://storage.example.com/appliance.ova" "0a0b0c") false).Method = "PUT") ∧
    ∃ submitted,
      Pkg.UnmarshalProduct (Pkg.putRequestOf (Cmd.ovaSubmission globalsPresentVersion productX
          "https://storage.example.com/appliance.ova" "0a0b0c") false).Body = .ok submitted ∧
      ∀ f ∈ submitted.ProductDeploymentFiles,
        ∃ v ∈ submitted.AllVersions, v.Number = f.AppVersion :=
  have hmem : Pkg.putRequestOf (Cmd.ovaSubmission globalsPresentVersion productX
      "https://storage.example.com/appliance.ova" "0a0b0c") false ∈
      (Cmd.CreateOVACmd backendXAccepting uploaderOk globalsPresentVersion).requests := by
    rw [(Cmd.CreateOVACmd_submits backendXAccepting uploaderOk globalsPresentVersion productX
      "https://storage.example.com/appliance.ova" "0a0b0c" (by decide) (by decide) (by rfl)).1]
    exact List.mem_cons_of_mem _ (List.mem_singleton.mpr rfl)
  ⟨⟨hmem, rfl⟩,
    C15_create_ova_version_reference backendXAccepting uploaderOk globalsPresentVersion _
      hmem rfl⟩

/-- C16: in `CreateOVACmd` a failure at a step ends the command with that error and
without the later steps: an error of `GetProduct` is returned, with no upload and no PUT
request; an error of the upload is returned, with no PUT request; an error of
`PutProduct` is returned; and the command returns nil only when `GetProduct` returned a
product, the product has the version, the upload succeeded and `PutProduct` returned no
error, the requests being the GET and then the PUT. -/
theorem C16_create_ova_failures_abort (client : HTTPClient) (uploader : Cmd.Uploader)
    (g : Cmd.Globals) :
    (∀ p err, (Pkg.GetProduct client g.ProductSlug []).1 = .returned (p, some err) →
      (Cmd.CreateOVACmd client uploader g).err = .returned (some err) ∧
        (Cmd.CreateOVACmd client uploader g).requests = [Pkg.getRequestOf g.ProductSlug] ∧
        (Cmd.CreateOVACmd client uploader g).uploads = []) ∧
    (∀ X err, (Pkg.GetProduct client g.ProductSlug []).1 = .returned (some X, none) →
      X.HasVersion g.ProductVersion = true →
      uploader [] (Cmd.uploadCallOf g X) = .error err →
      (Cmd.CreateOVACmd client uploader g).err = .returned (some err) ∧
        (Cmd.CreateOVACmd client uploader g).requests = [Pkg.getRequestOf g.ProductSlug] ∧
        (Cmd.CreateOVACmd client uploader g).uploads = [Cmd.uploadCallOf g X]) ∧
    (∀ X fileURL fileHash p err,
      (Pkg.GetProduct client g.ProductSlug []).1 = .returned (some X, none) →
      X.HasVersion g.ProductVersion = true →
      uploader [] (Cmd.uploadCallOf g X) = .ok (fileURL, fileHash) →
      (Pkg.PutProduct client (Cmd.ovaSubmission g X fileURL fileHash) false
        [Pkg.getRequestOf g.ProductSlug]).1 = .returned (p, some err) →
      (Cmd.CreateOVACmd client uploader g).err = .returned (some err)) ∧
    ((Cmd.CreateOVACmd client uploader g).err = .returned none →
      ∃ X fileURL fileHash p,
        (Pkg.GetProduct client g.ProductSlug []).1 = .returned (some X, none) ∧
        X.HasVersion g.ProductVersion = true ∧
        uploader [] (Cmd.uploadCallOf g X) = .ok (fileURL, fileHash) ∧
        (Pkg.PutProduct client (Cmd.ovaSubmission g X fileURL fileHash) false
          [Pkg.getRequestOf g.ProductSlug]).1 = .returned (p, none) ∧
        (Cmd.CreateOVACmd client uploader g).requests =
          [Pkg.getRequestOf g.ProductSlug,
            Pkg.putRequestOf (Cmd.ovaSubmission g X fileURL fileHash) false] ∧
        (Cmd.CreateOVACmd client uploader g).uploads = [Cmd.uploadCallOf g X]) := by
  have heq := Cmd.CreateOVACmd_eq client uploader g
  refine ⟨?_, ?_, ?_, ?_⟩
  · intro p err hget
    rw [hget] at heq
    cases p <;> (rw [heq]; exact ⟨rfl, rfl, rfl⟩)
  · intro X err hget hver hup
    rw [hget] at heq
    simp only [hver, Bool.not_true, Bool.false_eq_true, if_false, hup] at heq
    rw [heq]
    exact ⟨rfl, rfl, rfl⟩
  · intro X fileURL fileHash p err hget hver hup hp
    rw [hget] at heq
    simp only [hver, Bool.not_true, Bool.false_eq_true, if_false, hup, hp] at heq
    rw [heq]
  · intro hnil
    rcases hgot : (Pkg.GetProduct client g.ProductSlug []).1 with ⟨p, e⟩ | reason
    · rw [hgot] at heq
      cases e with
      | some err =>
        cases p <;> (rw [heq] at hnil; exact absurd hnil (by simp))
      | none =>
        cases p with
        | none =>
          rw [heq] at hnil
          exact absurd hnil (by simp)
        | some X =>
          simp only [] at heq
          by_cases hver : X.HasVersion g.ProductVersion = true
          · simp only [hver, Bool.not_true, Bool.false_eq_true, if_false] at heq
            cases hup : uploader [] (Cmd.uploadCallOf g X) with
            | error err =>
              rw [hup] at heq
              rw [heq] at hnil
              exact absurd hnil (by simp)
            | ok res =>
              obtain ⟨fileURL, fileHash⟩ := res
              rw [hup] at heq
              simp only [] at heq
              rcases hp : (Pkg.PutProduct client (Cmd.ovaSubmission g X fileURL fileHash) false
                [Pkg.getRequestOf g.ProductSlug]).1 with ⟨p2, e2⟩ | reason
              · rw [hp] at heq
                cases e2 with
                | some err =>
                  rw [heq] at hnil
                  exact absurd hnil (by simp)
                | none =>
                  refine ⟨X, fileURL, fileHash, p2, rfl, hver, hup, hp, ?_, ?_⟩
                  · rw [heq]
                  · rw [heq]
              · rw [hp] at heq
                rw [heq] at hnil
                exact absurd hnil (by simp)
          · simp only [Bool.not_eq_true] at hver
            simp only [hver, Bool.not_false, if_true] at heq
            rw [heq] at hnil
            exact absurd hnil (by simp [Cmd.missingVersionError])
    · rw [hgot] at heq
      rw [heq] at hnil
      exact absurd hnil (by simp)

/-! ### `PutProduct` on a successful answer -/

/-- C21: on a 200 answer with the body `b`, `PutProduct` of a product `P` and `GetProduct`
of the slug of `P` end in the same way: both decode `b` through the envelope
`GetProductResponse`, so they return the same product and the same error (or stop at the
same nil dereference); when `b` is the envelope of a product `Q`, `PutProduct` returns
`Q`, the copy of the server, whatever the submitted product `P` is. -/
theorem C21_PutProduct_parses_like_GetProduct (clientPut clientGet : HTTPClient)
    (P : Product) (versionUpdate : Bool) (b statusPut statusGet : String)
    (logPut logGet : List Request)
    (hput : clientPut logPut (Pkg.putRequestOf P versionUpdate) =
      .ok ⟨200, statusPut, .ok b⟩)
    (hget : clientGet logGet (Pkg.getRequestOf P.Slug) = .ok ⟨200, statusGet, .ok b⟩) :
    (Pkg.PutProduct clientPut P versionUpdate logPut).1 =
        (Pkg.GetProduct clientGet P.Slug logGet).1 ∧
      (Pkg.PutProduct clientPut P versionUpdate logPut).1 =
        Pkg.parseProductResponse P.Slug b ∧
      (∀ (Q : Product) (message : String) (statusCode : Int),
        -9223372036854775808 ≤ statusCode ∧ statusCode ≤ 9223372036854775807 →
        b = Pkg.MarshalGetProductResponse ⟨some ⟨message, statusCode, some Q⟩⟩ →
        (Pkg.PutProduct clientPut P versionUpdate logPut).1 = .returned (some Q, none)) := by
  have hp : (Pkg.PutProduct clientPut P versionUpdate logPut).1 =
      Pkg.parseProductResponse P.Slug b := by
    simp only [Pkg.putRequestOf] at hput
    simp [Pkg.PutProduct, Pkg.Put, Pkg.MakeURL, hput]
  have hg : (Pkg.GetProduct clientGet P.Slug logGet).1 =
      Pkg.parseProductResponse P.Slug b := by
    simp only [Pkg.getRequestOf] at hget
    simp [Pkg.GetProduct, Pkg.Get, Pkg.MakeURL, hget]
  refine ⟨hp.trans hg.symm, hp, ?_⟩
  intro Q message statusCode hcode hb
  rw [hp, hb]
  simp [Pkg.parseProductResponse, Pkg.Unmarshal_Marshal ⟨message, statusCode, some Q⟩ hcode]

/-- C21, at a backend that holds the product `X`: the product submitted is `X` with an
OVA added, the answer to the PUT and to the GET is the envelope of `X`, and the product
returned by `PutProduct` is `X`, not the product submitted. -/
theorem C21_PutProduct_parses_like_GetProduct_witness :
    (backendXAccepting []
        (Pkg.putRequestOf (Cmd.ovaSubmission globalsPresentVersion productX
          "https://storage.example.com/appliance.ova" "0a0b0c") false) =
        .ok ⟨200, "200 OK",
          .ok (Pkg.MarshalGetProductResponse ⟨some ⟨"testing", 200, some productX⟩⟩)⟩ ∧
      backendXAccepting [] (Pkg.getRequestOf (Cmd.ovaSubmission globalsPresentVersion productX
          "https://storage.example.com/appliance.ova" "0a0b0c").Slug) =
        .ok ⟨200, "200 OK",
          .ok (Pkg.MarshalGetProductResponse ⟨some ⟨"testing", 200, some productX⟩⟩)⟩) ∧
    ((Pkg.PutProduct backendXAccepting (Cmd.ovaSubmission globalsPresentVersion productX
          "https://storage.example.com/appliance.ova" "0a0b0c") false []).1 =
        (Pkg.GetProduct backendXAccepting (Cmd.ovaSubmission globalsPresentVersion productX
          "https://storage.example.com/appliance.ova" "0a0b0c").Slug []).1 ∧
      (Pkg.PutProduct backendXAccepting (Cmd.ovaSubmission globalsPresentVersion productX
          "https://storage.example.com/appliance.ova" "0a0b0c") false []).1 =
        .returned (some productX, none) ∧
      Cmd.ovaSubmission globalsPresentVersion productX
        "https://storage.example.com/appliance.ova" "0a0b0c" ≠ productX) :=
  have h := C21_PutProduct_parses_like_GetProduct backendXAccepting backendXAccepting
    (Cmd.ovaSubmission globalsPresentVersion productX
      "https://storage.example.com/appliance.ova" "0a0b0c") false
    (Pkg.MarshalGetProductResponse ⟨some ⟨"testing", 200, some productX⟩⟩)
    "200 OK" "200 OK" [] [] (by rfl) (by rfl)
  ⟨⟨by rfl, by rfl⟩, h.1, h.2.2 productX "testing" 200 (by decide) rfl, by decide⟩

/-! ### The list commands -/

namespace Cmd

/-- The run of `ListOVACmd` after a successful fetch, by the result of the version check. -/
theorem ListOVACmd_fetched (client : HTTPClient) (g : Globals) (X : Product)
    (hget : (Pkg.GetProduct client g.ProductSlug []).1 = .returned (some X, none)) :
    ListOVACmd client g =
      if X.HasVersion g.ProductVersion = true then
        ⟨(RenderOVAs g.OutputFormat g.ProductVersion X).1, [Pkg.getRequestOf g.ProductSlug], [],
          (RenderOVAs g.OutputFormat g.ProductVersion X).2⟩
      else
        ⟨.returned (some (Errorf ("product \"" ++ g.ProductSlug ++
          "\" does not have a version " ++ g.ProductVersion))),
          [Pkg.getRequestOf g.ProductSlug], [], []⟩ := by
  have hpair := GetProduct_pair client g.ProductSlug
  rw [hget] at hpair
  unfold ListOVACmd
  rw [hpair]
  cases hv : X.HasVersion g.ProductVersion <;> simp [hv]

/-- The run of the list-charts command after a successful fetch that fails the version
check. -/
theorem ListChartsCmd_missing (client : HTTPClient) (g : Globals) (X : Product)
    (hget : (Pkg.GetProduct client g.ProductSlug []).1 = .returned (some X, none))
    (hver : X.HasVersion g.ProductVersion = false) :
    ListChartsCmd client g =
      ⟨.returned (some (Errorf ("product \"" ++ g.ProductSlug ++
        "\" does not have a version " ++ g.ProductVersion))),
        [Pkg.getRequestOf g.ProductSlug], [], []⟩ := by
  have hpair := GetProduct_pair client g.ProductSlug
  rw [hget] at hpair
  unfold ListChartsCmd
  rw [hpair]
  simp [hver]

/-- A product none of whose versions has the number has not the version. -/
theorem hasVersion_false {product : Product} {version : String}
    (h : ∀ v ∈ product.AllVersions, v.Number ≠ version) :
    product.HasVersion version = false := by
  rw [Bool.eq_false_iff]
  intro hv
  obtain ⟨v, hm, hn⟩ := hasVersion_mem hv
  exact h v hm hn

/-- Without a deployment file of the version, `GetOVAsForVersion` returns no OVA. -/
theorem getOVAs_none {product : Product} {version : String}
    (h : ∀ f ∈ product.ProductDeploymentFiles, f.AppVersion ≠ version) :
    product.GetOVAsForVersion version = [] := by
  rw [Product.GetOVAsForVersion, Models.scanForVersion_eq, List.nil_append,
    List.filter_eq_nil_iff]
  intro f hf
  simpa using h f hf

end Cmd

/-- C22: for every fetched product and every version that is not among its `AllVersions`,
`ListOVACmd` and the list-charts command fail with the error
`product "<slug>" does not have a version <v>`, the slug being the one of the request,
without the words "please add it first" of the create commands, and write nothing to the
output. -/
theorem C22_list_missing_version (client : HTTPClient) (g : Cmd.Globals) (X : Product)
    (hget : (Pkg.GetProduct client g.ProductSlug []).1 = .returned (some X, none))
    (hver : ∀ v ∈ X.AllVersions, v.Number ≠ g.ProductVersion) :
    ((Cmd.ListOVACmd client g).err =
        .returned (some (GoError.errorString ("product \"" ++ g.ProductSlug ++
          "\" does not have a version " ++ g.ProductVersion))) ∧
      (Cmd.ListOVACmd client g).output = []) ∧
    ((Cmd.ListChartsCmd client g).err =
        .returned (some (GoError.errorString ("product \"" ++ g.ProductSlug ++
          "\" does not have a version " ++ g.ProductVersion))) ∧
      (Cmd.ListChartsCmd client g).output = []) := by
  have hhas := Cmd.hasVersion_false hver
  rw [Cmd.ListOVACmd_fetched client g X hget, Cmd.ListChartsCmd_missing client g X hget hhas]
  simp [hhas, Errorf]

set_option maxRecDepth 1000000 in
/-- C22, at the test "No product version found": the product has the versions 1.2.3 and
2.3.4 and the version 9.9.9 is listed. -/
theorem C22_list_missing_version_witness :
    ((Pkg.GetProduct backendWithOVA globalsListMissing.ProductSlug []).1 =
        .returned (some productWithOVA, none) ∧
      ∀ v ∈ productWithOVA.AllVersions, v.Number ≠ globalsListMissing.ProductVersion) ∧
    (((Cmd.ListOVACmd backendWithOVA globalsListMissing).err =
        .returned (some (GoError.errorString
          "product \"my-super-product\" does not have a version 9.9.9")) ∧
      (Cmd.ListOVACmd backendWithOVA globalsListMissing).output = []) ∧
    ((Cmd.ListChartsCmd backendWithOVA globalsListMissing).err =
        .returned (some (GoError.errorString
          "product \"my-super-product\" does not have a version 9.9.9")) ∧
      (Cmd.ListChartsCmd backendWithOVA globalsListMissing).output = [])) :=
  ⟨⟨by decide, by decide⟩,
    C22_list_missing_version backendWithOVA globalsListMissing productWithOVA
      (by decide) (by decide)⟩

/-- C23: for every product and version such that no deployment file of the product has
the version as its `AppVersion`, `RenderOVAs` in the table format writes exactly the line
`product "<slug>" <v> does not have any OVAs` and returns nil, whatever the OVAs of the
other versions are; hence `ListOVACmd` in the table format, for a fetched product that
has the version and no OVA of it, returns nil after writing this line. -/
theorem C23_RenderOVAs_without_ovas (P : Product) (v : String)
    (hnone : ∀ f ∈ P.ProductDeploymentFiles, f.AppVersion ≠ v) :
    Cmd.RenderOVAs Cmd.FormatTable v P =
        (.returned none,
          [.text ("product \"" ++ P.Slug ++ "\" " ++ v ++ " does not have any OVAs\n")]) ∧
      ∀ (client : HTTPClient) (g : Cmd.Globals),
        (Pkg.GetProduct client g.ProductSlug []).1 = .returned (some P, none) →
        g.ProductVersion = v → g.OutputFormat = Cmd.FormatTable →
        P.HasVersion v = true →
        (Cmd.ListOVACmd client g).err = .returned none ∧
          (Cmd.ListOVACmd client g).output =
            [.text ("product \"" ++ P.Slug ++ "\" " ++ v ++ " does not have any OVAs\n")] := by
  have hr : Cmd.RenderOVAs Cmd.FormatTable v P =
      (.returned none,
        [.text ("product \"" ++ P.Slug ++ "\" " ++ v ++ " does not have any OVAs\n")]) := by
    simp [Cmd.RenderOVAs, Cmd.getOVAs_none hnone]
  refine ⟨hr, ?_⟩
  intro client g hget hv hf hhas
  rw [Cmd.ListOVACmd_fetched client g P hget, hv, hf, if_pos hhas, hr]
  exact ⟨rfl, rfl⟩

set_option maxRecDepth 1000000 in
/-- C23, at the test "No ovas": the product has the versions 1.2.3 and 2.3.4 and one OVA,
of the version 1.2.3; the OVAs of the version 2.3.4 are listed. -/
theorem C23_RenderOVAs_without_ovas_witness :
    (∀ f ∈ productWithOVA.ProductDeploymentFiles, f.AppVersion ≠ "2.3.4") ∧
    (Cmd.RenderOVAs Cmd.FormatTable "2.3.4" productWithOVA =
        (.returned none,
          [.text "product \"my-super-product\" 2.3.4 does not have any OVAs\n"]) ∧
      (Cmd.ListOVACmd backendWithOVA globalsListNoOVA).err = .returned none ∧
      (Cmd.ListOVACmd backendWithOVA globalsListNoOVA).output =
        [.text "product \"my-super-product\" 2.3.4 does not have any OVAs\n"]) :=
  have h := C23_RenderOVAs_without_ovas productWithOVA "2.3.4" (by decide)
  ⟨by decide, h.1, h.2 backendWithOVA globalsListNoOVA (by decide) rfl rfl (by decide)⟩

/-! ### The list of products -/

namespace Cmd

/-- Without versions the placeholder is shown. -/
theorem latestVersion_nil {product : Product} (h : product.AllVersions = []) :
    latestVersion product = "N/A" := by
  simp [latestVersion, h]

/-- With versions the number of the one at the last position is shown. -/
theorem latestVersion_append {product : Product} {vs : List Version} {v : Version}
    (h : product.AllVersions = vs ++ [v]) : latestVersion product = v.Number := by
  have hlen : 0 < product.AllVersions.length := by simp [h]
  have hget : product.AllVersions.get
      ⟨product.AllVersions.length - 1, Nat.sub_lt hlen Nat.one_pos⟩ = v := by
    have h2 : product.AllVersions[product.AllVersions.length - 1]? = some v := by
      rw [h]
      simp
    exact (List.getElem?_eq_some_iff.mp h2).2
  rw [latestVersion, dif_pos hlen, hget]

/-- The two renderers compute the shown version in the same way. -/
theorem latestVersion_lib (product : Product) :
    Lib.latestVersion product = latestVersion product := rfl

end Cmd

/-- C24, the case that the claim leaves out: a product whose only version has the number
`N/A` has versions, and the list of products shows `N/A` for it. -/
theorem C24_version_numbered_NA_shows_NA :
    productVersionNA.AllVersions ≠ [] ∧
      Cmd.latestVersion productVersionNA = "N/A" ∧
      (Cmd.RenderProductList Cmd.FormatTable [productVersionNA]).2 =
        [.table ["Slug", "Name", "Type", "Latest Version"]
          [["my-product", "My Product", "PENDING", "N/A"]]
          ["", "", "", "", "Total count: 1"]] := by
  decide

/-- C24, amended: in the table of `RenderProductList` the column "Latest Version" of a
product is the `Number` of the element at the last position of its `AllVersions`,
whatever the numbers are, and `N/A` when `AllVersions` is empty; hence it is `N/A`
exactly when `AllVersions` is empty or the number of its last element is the text `N/A`;
the renderers of `cmd` and of `lib` compute the same value and the same table. -/
theorem C24_latest_version_is_last_element (P : Product) (products : List Product) :
    (P.AllVersions = [] → Cmd.latestVersion P = "N/A") ∧
      (∀ (vs : List Version) (v : Version),
        P.AllVersions = vs ++ [v] → Cmd.latestVersion P = v.Number) ∧
      (Cmd.latestVersion P = "N/A" ↔
        P.AllVersions = [] ∨
          ∃ (vs : List Version) (v : Version), P.AllVersions = vs ++ [v] ∧ v.Number = "N/A") ∧
      Lib.latestVersion P = Cmd.latestVersion P ∧
      Cmd.RenderProductList Cmd.FormatTable products =
        (.returned none, [.table ["Slug", "Name", "Type", "Latest Version"]
          (products.map
            (fun p => [p.Slug, p.DisplayName, p.SolutionType, Cmd.latestVersion p]))
          ["", "", "", "", "Total count: " ++ fmtInt products.length]]) ∧
      Lib.RenderProductList Lib.FormatTable products =
        Cmd.RenderProductList Cmd.FormatTable products := by
  refine ⟨Cmd.latestVersion_nil, fun vs v h => Cmd.latestVersion_append h, ?_,
    Cmd.latestVersion_lib P, ?_, ?_⟩
  · constructor
    · intro hna
      rcases List.eq_nil_or_concat P.AllVersions with hnil | ⟨vs, v, hcat⟩
      · exact Or.inl hnil
      · have hcat2 : P.AllVersions = vs ++ [v] := by simpa using hcat
        exact Or.inr ⟨vs, v, hcat2, by rw [← Cmd.latestVersion_append hcat2, hna]⟩
    · rintro (hnil | ⟨vs, v, hcat, hn⟩)
      · exact Cmd.latestVersion_nil hnil
      · rw [Cmd.latestVersion_append hcat, hn]
  · simp [Cmd.RenderProductList, Cmd.productRow]
  · rfl

/-- C24, at the versions 1.2.3, 2.3.4 and 0.0.1 in this order: the list shows 0.0.1, the
last one, and not 2.3.4, the greatest one. -/
theorem C24_latest_version_is_last_element_witness :
    productThreeVersions.AllVersions =
        [⟨"1.2.3", "PENDING"⟩, ⟨"2.3.4", "PENDING"⟩] ++ [⟨"0.0.1", "PENDING"⟩] ∧
      Cmd.latestVersion productThreeVersions = "0.0.1" ∧
      Lib.latestVersion productThreeVersions = "0.0.1" ∧
      Cmd.latestVersion productThreeVersions ≠ "2.3.4" :=
  have h := C24_latest_version_is_last_element productThreeVersions [productThreeVersions]
  have h1 := h.2.1 [⟨"1.2.3", "PENDING"⟩, ⟨"2.3.4", "PENDING"⟩] ⟨"0.0.1", "PENDING"⟩ rfl
  ⟨rfl, h1, h.2.2.2.1.trans h1, by rw [h1]; decide⟩

/-! ### `GetProductWithVersion` -/

namespace Pkg

/-- The run of `GetProductWithVersion` after a successful fetch, for a version other
than the keyword. -/
theorem GetProductWithVersion_named (client : HTTPClient) (slug version : String)
    (log : List Request) (P : Product)
    (hget : (GetProduct client slug log).1 = .returned (some P, none))
    (hv : version ≠ "latest") :
    (GetProductWithVersion client slug version log).1 =
      if P.HasVersion version = true then .returned (some P, none)
      else .returned (none, some (Errorf ("product \"" ++ slug ++
        "\" does not have a version " ++ version))) := by
  rcases hgp : GetProduct client slug log with ⟨r, log1⟩
  rw [hgp] at hget
  simp only at hget
  subst hget
  unfold GetProductWithVersion
  rw [hgp]
  cases hh : P.HasVersion version <;> simp [hv, hh]

/-- The run of `GetProductWithVersion` after a successful fetch of a product with a
version, for the keyword: the number of the first version is looked up, and found. -/
theorem GetProductWithVersion_latest (client : HTTPClient) (slug : String)
    (log : List Request) (P : Product) (first : Version) (rest : List Version)
    (hget : (GetProduct client slug log).1 = .returned (some P, none))
    (hall : P.AllVersions = first :: rest) :
    (GetProductWithVersion client slug "latest" log).1 = .returned (some P, none) := by
  rcases hgp : GetProduct client slug log with ⟨r, log1⟩
  rw [hgp] at hget
  simp only at hget
  subst hget
  have hhas : P.HasVersion first.Number = true := by
    simp [Product.HasVersion, hall, hasVersionIn]
  unfold GetProductWithVersion
  rw [hgp]
  simp [hall, hhas]

/-- The run of `GetProductWithVersion` after a successful fetch of a product without
versions, for the keyword: the index 0 is out of range. -/
theorem GetProductWithVersion_latest_empty (client : HTTPClient) (slug : String)
    (log : List Request) (P : Product)
    (hget : (GetProduct client slug log).1 = .returned (some P, none))
    (hall : P.AllVersions = []) :
    (GetProductWithVersion client slug "latest" log).1 =
      .panicked "index out of range [0] with length 0" := by
  rcases hgp : GetProduct client slug log with ⟨r, log1⟩
  rw [hgp] at hget
  simp only at hget
  subst hget
  unfold GetProductWithVersion
  rw [hgp]
  simp [hall]

end Pkg

set_option maxRecDepth 1000000 in
/-- C25, the failing input: the backend answers 200 with the body
`{"response":{"data":{}}}`, a product without versions; `GetProduct` returns it without
error, and `GetProductWithVersion` for the keyword `latest` reads `AllVersions[0]` of it
and panics (index out of range), as it does for every fetched product without versions.
On the body `{"response":{}}`, for which `GetProduct` returns nil without error, it
dereferences the nil product.  For the fetched products and versions other than these
the claim holds: a version other than the keyword gives the product exactly when the
product has the version and the error otherwise, and the keyword gives the product when
there is at least one version. -/
theorem C25_GetProductWithVersion_latest_without_versions :
    ((Pkg.GetProduct backendNoVersions "X" []).1 = .returned (some Product.zero, none) ∧
      Product.zero.AllVersions = [] ∧
      (Pkg.GetProductWithVersion backendNoVersions "X" "latest" []).1 =
        .panicked "index out of range [0] with length 0") ∧
    (Pkg.GetProductWithVersion
        (fun _ _ => .ok ⟨200, "200 OK", .ok "\x7b\"response\":\x7b\x7d\x7d"⟩) "X" "1.2.3" []).1 =
      .panicked "invalid memory address or nil pointer dereference" ∧
    (∀ (client : HTTPClient) (slug : String) (log : List Request) (P : Product),
      (Pkg.GetProduct client slug log).1 = .returned (some P, none) →
      (P.AllVersions = [] →
        (Pkg.GetProductWithVersion client slug "latest" log).1 =
          .panicked "index out of range [0] with length 0") ∧
      (P.AllVersions ≠ [] →
        (Pkg.GetProductWithVersion client slug "latest" log).1 = .returned (some P, none)) ∧
      (∀ version : String, version ≠ "latest" →
        (Pkg.GetProductWithVersion client slug version log).1 =
          if P.HasVersion version = true then .returned (some P, none)
          else .returned (none, some (GoError.errorString ("product \"" ++ slug ++
            "\" does not have a version " ++ version))))) := by
  refine ⟨⟨by decide, rfl, by decide⟩, by decide, ?_⟩
  intro client slug log P hget
  refine ⟨Pkg.GetProductWithVersion_latest_empty client slug log P hget, ?_, ?_⟩
  · intro hne
    cases hall : P.AllVersions with
    | nil => exact absurd hall hne
    | cons first rest =>
      exact Pkg.GetProductWithVersion_latest client slug log P first rest hget hall
  · intro version hv
    exact Pkg.GetProductWithVersion_named client slug version log P hget hv
